import Mathlib

/-!
Verification development for the maxsum-cpp library.

This file gives a shallow embedding, in Lean 4, of the core of the
maxsum C++ library (index arithmetic, the DiscreteFunction domain
algebra, the DomainIterator, the PostOffice message exchange and the
MaxSumController), together with theorems settling the behavioural
claims made about the code.

Modelling conventions:
* maxsum VarID and FactorID (`unsigned int`) are modelled as `Nat`.
* maxsum ValIndex (`int`) is modelled as `Int`; machine overflow is
  not modelled (no claim concerns overflow).
* maxsum ValType (`double`) is modelled as `Rat`, an exact numeric
  field: the claims treated here involve only copying, ordering and
  exact scaling of values, where `double` and `Rat` agree.
* C++ exceptions become `Except MsErr` results.
* C++ `std::sort` is modelled by insertion sort (`List.insertionSort`):
  any comparison sort agrees with it on `Nat` keys.
* Pointers (`Message*` in the PostOffice) are modelled by addresses
  (`Nat`, with `0` playing the role of the null pointer) into a heap.
-/

namespace Maxsum

/-- The error taxonomy of `maxsum/exceptions.h`. -/
inductive MsErr where
  | outOfRange
  | badDomain
  | unknownVariable
  | inconsistentDomain
  | unknownAddress
  | emptyNotice
  | noSuchElement
deriving Repr, DecidableEq

/-- The global variable register of `register.cpp`, modelled as an
explicit map from variable id to registered domain size. -/
abbrev Registry := Nat → Option Int

/-- `maxsum::getDomainSize` (register.cpp): look a variable up in the
register, failing with `UnknownVariableException` when absent. -/
def getDomainSize (reg : Registry) (var : Nat) : Except MsErr Int :=
  match reg var with
  | some siz => .ok siz
  | none => .error .unknownVariable

/-- A register is well formed when every registered size is at least 2,
which `maxsum::registerVariable` enforces (`if(2>siz) throw ...`). -/
def RegWf (reg : Registry) : Prop :=
  ∀ v s, reg v = some s → 2 ≤ s

/-- `maxsum::sub2ind` (common.h, lines 109-133), in recursive form: the
loop walks both lists while neither is exhausted, range-checks each
sub-index against its size, and accumulates `sub * skipSize` where
`skipSize` is the product of the sizes already passed. -/
def sub2ind : List Int → List Int → Except MsErr Int
  | siz :: sizs, sub :: subs =>
    if sub < 0 ∨ siz ≤ sub then .error .outOfRange
    else do
      let rest ← sub2ind sizs subs
      .ok (sub + siz * rest)
  | _, _ => .ok 0

/-- Cumulative products of a size list starting from a seed product:
`cumProd[k]` is the product of the sizes before position `k`, exactly
the `cumProd` array built by `maxsum::ind2sub`. -/
def cumProdFrom (p : Int) : List Int → List Int
  | [] => []
  | s :: ss => p :: cumProdFrom (p * s) ss

/-- The `cumProd` array of `maxsum::ind2sub` (seed 1). -/
def cumProd (siz : List Int) : List Int :=
  cumProdFrom 1 siz

/-- The downward loop of `maxsum::ind2sub`: starting from the most
significant dimension, divide the remainder by the cumulative product
and keep the quotient as that dimension's sub-index.  The argument list
is the `cumProd` array in most-significant-first order.  `Int.tdiv` and
`Int.tmod` are C++ (truncation) division and remainder. -/
def msDigits : Int → List Int → List Int
  | _, [] => []
  | r, c :: cs => r.tdiv c :: msDigits (r.tmod c) cs

/-- `maxsum::ind2sub` (common.h, lines 43-98).  When the size list is
empty the sub-index list is empty and no range check happens (the
documented special case).  Otherwise the linear index is validated
against `cumProd[n-1] * siz[n-1] - 1` and the sub-indices are produced
by the downward division loop. -/
def ind2sub (siz : List Int) (ind : Int) : Except MsErr (List Int) :=
  if siz.length = 0 then .ok []
  else
    let cp := cumProd siz
    let maxInd := cp.getLastD 1 * siz.getLastD 1 - 1
    if ind < 0 ∨ ind > maxInd then .error .outOfRange
    else .ok (msDigits ind cp.reverse).reverse

/-- The pure value computed by `sub2ind` when every range check passes:
the row-major (least-significant-first) linear index. -/
def linVal : List Int → List Int → Int
  | siz :: sizs, sub :: subs => sub + siz * linVal sizs subs
  | _, _ => 0

/-- Validity of one sub-index for one size: `0 ≤ sub < siz`. -/
abbrev SubOk (siz sub : Int) : Prop := 0 ≤ sub ∧ sub < siz

/-- A sub-index tuple is valid for a size list when the lists have the
same length and each sub-index is in range for its size. -/
abbrev SubsOk (siz sub : List Int) : Prop := List.Forall₂ SubOk siz sub

/-- `std::sort` as used on variable id lists, modelled by insertion
sort (the sort algorithm is unspecified; only sortedness matters). -/
def sortVars (l : List Nat) : List Nat :=
  List.insertionSort (· ≤ ·) l

/-- `std::unique` on a list: drops consecutive duplicate elements,
which on a sorted list removes all duplicates.  (When `a = b` the
source keeps scanning from `a`; recursing on `b :: rest` is the same
list since `a = b`.) -/
def stdUnique : List Nat → List Nat
  | [] => []
  | [a] => [a]
  | a :: b :: rest =>
    if a = b then stdUnique (b :: rest) else a :: stdUnique (b :: rest)

/-- `maxsum::DiscreteFunction` (DiscreteFunction.h): the set of domain
variables, the cached domain size of each, and the flat value array. -/
structure DiscreteFunction where
  vars_i : List Nat
  size_i : List Int
  values_i : List Rat
deriving Repr, DecidableEq

/-- The default `DiscreteFunction()` constructor: a scalar constant. -/
def constDF (val : Rat) : DiscreteFunction :=
  ⟨[], [], [val]⟩

/-- The size-caching loop shared by the constructors: look up the
registered domain size of each variable in order, failing at the first
unregistered one. -/
def mapGetSizes (reg : Registry) : List Nat → Except MsErr (List Int)
  | [] => .ok []
  | v :: vs => do
    let s ← getDomainSize reg v
    let rest ← mapGetSizes reg vs
    .ok (s :: rest)

/-- The `DiscreteFunction(VarIt begin, VarIt end, ValType val)`
constructor: sort the ids, cache each variable's registered domain
size (failing with the unknown-variable error when one is not
registered), and allocate `prod sizes` values all equal to `val`. -/
def mkDiscreteFunction (reg : Registry) (vars : List Nat) (val : Rat) :
    Except MsErr DiscreteFunction := do
  let sizes ← mapGetSizes reg (sortVars vars)
  .ok ⟨sortVars vars, sizes, List.replicate sizes.prod.toNat val⟩

/-- `DiscreteFunction::domainSize()`: the length of the value array. -/
def DiscreteFunction.domainSize (f : DiscreteFunction) : Int :=
  f.values_i.length

/-- `DiscreteFunction::noVars()`. -/
def DiscreteFunction.noVars (f : DiscreteFunction) : Nat :=
  f.vars_i.length

/-- `DiscreteFunction::operator()(ValIndex)`: unchecked linear access
into the value array (out-of-range reads are undefined behaviour in the
source; the model returns 0 there). -/
def DiscreteFunction.valueAt (f : DiscreteFunction) (ind : Int) : Rat :=
  f.values_i.getD ind.toNat 0

/-- `DiscreteFunction::operator()(IndIt begin, IndIt end)`: convert the
sub-indices with `sub2ind` over the cached sizes and read the value. -/
def DiscreteFunction.atSubs (f : DiscreteFunction) (inds : List Int) :
    Except MsErr Rat := do
  let ind ← sub2ind f.size_i inds
  .ok (f.valueAt ind)

/-- The filtering loop of
`DiscreteFunction::operator()(VarIt,VarIt,IndIt,IndIt)`: walk the
supplied (variable, index) pairs and keep the indices of the variables
that occur in this function's (sorted) domain. -/
def filterInds : List Nat → List Nat → List Int → List Int
  | mvs, v :: vs, i :: is =>
    match mvs with
    | [] => []
    | mv :: mvs' =>
      if v = mv then i :: filterInds mvs' vs is
      else filterInds (mv :: mvs') vs is
  | _, _, _ => []

/-- `DiscreteFunction::operator()(VarIt,VarIt,IndIt,IndIt)`: filter the
supplied indices down to this function's domain; if the domain is not
fully covered fail with the bad-domain error, otherwise index by the
filtered sub-indices. -/
def DiscreteFunction.atVarsSubs (f : DiscreteFunction)
    (vs : List Nat) (is : List Int) : Except MsErr Rat :=
  let inds := filterInds f.vars_i vs is
  if f.vars_i.length ≠ inds.length then .error .badDomain
  else f.atSubs inds

/-- Write-access counterpart of `DiscreteFunction.atVarsSubs`, for the
assignments `result(vars, subs) = value` in the source. -/
def DiscreteFunction.setVarsSubs (f : DiscreteFunction)
    (vs : List Nat) (is : List Int) (val : Rat) :
    Except MsErr DiscreteFunction :=
  let inds := filterInds f.vars_i vs is
  if f.vars_i.length ≠ inds.length then .error .badDomain
  else do
    let ind ← sub2ind f.size_i inds
    .ok { f with values_i := f.values_i.set ind.toNat val }

/-- `maxsum::DomainIterator` (DomainIterator.h): domain variables,
current sub-indices, current linear index, fixed flags, cached sizes,
and the finished flag. -/
structure DomainIterator where
  vars_i : List Nat
  subInd_i : List Int
  ind_i : Int
  fixed_i : List Bool
  sizes_i : List Int
  finished_i : Bool
deriving Repr, DecidableEq

/-- `DomainIterator(const DiscreteFunction&)` (DomainIterator.cpp,
lines 67-74): all sub-indices 0, linear index 0, all free, sizes
copied from the function's cache, not finished. -/
def mkDomainIterator (f : DiscreteFunction) : DomainIterator :=
  ⟨f.vars_i, List.replicate f.vars_i.length 0, 0,
   List.replicate f.vars_i.length false, f.size_i, false⟩

/-- `DomainIterator(It begin, It end)`: sort the variables, start all
sub-indices at zero, and populate the size cache from the register. -/
def mkDomainIteratorOfVars (reg : Registry) (vars : List Nat) :
    Except MsErr DomainIterator := do
  let sizes ← mapGetSizes reg (sortVars vars)
  .ok ⟨sortVars vars, List.replicate (sortVars vars).length 0, 0,
       List.replicate (sortVars vars).length false, sizes, false⟩

/-- `DomainIterator::validateRange()`: fail with the out-of-range error
when the iterator is finished. -/
def DomainIterator.validateRange (it : DomainIterator) : Except MsErr Unit :=
  if it.finished_i then .error .outOfRange else .ok ()

/-- `DomainIterator::hasNext()`. -/
def DomainIterator.hasNext (it : DomainIterator) : Bool :=
  !it.finished_i

/-- `DomainIterator::getInd()`: range-checked access to the linear
index. -/
def DomainIterator.getInd (it : DomainIterator) : Except MsErr Int := do
  it.validateRange
  .ok it.ind_i

/-- `DomainIterator::getSubInd()`: range-checked access to the
sub-indices. -/
def DomainIterator.getSubInd (it : DomainIterator) : Except MsErr (List Int) := do
  it.validateRange
  .ok it.subInd_i

/-- `DomainIterator::getVars()`. -/
def DomainIterator.getVars (it : DomainIterator) : List Nat :=
  it.vars_i

/-- `DomainIterator::isFixed(VarID)`. -/
def DomainIterator.isFixed (it : DomainIterator) (var : Nat) : Bool :=
  match List.indexOf? var it.vars_i with
  | some p => it.fixed_i.getD p false
  | none => false

/-- `DomainIterator::fixedCount()`. -/
def DomainIterator.fixedCount (it : DomainIterator) : Nat :=
  it.fixed_i.countP (fun b => b)

/-- The scanning loop of `DomainIterator::operator++` (DomainIterator.cpp,
lines 109-160): walk the sub-indices least significant first, skipping
fixed variables; increment modulo the size; stop at the first non-zero
result (not finished), and report finished when every free variable
wrapped.  `Int.tmod` is the C++ `%`. -/
def incSubs : List Int → List Bool → List Int → List Int × Bool
  | u :: us, fx :: fs, s :: ss =>
    if fx then
      let r := incSubs us fs ss
      (u :: r.1, r.2)
    else
      let u' := (u + 1).tmod s
      if 0 < u' then (u' :: us, false)
      else
        let r := incSubs us fs ss
        (u' :: r.1, r.2)
  | us, _, _ => (us, true)

/-- `DomainIterator::operator++`: update the sub-indices and the
finished flag by the scanning loop, then recompute the linear index
with `sub2ind`. -/
def DomainIterator.increment (it : DomainIterator) : Except MsErr DomainIterator := do
  let r := incSubs it.subInd_i it.fixed_i it.sizes_i
  let ind ← sub2ind it.sizes_i r.1
  .ok { it with subInd_i := r.1, finished_i := r.2, ind_i := ind }

/-- The first loop of `DomainIterator::condition(VarIt,VarIt,IndIt,IndIt)`:
for each supplied (variable, value) pair, when the variable occurs in
the iterator's domain mark it fixed and record the value. -/
def applyConditions (vars : List Nat) :
    List Nat → List Int → List Int × List Bool → List Int × List Bool
  | v :: vs, i :: is, st =>
    match List.indexOf? v vars with
    | some p => applyConditions vars vs is (st.1.set p i, st.2.set p true)
    | none => applyConditions vars vs is st
  | _, _, st => st

/-- The second loop of `DomainIterator::condition`: reset every free
sub-index to zero. -/
def zeroFree : List Int → List Bool → List Int
  | u :: us, fx :: fs => (if fx then u else 0) :: zeroFree us fs
  | us, _ => us

/-- `DomainIterator::condition(VarIt,VarIt,IndIt,IndIt)`: record the
conditions, reset free sub-indices, clear the finished flag and
recompute the linear index with `sub2ind`. -/
def DomainIterator.condition (it : DomainIterator)
    (vs : List Nat) (is : List Int) : Except MsErr DomainIterator := do
  let st := applyConditions it.vars_i vs is (it.subInd_i, it.fixed_i)
  let subs := zeroFree st.1 st.2
  let ind ← sub2ind it.sizes_i subs
  .ok { it with subInd_i := subs, fixed_i := st.2, finished_i := false, ind_i := ind }

/-- `DomainIterator::condition(const DomainIterator&)`
(DomainIterator.cpp, lines 24-29): condition on the other iterator's
variables and current sub-indices (whose accessor validates range). -/
def DomainIterator.conditionIter (it other : DomainIterator) :
    Except MsErr DomainIterator := do
  let inds ← other.getSubInd
  it.condition other.getVars inds

/-- The merge loop of `DomainIterator::addVars` (DomainIterator.h,
lines 226-254): walk the new (sorted, unique) variable list against the
old parallel arrays, preserving the old size/sub-index/fixed state of
variables already present and giving new variables their registered
size, sub-index 0, free. -/
def mergeAddVars (reg : Registry) :
    List Nat → List Nat → List Int → List Int → List Bool →
    Except MsErr (List Int × List Int × List Bool)
  | [], _, _, _, _ => .ok ([], [], [])
  | v :: rest, ov :: ovs, os :: oss, ou :: ous, ofx :: ofs =>
    if ov = v then do
      let r ← mergeAddVars reg rest ovs oss ous ofs
      .ok (os :: r.1, ou :: r.2.1, ofx :: r.2.2)
    else do
      let s ← getDomainSize reg v
      let r ← mergeAddVars reg rest (ov :: ovs) (os :: oss) (ou :: ous) (ofx :: ofs)
      .ok (s :: r.1, 0 :: r.2.1, false :: r.2.2)
  | v :: rest, _, _, _, _ => do
      let s ← getDomainSize reg v
      let r ← mergeAddVars reg rest [] [] [] []
      .ok (s :: r.1, 0 :: r.2.1, false :: r.2.2)

/-- `DomainIterator::addVars` (DomainIterator.h, lines 205-277): build
the sorted unique union of the old and new variables, merge the state
arrays, then set the linear index and clear the finished flag, and
finally swap in the new arrays.  Faithful to the source, the linear
index is computed with `sub2ind` from the OLD size and sub-index
arrays, because in the source the `sub2ind` call happens before the
`swap` calls that install the new arrays. -/
def DomainIterator.addVars (reg : Registry) (it : DomainIterator)
    (add : List Nat) : Except MsErr DomainIterator := do
  let newVars := stdUnique (sortVars (it.vars_i ++ add))
  let merged ← mergeAddVars reg newVars it.vars_i it.sizes_i it.subInd_i it.fixed_i
  let ind ← sub2ind it.sizes_i it.subInd_i
  .ok ⟨newVars, merged.2.1, ind, merged.2.2, merged.1, false⟩

/-- The copy loop of `DiscreteFunction::expand` (DiscreteFunction.h,
lines 622-625): iterate the result's full domain and write at each
linear position the old function's value at the restriction of the
current sub-indices to the old domain.  The fuel argument bounds the
number of steps; expand passes the result's domain size, which is
exactly the number of positions a fresh full-domain iterator visits. -/
def expandLoop (f : DiscreteFunction) (newVars : List Nat) :
    Nat → DomainIterator → List Rat → Except MsErr (List Rat)
  | 0, _, acc => .ok acc
  | fuel + 1, it, acc =>
    if it.finished_i then .ok acc
    else do
      let subs ← it.getSubInd
      let v ← f.atVarsSubs newVars subs
      let ind ← it.getInd
      let it' ← it.increment
      expandLoop f newVars fuel it' (acc.set ind.toNat v)

/-- `DiscreteFunction::expand(VarInd begin, VarInd end)`
(DiscreteFunction.h, lines 587-632): form the sorted unique union of
the current domain and the supplied variables; if it is no larger,
return unchanged; otherwise build a fresh function over the union and
copy every old value across the expanded domain. -/
def DiscreteFunction.expand (reg : Registry) (f : DiscreteFunction)
    (add : List Nat) : Except MsErr DiscreteFunction :=
  let newVar := stdUnique (sortVars (f.vars_i ++ add))
  if newVar.length ≤ f.vars_i.length then .ok f
  else do
    let result ← mkDiscreteFunction reg newVar 0
    let values ← expandLoop f newVar result.values_i.length
      (mkDomainIterator result) result.values_i
    .ok { result with values_i := values }

/-- The copy loop of `DiscreteFunction::condition` (DiscreteFunction.h,
lines 709-713): for every position of the conditioned iterator, copy
the source value at the current linear index into the result at the
current sub-indices restricted to the result's (free) domain. -/
def conditionLoop (f : DiscreteFunction) :
    Nat → DomainIterator → DiscreteFunction → Except MsErr DiscreteFunction
  | 0, _, acc => .ok acc
  | fuel + 1, it, acc =>
    if it.finished_i then .ok acc
    else do
      let subs ← it.getSubInd
      let ind ← it.getInd
      let acc' ← acc.setVarsSubs it.getVars subs (f.valueAt ind)
      let it' ← it.increment
      conditionLoop f fuel it' acc'

/-- `DiscreteFunction::condition(VarIt,VarIt,IndIt,IndIt)`
(DiscreteFunction.h, lines 666-720): condition an iterator over this
function's domain; if nothing was fixed return unchanged; otherwise
build the reduced function over the free variables and copy the
conditioned values across. -/
def DiscreteFunction.condition (reg : Registry) (f : DiscreteFunction)
    (vs : List Nat) (is : List Int) : Except MsErr DiscreteFunction := do
  let it ← (mkDomainIterator f).condition vs is
  if it.fixedCount = 0 then .ok f
  else do
    let freeVars := f.vars_i.filter (fun v => !it.isFixed v)
    let result ← mkDiscreteFunction reg freeVars 0
    conditionLoop f f.values_i.length it result

/-- `std::includes` on two sorted ranges (used by `maxsum::marginal` to
check that the output domain is a subset of the input domain). -/
def includes : List Nat → List Nat → Bool
  | _, [] => true
  | [], _ :: _ => false
  | a :: as, b :: bs =>
    if b < a then false
    else if a < b then includes as (b :: bs)
    else includes as bs

/-- The inner aggregation loop of `maxsum::marginal`: fold the
aggregate over the remaining free positions of the input iterator. -/
def marginalInnerLoop (inFun : DiscreteFunction) (agg : Rat → Rat → Rat) :
    Nat → DomainIterator → Rat → Except MsErr Rat
  | 0, _, acc => .ok acc
  | fuel + 1, inIt, acc =>
    if inIt.finished_i then .ok acc
    else do
      let ind ← inIt.getInd
      let it' ← inIt.increment
      marginalInnerLoop inFun agg fuel it' (agg acc (inFun.valueAt ind))

/-- The outer loop of `maxsum::marginal`: for each position of the
output function, condition a fresh input iterator on the current output
position, seed the fold with the first matching input value, aggregate
the rest, and store the result at the output position. -/
def marginalOuterLoop (inFun : DiscreteFunction) (agg : Rat → Rat → Rat) :
    Nat → DomainIterator → DiscreteFunction → Except MsErr DiscreteFunction
  | 0, _, out => .ok out
  | fuel + 1, outIt, out =>
    if outIt.finished_i then .ok out
    else do
      let inIt ← (mkDomainIterator inFun).conditionIter outIt
      let ind0 ← inIt.getInd
      let inIt1 ← inIt.increment
      let r ← marginalInnerLoop inFun agg inFun.values_i.length inIt1
        (inFun.valueAt ind0)
      let oind ← outIt.getInd
      let outIt' ← outIt.increment
      marginalOuterLoop inFun agg fuel outIt'
        { out with values_i := out.values_i.set oind.toNat r }

/-- `maxsum::marginal` (DiscreteFunction.h, lines 930-985): check that
the output domain is included in the input domain (bad-domain error
otherwise), then aggregate the input over each output position. -/
def marginal (inFun : DiscreteFunction) (agg : Rat → Rat → Rat)
    (outFun : DiscreteFunction) : Except MsErr DiscreteFunction :=
  if !(includes inFun.vars_i outFun.vars_i) then .error .badDomain
  else marginalOuterLoop inFun agg outFun.values_i.length
    (mkDomainIterator outFun) outFun

/-- `maxsum::maxMarginal`: marginalise with `std::max<ValType>`
(`(a < b) ? b : a`). -/
def maxMarginal (inFun outFun : DiscreteFunction) :
    Except MsErr DiscreteFunction :=
  marginal inFun (fun a b => if a < b then b else a) outFun

/-- `maxsum::minMarginal`: marginalise with `std::min<ValType>`
(`(b < a) ? b : a`). -/
def minMarginal (inFun outFun : DiscreteFunction) :
    Except MsErr DiscreteFunction :=
  marginal inFun (fun a b => if b < a then b else a) outFun

/-- `maxsum::meanMarginal` (DiscreteFunction.cpp, lines 775-803):
marginalise by summation, then rescale every output value by
`outFun.domainSize() / inFun.domainSize()`. -/
def meanMarginal (inFun outFun : DiscreteFunction) :
    Except MsErr DiscreteFunction := do
  let out ← marginal inFun (fun a b => a + b) outFun
  let w : Rat := (out.domainSize : Rat) / ((inFun.domainSize : Int) : Rat)
  .ok { out with values_i := out.values_i.map (fun x => x * w) }

/-- `maxsum::sameDomain` (DiscreteFunction.cpp, lines 596-605): equal
variable counts and equal variable lists. -/
def sameDomain (f1 f2 : DiscreteFunction) : Bool :=
  f1.vars_i == f2.vars_i

/-- The elementwise loop of `DiscreteFunction::operator+=(rhs)` on the
expanded function. -/
def addFunLoop (rhs : DiscreteFunction) :
    Nat → DomainIterator → DiscreteFunction → Except MsErr DiscreteFunction
  | 0, _, acc => .ok acc
  | fuel + 1, it, acc =>
    if it.finished_i then .ok acc
    else do
      let subs ← it.getSubInd
      let v ← rhs.atVarsSubs it.getVars subs
      let ind ← it.getInd
      let it' ← it.increment
      addFunLoop rhs fuel it'
        { acc with values_i := acc.values_i.set ind.toNat (acc.valueAt ind + v) }

/-- `DiscreteFunction::operator+=(const DiscreteFunction&)`
(DiscreteFunction.cpp, lines 317-343): when the domains coincide add
the value arrays directly; otherwise expand this function's domain to
the union and add position-wise through a domain iterator. -/
def DiscreteFunction.addFun (reg : Registry) (f rhs : DiscreteFunction) :
    Except MsErr DiscreteFunction :=
  if sameDomain f rhs then
    .ok { f with values_i := List.zipWith (· + ·) f.values_i rhs.values_i }
  else do
    let g ← f.expand reg rhs.vars_i
    addFunLoop rhs g.values_i.length (mkDomainIterator g) g

/-- The elementwise loop of `DiscreteFunction::operator-=(rhs)` on the
expanded function. -/
def subFunLoop (rhs : DiscreteFunction) :
    Nat → DomainIterator → DiscreteFunction → Except MsErr DiscreteFunction
  | 0, _, acc => .ok acc
  | fuel + 1, it, acc =>
    if it.finished_i then .ok acc
    else do
      let subs ← it.getSubInd
      let v ← rhs.atVarsSubs it.getVars subs
      let ind ← it.getInd
      let it' ← it.increment
      subFunLoop rhs fuel it'
        { acc with values_i := acc.values_i.set ind.toNat (acc.valueAt ind - v) }

/-- `DiscreteFunction::operator-=(const DiscreteFunction&)`
(DiscreteFunction.cpp, lines 348-374). -/
def DiscreteFunction.subFun (reg : Registry) (f rhs : DiscreteFunction) :
    Except MsErr DiscreteFunction :=
  if sameDomain f rhs then
    .ok { f with values_i := List.zipWith (· - ·) f.values_i rhs.values_i }
  else do
    let g ← f.expand reg rhs.vars_i
    subFunLoop rhs g.values_i.length (mkDomainIterator g) g

/-- `DiscreteFunction::operator-=(ValType)`: subtract a scalar from
every value. -/
def DiscreteFunction.subScalar (f : DiscreteFunction) (c : Rat) :
    DiscreteFunction :=
  { f with values_i := f.values_i.map (fun x => x - c) }

/-- `DiscreteFunction::maxnorm()` (DiscreteFunction.cpp, lines 535-547):
the maximum absolute value, starting the running maximum at 0. -/
def DiscreteFunction.maxnorm (f : DiscreteFunction) : Rat :=
  f.values_i.foldl (fun r x => if r < |x| then |x| else r) 0

/-- `DiscreteFunction::mean()` (DiscreteFunction.cpp, lines 552-561):
sum of `value / domainSize` over all values. -/
def DiscreteFunction.mean (f : DiscreteFunction) : Rat :=
  f.values_i.foldl (fun r x => r + x / ((f.domainSize : Int) : Rat)) 0

/-- The visitor loop of Eigen's `maxCoeff(&row)` used by
`DiscreteFunction::argmax()`: scan the values in order, keeping the
first index attaining the running maximum (strict improvement only). -/
def argmaxAux : List Rat → Nat → Rat → Nat → Nat
  | [], _, _, best => best
  | v :: vs, k, bv, best =>
    if bv < v then argmaxAux vs (k + 1) v k
    else argmaxAux vs (k + 1) bv best

/-- `DiscreteFunction::argmax()` (DiscreteFunction.cpp, lines 483-488):
the lowest linear index attaining the maximum value. -/
def DiscreteFunction.argmax (f : DiscreteFunction) : Int :=
  match f.values_i with
  | [] => 0
  | v :: vs => argmaxAux vs 1 v 0

/-- Well-formedness of a `DiscreteFunction` with respect to a registry
(the representation invariant maintained by the class): the domain list
is strictly sorted (sorted ascending and duplicate free), each cached
size is the registered domain size of its variable, and the value array
length is the product of the cached sizes. -/
def DFWf (reg : Registry) (f : DiscreteFunction) : Prop :=
  f.vars_i.Sorted (· < ·) ∧
  List.Forall₂ (fun v s => reg v = some s) f.vars_i f.size_i ∧
  (f.values_i.length : Int) = f.size_i.prod

/-- A small concrete registry used by witnesses: variable 1 registered
with domain size 4, variable 2 with domain size 3. -/
def regDemo : Registry :=
  fun v => if v = 1 then some 4 else if v = 2 then some 3 else none

/-- A concrete function over variable 2 used by witnesses. -/
def fDemo : DiscreteFunction :=
  ⟨[2], [3], [10, 20, 30]⟩

/-- The expansion of `fDemo` to the domain of variables 1 and 2. -/
def gDemo : DiscreteFunction :=
  ⟨[1, 2], [4, 3], [10, 10, 10, 10, 20, 20, 20, 20, 30, 30, 30, 30]⟩

/-! #### Theorems: index arithmetic -/

/-- Least-significant-first digit extraction (the mathematical mixed
radix decomposition); used to describe iterator trajectories. -/
def lsbDigits : List Int → Int → List Int
  | [], _ => []
  | s :: ss, k => k % s :: lsbDigits ss (k / s)

/-- The iterator state reached after `k` steps of a fresh full-free
iterator: sub-indices are the digits of `k`, the linear index is `k`. -/
def fullIterState (vars : List Nat) (sizes : List Int) (k : Int) :
    DomainIterator :=
  ⟨vars, lsbDigits sizes k, k, List.replicate sizes.length false, sizes, false⟩

/-- The terminal state of a full-free iterator. -/
def finishedIterState (vars : List Nat) (sizes : List Int) : DomainIterator :=
  ⟨vars, List.replicate sizes.length 0, 0,
   List.replicate sizes.length false, sizes, true⟩

/-- Lookup in an association list (the model of `std::map`, kept sorted
by key). -/
def alFind {α : Type} : List (Nat × α) → Nat → Option α
  | [], _ => none
  | (k, v) :: rest, key => if key = k then some v else alFind rest key

/-- Ordered insert-or-assign into an association list, mirroring
`std::map::operator[]` followed by assignment. -/
def alInsert {α : Type} : List (Nat × α) → Nat → α → List (Nat × α)
  | [], key, v => [(key, v)]
  | (k, w) :: rest, key, v =>
    if key < k then (key, v) :: (k, w) :: rest
    else if key = k then (key, v) :: rest
    else (k, w) :: alInsert rest key v

/-- `std::map::erase(key)`. -/
def alErase {α : Type} : List (Nat × α) → Nat → List (Nat × α)
  | [], _ => []
  | (k, v) :: rest, key => if key = k then rest else (k, v) :: alErase rest key

/-- `maxsum::util::PostOffice` (PostOffice.h): outboxes and inboxes are
maps of maps holding pointers to heap-allocated messages.  Pointers are
modelled as natural-number addresses into `heap`, with 0 playing the
role of the null pointer; `nextAddr` models the allocator and starts at
1.  The notice queue is a list, front first. -/
structure PostOffice where
  curOutboxes_i : List (Nat × List (Nat × Nat))
  prevOutboxes_i : List (Nat × List (Nat × Nat))
  curInboxes_i : List (Nat × List (Nat × Nat))
  prevInboxes_i : List (Nat × List (Nat × Nat))
  notices_i : List Nat
  nextAddr : Nat
  heap : Nat → DiscreteFunction

/-- `PostOffice()`: empty maps and queue. -/
def emptyPostOffice : PostOffice :=
  ⟨[], [], [], [], [], 1, fun _ => constDF 0⟩

/-- `PostOffice::hasEdge` (PostOffice.h, lines 601-631). -/
def PostOffice.hasEdge (po : PostOffice) (s r : Nat) : Bool :=
  match alFind po.curOutboxes_i s with
  | none => false
  | some m =>
    match alFind m r with
    | none => false
    | some _ => true

/-- `PostOffice::hasSender`. -/
def PostOffice.hasSender (po : PostOffice) (s : Nat) : Bool :=
  (alFind po.curOutboxes_i s).isSome

/-- `PostOffice::addEdge(s, r, msgVal)` (PostOffice.h, lines 461-502):
`operator[]` materialises the outbox row for `s` and a null pointer for
`r`; when the pointer is already non-null nothing further happens;
otherwise two messages are allocated: the current one shared by the
(s,r) outbox and (r,s) inbox entries, and the previous one shared by
the corresponding previous entries. -/
def PostOffice.addEdge (po : PostOffice) (s r : Nat)
    (msgVal : DiscreteFunction) : PostOffice :=
  let curOutMsgs := (alFind po.curOutboxes_i s).getD []
  let pCurOutMsg := (alFind curOutMsgs r).getD 0
  if pCurOutMsg ≠ 0 then
    { po with curOutboxes_i :=
        alInsert po.curOutboxes_i s (alInsert curOutMsgs r pCurOutMsg) }
  else
    let a1 := po.nextAddr
    let a2 := po.nextAddr + 1
    let curInMsgs := (alFind po.curInboxes_i r).getD []
    let prevInMsgs := (alFind po.prevInboxes_i r).getD []
    let prevOutMsgs := (alFind po.prevOutboxes_i s).getD []
    { po with
      curOutboxes_i := alInsert po.curOutboxes_i s (alInsert curOutMsgs r a1),
      prevOutboxes_i :=
        alInsert po.prevOutboxes_i s (alInsert prevOutMsgs r a2),
      curInboxes_i := alInsert po.curInboxes_i r (alInsert curInMsgs s a1),
      prevInboxes_i := alInsert po.prevInboxes_i r (alInsert prevInMsgs s a2),
      nextAddr := po.nextAddr + 2,
      heap := fun a => if a = a1 ∨ a = a2 then msgVal else po.heap a }

/-- `PostOffice::removeEdge(s, r)` (PostOffice.h, lines 511-575): erase
the edge entries from all four maps (the two message objects are
freed, which leaves the heap cells dangling; the model keeps their
contents).  The sender row is dropped from the current outboxes when it
becomes empty, and likewise the receiver row from the current inboxes;
the previous maps keep their (possibly empty) rows. -/
def PostOffice.removeEdge (po : PostOffice) (s r : Nat) : PostOffice :=
  match alFind po.curOutboxes_i s with
  | none => po
  | some curOutMsgs =>
    match alFind curOutMsgs r with
    | none => po
    | some _ =>
      let curOutMsgs2 := alErase curOutMsgs r
      let prevOutMsgs2 := alErase ((alFind po.prevOutboxes_i s).getD []) r
      let curInMsgs2 := alErase ((alFind po.curInboxes_i r).getD []) s
      let prevInMsgs2 := alErase ((alFind po.prevInboxes_i r).getD []) s
      let newCurOut :=
        if curOutMsgs2.isEmpty then
          alErase (alInsert po.curOutboxes_i s curOutMsgs2) s
        else alInsert po.curOutboxes_i s curOutMsgs2
      let newCurIn :=
        if curInMsgs2.isEmpty then
          alErase (alInsert po.curInboxes_i r curInMsgs2) r
        else alInsert po.curInboxes_i r curInMsgs2
      { po with
        curOutboxes_i := newCurOut,
        prevOutboxes_i := alInsert po.prevOutboxes_i s prevOutMsgs2,
        curInboxes_i := newCurIn,
        prevInboxes_i := alInsert po.prevInboxes_i r prevInMsgs2 }

/-- One receiver step of the inbox-pointer loop of
`PostOffice::swapOutBoxes` (PostOffice.h, lines 412-436): when the
receiver's current inbox has an entry for the sender, exchange it with
the previous inbox entry (`operator[]` materialises a null previous
entry when absent). -/
def swapInboxEntry (s : Nat) (prevIn : List (Nat × List (Nat × Nat)))
    (r : Nat) (curMsgs : List (Nat × Nat)) :
    List (Nat × Nat) × List (Nat × List (Nat × Nat)) :=
  match alFind curMsgs s with
  | none => (curMsgs, prevIn)
  | some curPtr =>
    let prevMsgs := (alFind prevIn r).getD []
    let prevPtr := (alFind prevMsgs s).getD 0
    (alInsert curMsgs s prevPtr, alInsert prevIn r (alInsert prevMsgs s curPtr))

/-- The inbox-pointer loop of `PostOffice::swapOutBoxes`, walking the
current inboxes in key order and threading the previous inboxes. -/
def swapInboxesLoop (s : Nat) :
    List (Nat × List (Nat × Nat)) → List (Nat × List (Nat × Nat)) →
    List (Nat × List (Nat × Nat)) × List (Nat × List (Nat × Nat))
  | [], prevIn => ([], prevIn)
  | (r, curMsgs) :: rest, prevIn =>
    let e := swapInboxEntry s prevIn r curMsgs
    let t := swapInboxesLoop s rest e.2
    ((r, e.1) :: t.1, t.2)

/-- `PostOffice::swapOutBoxes(s)` (PostOffice.h, lines 395-439): no-op
for an unknown sender; otherwise the whole outbox row of `s` is swapped
with the previous row in one go, and the inbox pointers are swapped
receiver by receiver. -/
def PostOffice.swapOutBoxes (po : PostOffice) (s : Nat) : PostOffice :=
  match alFind po.curOutboxes_i s with
  | none => po
  | some curOut =>
    let prevOut := (alFind po.prevOutboxes_i s).getD []
    let swapped := swapInboxesLoop s po.curInboxes_i po.prevInboxes_i
    { po with
      curOutboxes_i := alInsert po.curOutboxes_i s prevOut,
      prevOutboxes_i := alInsert po.prevOutboxes_i s curOut,
      curInboxes_i := swapped.1,
      prevInboxes_i := swapped.2 }

/-- `PostOffice::notify(r)`: push the receiver on the notice queue. -/
def PostOffice.notify (po : PostOffice) (r : Nat) : PostOffice :=
  { po with notices_i := po.notices_i ++ [r] }

/-- `PostOffice::newMail()`. -/
def PostOffice.newMail (po : PostOffice) : Bool :=
  !po.notices_i.isEmpty

/-- `PostOffice::noticeCount()`. -/
def PostOffice.noticeCount (po : PostOffice) : Nat :=
  po.notices_i.length

/-- `PostOffice::notifyAll()`: clear the queue, then push every
registered receiver in key order (`receivers_i` is the key set of the
current inboxes). -/
def PostOffice.notifyAll (po : PostOffice) : PostOffice :=
  { po with notices_i := po.curInboxes_i.map Prod.fst }

/-- `PostOffice::popNotice()`: fail with the empty-notice error on an
empty queue, otherwise return the front receiver and pop it. -/
def PostOffice.popNotice (po : PostOffice) : Except MsErr (Nat × PostOffice) :=
  match po.notices_i with
  | [] => .error .emptyNotice
  | r :: rest => .ok (r, { po with notices_i := rest })

/-- The current outbox pointer stored for the pair `(s, r)`. -/
def curOutPtr (po : PostOffice) (s r : Nat) : Option Nat :=
  match alFind po.curOutboxes_i s with
  | none => none
  | some m => alFind m r

/-- The previous outbox pointer stored for the pair `(s, r)`. -/
def prevOutPtr (po : PostOffice) (s r : Nat) : Option Nat :=
  match alFind po.prevOutboxes_i s with
  | none => none
  | some m => alFind m r

/-- The current inbox pointer stored for the pair `(r, s)`. -/
def curInPtr (po : PostOffice) (r s : Nat) : Option Nat :=
  match alFind po.curInboxes_i r with
  | none => none
  | some m => alFind m s

/-- The previous inbox pointer stored for the pair `(r, s)`. -/
def prevInPtr (po : PostOffice) (r s : Nat) : Option Nat :=
  match alFind po.prevInboxes_i r with
  | none => none
  | some m => alFind m s

/-- Strict key-sortedness of an association list (the `std::map`
representation invariant). -/
@[reducible] def alSorted {α : Type} (l : List (Nat × α)) : Prop :=
  List.Pairwise (fun a b => a.1 < b.1) l

/-- The PostOffice representation invariant checked by the assertions
in `addEdge`: boxes are ordered maps, every outbox pointer is aliased
by the matching inbox pointer (and conversely, in both generations),
and an edge has a current message exactly when it has a previous
one. -/
@[reducible] def POWf (po : PostOffice) : Prop :=
  alSorted po.curInboxes_i ∧
  (∀ e ∈ po.curOutboxes_i, ∀ p ∈ e.2, curInPtr po p.1 e.1 = some p.2) ∧
  (∀ e ∈ po.curInboxes_i, ∀ p ∈ e.2, curOutPtr po p.1 e.1 = some p.2) ∧
  (∀ e ∈ po.prevOutboxes_i, ∀ p ∈ e.2, prevInPtr po p.1 e.1 = some p.2) ∧
  (∀ e ∈ po.prevInboxes_i, ∀ p ∈ e.2, prevOutPtr po p.1 e.1 = some p.2) ∧
  (∀ e ∈ po.curOutboxes_i, ∀ p ∈ e.2, prevOutPtr po e.1 p.1 ≠ none) ∧
  (∀ e ∈ po.prevOutboxes_i, ∀ p ∈ e.2, curOutPtr po e.1 p.1 ≠ none)

/-- `maxsum::MaxSumController` (MaxSumController.h): the factor map,
the value-assignment map (declared `values_i` in the header; the
implementation file refers to the same map as `actions_i`), the two
post offices, and the iteration/threshold parameters. -/
structure MaxSumController where
  factors_i : List (Nat × DiscreteFunction)
  values_i : List (Nat × Int)
  fac2varMsgs_i : PostOffice
  var2facMsgs_i : PostOffice
  maxIterations_i : Int
  maxNormThreshold_i : Rat

/-- `MaxSumController(maxIterations, maxnorm)`: empty graph. -/
def mkMaxSumController (maxIter : Int) (thresh : Rat) : MaxSumController :=
  ⟨[], [], emptyPostOffice, emptyPostOffice, maxIter, thresh⟩

/-- `MaxSumController::getFactor(id)` (MaxSumController.h, lines
302-311): fail with the no-such-element error for an unknown factor,
otherwise return the stored function. -/
def MaxSumController.getFactor (c : MaxSumController) (id : Nat) :
    Except MsErr DiscreteFunction :=
  match alFind c.factors_i id with
  | none => .error .noSuchElement
  | some f => .ok f

/-- `MaxSumController::getValue(var)` (MaxSumController.h, lines
387-396): fail with the no-such-element error for an unknown variable,
otherwise return the stored assignment. -/
def MaxSumController.getValue (c : MaxSumController) (var : Nat) :
    Except MsErr Int :=
  match alFind c.values_i var with
  | none => .error .noSuchElement
  | some v => .ok v

/-- `std::set_difference` on sorted ranges: `sdDrop a bs` discards the
leading elements of `bs` below `a` and reports whether `a` itself is
matched (consuming it if so). -/
def sdDrop (a : Nat) : List Nat → Bool × List Nat
  | [] => (false, [])
  | b :: bs =>
    if b < a then sdDrop a bs
    else if b = a then (true, bs)
    else (false, b :: bs)

/-- `std::set_difference` on sorted ranges: the elements of the first
list not present in the second. -/
def setDiffGo : List Nat → List Nat → List Nat
  | [], _ => []
  | a :: as, bs =>
    let d := sdDrop a bs
    if d.1 then setDiffGo as d.2 else a :: setDiffGo as d.2

/-- The edge-removal loop of `MaxSumController::setFactor`
(MaxSumController.cpp, lines 50-68): for each variable, remove both
post-office edges, and drop the variable's assignment when it no
longer sends to any factor. -/
def setFactorRemoveLoop (id : Nat) :
    List Nat → MaxSumController → MaxSumController
  | [], c => c
  | v :: rest, c =>
    let f2v := c.fac2varMsgs_i.removeEdge id v
    let v2f := c.var2facMsgs_i.removeEdge v id
    let vals := if v2f.hasSender v then c.values_i else alErase c.values_i v
    setFactorRemoveLoop id rest
      { c with fac2varMsgs_i := f2v, var2facMsgs_i := v2f, values_i := vals }

/-- The edge-creation loop of `MaxSumController::setFactor`
(MaxSumController.cpp, lines 73-93): for each variable of the new
factor, add both post-office edges with a zero message template over
that variable, and touch the variable's assignment (initialising it to
0 when absent). -/
def setFactorAddLoop (reg : Registry) (id : Nat) :
    List Nat → MaxSumController → Except MsErr MaxSumController
  | [], c => .ok c
  | v :: rest, c => do
    let tmpl ← mkDiscreteFunction reg [v] 0
    let f2v := c.fac2varMsgs_i.addEdge id v tmpl
    let v2f := c.var2facMsgs_i.addEdge v id tmpl
    let vals := match alFind c.values_i v with
      | some _ => c.values_i
      | none => alInsert c.values_i v 0
    setFactorAddLoop reg id rest
      { c with fac2varMsgs_i := f2v, var2facMsgs_i := v2f, values_i := vals }

/-- `MaxSumController::setFactor(id, factor)` (MaxSumController.cpp,
lines 34-105): compute the variables dropped from the factor's old
domain (`std::set_difference` writes into a zero-initialised vector of
the old domain's size, so the removal loop also visits the padding
zeros), remove their edges, add edges for the new domain, store the
factor, and notify everybody on both post offices. -/
def MaxSumController.setFactor (reg : Registry) (c : MaxSumController)
    (id : Nat) (factor : DiscreteFunction) : Except MsErr MaxSumController := do
  let oldValue := (alFind c.factors_i id).getD (constDF 0)
  let diff := setDiffGo oldValue.vars_i factor.vars_i
  let toRemove := diff ++ List.replicate (oldValue.noVars - diff.length) 0
  let c1 := setFactorRemoveLoop id toRemove
    { c with factors_i := alInsert c.factors_i id oldValue }
  let c2 ← setFactorAddLoop reg id factor.vars_i c1
  let c3 := { c2 with factors_i := alInsert c2.factors_i id factor }
  .ok { c3 with
    var2facMsgs_i := c3.var2facMsgs_i.notifyAll,
    fac2varMsgs_i := c3.fac2varMsgs_i.notifyAll }

/-- The message-summation loops of the two update passes
(MaxSumController.cpp, lines 266-270 and 349-353): fold `operator+=`
of each current input message over the accumulator. -/
def sumInMsgs (reg : Registry) (heap : Nat → DiscreteFunction) :
    DiscreteFunction → List (Nat × Nat) → Except MsErr DiscreteFunction
  | acc, [] => .ok acc
  | acc, (_, addr) :: rest => do
    let acc2 ← acc.addFun reg (heap addr)
    sumInMsgs reg heap acc2 rest

/-- The per-neighbour loop of `MaxSumController::updateFac2VarMsgs`
(MaxSumController.cpp, lines 277-305): subtract the neighbour's current
input message from the sum, max-marginalise into the neighbour's
current output message, and notify the neighbour when the change
exceeds the threshold. -/
def fac2VarNeighborLoop (reg : Registry) (thresh : Rat)
    (msgSum : DiscreteFunction) (v2fHeap : Nat → DiscreteFunction)
    (curIn prevOut : List (Nat × Nat)) :
    List (Nat × Nat) → PostOffice → Except MsErr PostOffice
  | [], po => .ok po
  | (var, curAddr) :: rest, po => do
    let prevAddr ← match alFind prevOut var with
      | none => .error .unknownAddress
      | some a => Except.ok a
    let curInAddr ← match alFind curIn var with
      | none => .error .unknownAddress
      | some a => Except.ok a
    let sumOfOthers ← msgSum.subFun reg (v2fHeap curInAddr)
    let newMsg ← maxMarginal sumOfOthers (po.heap curAddr)
    let po2 := { po with
      heap := fun a => if a = curAddr then newMsg else po.heap a }
    let msgDiff ← newMsg.subFun reg (po2.heap prevAddr)
    let po3 := if thresh < msgDiff.maxnorm then po2.notify var else po2
    fac2VarNeighborLoop reg thresh msgSum v2fHeap curIn prevOut rest po3

/-- The body of each `updateFac2VarMsgs` queue iteration
(MaxSumController.cpp, lines 251-306): swap the factor's outboxes, sum
the factor with its current input messages (`factors_i[fac]`
default-constructs a missing factor), and update each neighbour. -/
def processFactor (reg : Registry) (c : MaxSumController) (fac : Nat) :
    Except MsErr MaxSumController := do
  let f2v := c.fac2varMsgs_i.swapOutBoxes fac
  let msgSum0 := (alFind c.factors_i fac).getD (constDF 0)
  let factors2 := alInsert c.factors_i fac msgSum0
  let curIn ← match alFind c.var2facMsgs_i.curInboxes_i fac with
    | none => .error .unknownAddress
    | some m => Except.ok m
  let msgSum ← sumInMsgs reg c.var2facMsgs_i.heap msgSum0 curIn
  let curOut ← match alFind f2v.curOutboxes_i fac with
    | none => .error .unknownAddress
    | some m => Except.ok m
  let prevOut ← match alFind f2v.prevOutboxes_i fac with
    | none => .error .unknownAddress
    | some m => Except.ok m
  let f2v2 ← fac2VarNeighborLoop reg c.maxNormThreshold_i msgSum
    c.var2facMsgs_i.heap curIn prevOut curOut f2v
  .ok { c with factors_i := factors2, fac2varMsgs_i := f2v2 }

/-- The drain loop of `updateFac2VarMsgs`: the queue is popped until
empty; every notification posted during processing goes to the other
post office, so iterating the popped prefix is exact. -/
def fac2VarQueueLoop (reg : Registry) :
    List Nat → MaxSumController → Except MsErr MaxSumController
  | [], c => .ok c
  | fac :: rest, c => do
    let c2 ← processFactor reg c fac
    fac2VarQueueLoop reg rest c2

/-- `MaxSumController::updateFac2VarMsgs()` (MaxSumController.cpp,
lines 242-313): drain the variable-to-factor notice queue, process
each noticed factor, and return the factor-to-variable notice count. -/
def MaxSumController.updateFac2VarMsgs (reg : Registry)
    (c : MaxSumController) : Except MsErr (Nat × MaxSumController) := do
  let queue := c.var2facMsgs_i.notices_i
  let c1 := { c with
    var2facMsgs_i := { c.var2facMsgs_i with notices_i := [] } }
  let c2 ← fac2VarQueueLoop reg queue c1
  .ok (c2.fac2varMsgs_i.noticeCount, c2)

/-- The per-neighbour loop of `MaxSumController::updateVar2FacMsgs`
(MaxSumController.cpp, lines 361-390): assign the message sum to the
neighbour's current output message, subtract the neighbour's current
input message, normalise by the mean, and notify the neighbour when
the change exceeds the threshold. -/
def var2FacNeighborLoop (reg : Registry) (thresh : Rat)
    (msgSum : DiscreteFunction) (f2vHeap : Nat → DiscreteFunction)
    (curIn prevOut : List (Nat × Nat)) :
    List (Nat × Nat) → PostOffice → Except MsErr PostOffice
  | [], po => .ok po
  | (fac, curAddr) :: rest, po => do
    let prevAddr ← match alFind prevOut fac with
      | none => .error .unknownAddress
      | some a => Except.ok a
    let curInAddr ← match alFind curIn fac with
      | none => .error .unknownAddress
      | some a => Except.ok a
    let m1 ← msgSum.subFun reg (f2vHeap curInAddr)
    let m2 := m1.subScalar m1.mean
    let po2 := { po with
      heap := fun a => if a = curAddr then m2 else po.heap a }
    let msgDiff ← m2.subFun reg (po2.heap prevAddr)
    let po3 := if thresh < msgDiff.maxnorm then po2.notify fac else po2
    var2FacNeighborLoop reg thresh msgSum f2vHeap curIn prevOut rest po3

/-- The body of each `updateVar2FacMsgs` queue iteration
(MaxSumController.cpp, lines 333-402): swap the variable's outboxes,
sum a zero function over the variable with its current input messages,
update each neighbour, and re-assign the variable when its best action
changed, notifying everybody on the variable-to-factor post office. -/
def processVar (reg : Registry) (c : MaxSumController) (var : Nat) :
    Except MsErr MaxSumController := do
  let v2f := c.var2facMsgs_i.swapOutBoxes var
  let msgSum0 ← mkDiscreteFunction reg [var] 0
  let curIn ← match alFind c.fac2varMsgs_i.curInboxes_i var with
    | none => .error .unknownAddress
    | some m => Except.ok m
  let msgSum ← sumInMsgs reg c.fac2varMsgs_i.heap msgSum0 curIn
  let curOut ← match alFind v2f.curOutboxes_i var with
    | none => .error .unknownAddress
    | some m => Except.ok m
  let prevOut ← match alFind v2f.prevOutboxes_i var with
    | none => .error .unknownAddress
    | some m => Except.ok m
  let v2f2 ← var2FacNeighborLoop reg c.maxNormThreshold_i msgSum
    c.fac2varMsgs_i.heap curIn prevOut curOut v2f
  let curAction := (alFind c.values_i var).getD 0
  let vals2 := alInsert c.values_i var curAction
  let bestAction := msgSum.argmax
  if bestAction ≠ curAction then
    .ok { c with
      var2facMsgs_i := v2f2.notifyAll,
      values_i := alInsert vals2 var bestAction }
  else
    .ok { c with var2facMsgs_i := v2f2, values_i := vals2 }

/-- The drain loop of `updateVar2FacMsgs`. -/
def var2FacQueueLoop (reg : Registry) :
    List Nat → MaxSumController → Except MsErr MaxSumController
  | [], c => .ok c
  | var :: rest, c => do
    let c2 ← processVar reg c var
    var2FacQueueLoop reg rest c2

/-- `MaxSumController::updateVar2FacMsgs()` (MaxSumController.cpp,
lines 324-410): drain the factor-to-variable notice queue, process
each noticed variable, and return the variable-to-factor notice
count. -/
def MaxSumController.updateVar2FacMsgs (reg : Registry)
    (c : MaxSumController) : Except MsErr (Nat × MaxSumController) := do
  let queue := c.fac2varMsgs_i.notices_i
  let c1 := { c with
    fac2varMsgs_i := { c.fac2varMsgs_i with notices_i := [] } }
  let c2 ← var2FacQueueLoop reg queue c1
  .ok (c2.var2facMsgs_i.noticeCount, c2)

/-- One iteration of `MaxSumController::optimise()`: a factor-to-
variable pass followed by a variable-to-factor pass, summing the
update counts. -/
def oneIteration (reg : Registry) (c : MaxSumController) :
    Except MsErr (Nat × MaxSumController) := do
  let r1 ← c.updateFac2VarMsgs reg
  let r2 ← r1.2.updateVar2FacMsgs reg
  .ok (r1.1 + r2.1, r2.2)

/-- The `optimise` loop (MaxSumController.cpp, lines 425-456) with the
remaining iteration budget made explicit: the C++ guard
`iterationCount < maxIterations_i` is equivalent to a positive
remaining budget `(maxIterations_i - count).toNat`. -/
def optimiseLoop (reg : Registry) :
    Nat → Int → MaxSumController → Except MsErr (Int × MaxSumController)
  | 0, count, c => .ok (count, c)
  | fuel + 1, count, c => do
    let r ← oneIteration reg c
    if r.1 = 0 then .ok (count + 1, r.2)
    else optimiseLoop reg fuel (count + 1) r.2

/-- `MaxSumController::optimise()` (MaxSumController.cpp, lines
417-464): run up to `maxIterations_i` iterations, stopping early after
any iteration with zero message updates, and return the number of
iterations performed. -/
def MaxSumController.optimise (reg : Registry) (c : MaxSumController) :
    Except MsErr (Int × MaxSumController) :=
  optimiseLoop reg c.maxIterations_i.toNat 0 c

/-- The controller state after `k` full iterations (ignoring the early
stop). -/
def afterIters (reg : Registry) (c : MaxSumController) :
    Nat → Except MsErr MaxSumController
  | 0 => .ok c
  | k + 1 => do
    let cprev ← afterIters reg c k
    let r ← oneIteration reg cprev
    .ok r.2

/-- The number of message updates produced by iteration `k` (counting
from 0). -/
def updatesAt (reg : Registry) (c : MaxSumController) (k : Nat) :
    Except MsErr Nat := do
  let cprev ← afterIters reg c k
  let r ← oneIteration reg cprev
  .ok r.1

theorem sub2ind_ok_of_subsOk {siz sub : List Int} (h : SubsOk siz sub) :
    sub2ind siz sub = .ok (linVal siz sub) := by
  induction h with
  | nil => rfl
  | cons hab _ ih =>
    simp only [sub2ind, linVal, ih]
    rw [if_neg]
    · rfl
    · push_neg
      exact ⟨hab.1, hab.2⟩

theorem prod_pos_of_subsOk {siz sub : List Int} (h : SubsOk siz sub) :
    0 < siz.prod := by
  induction h with
  | nil => simp
  | cons hab _ ih =>
    rw [List.prod_cons]
    exact mul_pos (lt_of_le_of_lt hab.1 hab.2) ih

theorem linVal_bounds {siz sub : List Int} (h : SubsOk siz sub) :
    0 ≤ linVal siz sub ∧ linVal siz sub < siz.prod := by
  induction h with
  | nil => simp [linVal]
  | @cons s u sizs subs hab htail ih =>
    have hs : 0 < s := lt_of_le_of_lt hab.1 hab.2
    constructor
    · simp only [linVal]
      have hmul := mul_nonneg (le_of_lt hs) ih.1
      linarith [hab.1]
    · simp only [linVal, List.prod_cons]
      have h1 : u + s * linVal sizs subs < s + s * linVal sizs subs := by
        linarith [hab.2]
      have h2 : s + s * linVal sizs subs = s * (linVal sizs subs + 1) := by ring
      have h3 : s * (linVal sizs subs + 1) ≤ s * sizs.prod :=
        mul_le_mul_of_nonneg_left (Int.lt_iff_add_one_le.mp ih.2) (le_of_lt hs)
      linarith

theorem linVal_append_single {siz sub : List Int}
    (h : siz.length = sub.length) (s u : Int) :
    linVal (siz ++ [s]) (sub ++ [u]) = linVal siz sub + siz.prod * u := by
  induction siz generalizing sub with
  | nil =>
    cases sub with
    | nil => simp [linVal]
    | cons b bs => simp at h
  | cons a as ih =>
    cases sub with
    | nil => simp at h
    | cons b bs =>
      simp only [List.length_cons, Nat.succ_inj] at h
      have hih := @ih bs h
      simp only [List.cons_append, linVal, List.prod_cons, List.append_eq] at hih ⊢
      rw [hih]
      ring

theorem cumProdFrom_append (p : Int) (l : List Int) (s : Int) :
    cumProdFrom p (l ++ [s]) = cumProdFrom p l ++ [p * l.prod] := by
  induction l generalizing p with
  | nil => simp [cumProdFrom]
  | cons a as ih =>
    have hih := ih (p * a)
    simp only [List.cons_append, cumProdFrom, List.prod_cons, List.append_eq] at hih ⊢
    rw [hih, mul_assoc]

/-- The downward division loop of `ind2sub` recovers the sub-indices of
any in-range linear value, stated on reversed lists so that induction
peels the most significant dimension first. -/
theorem msDigits_linVal {rsiz rsub : List Int}
    (h : List.Forall₂ SubOk rsiz rsub) :
    msDigits (linVal rsiz.reverse rsub.reverse) (cumProd rsiz.reverse).reverse
      = rsub := by
  induction h with
  | nil => rfl
  | @cons s u rs ru hab htail ih =>
    have hrev : SubsOk rs.reverse ru.reverse := List.forall₂_reverse_iff.mpr htail
    have hlen : rs.reverse.length = ru.reverse.length := hrev.length_eq
    have hP : 0 < (rs.reverse).prod := prod_pos_of_subsOk hrev
    have hL := linVal_bounds hrev
    set L := linVal rs.reverse ru.reverse with hLdef
    set P := (rs.reverse).prod with hPdef
    have hkey : linVal (s :: rs).reverse (u :: ru).reverse = L + P * u := by
      simp only [List.reverse_cons]
      exact linVal_append_single hlen s u
    have hcp : (cumProd (s :: rs).reverse).reverse
        = P :: (cumProd rs.reverse).reverse := by
      simp only [List.reverse_cons, cumProd, cumProdFrom_append, one_mul]
      simp
    rw [hkey, hcp]
    simp only [msDigits]
    have hnn : 0 ≤ L + P * u := by
      have hmul := mul_nonneg (le_of_lt hP) hab.1
      linarith [hL.1]
    have hdiv : (L + P * u).tdiv P = u := by
      rw [Int.tdiv_eq_ediv hnn (le_of_lt hP),
          Int.add_mul_ediv_left L u (ne_of_gt hP),
          Int.ediv_eq_zero_of_lt hL.1 hL.2, zero_add]
    have hmod : (L + P * u).tmod P = L := by
      rw [Int.tmod_eq_emod hnn (le_of_lt hP), Int.add_mul_emod_self_left,
          Int.emod_eq_of_lt hL.1 hL.2]
    rw [hdiv, hmod, ih]

theorem cumProd_getLast_mul {siz : List Int} (h : siz ≠ []) :
    (cumProd siz).getLastD 1 * siz.getLastD 1 = siz.prod := by
  induction siz using List.reverseRecOn with
  | nil => simp at h
  | append_singleton l s _ =>
    simp only [cumProd, cumProdFrom_append, one_mul]
    rw [List.getLastD_concat, List.getLastD_concat, List.prod_append,
        List.prod_cons, List.prod_nil, mul_one]

/-- Round trip: `ind2sub` inverts `sub2ind` on every valid input. -/
theorem ind2sub_linVal {siz sub : List Int} (h : SubsOk siz sub) :
    ind2sub siz (linVal siz sub) = .ok sub := by
  cases h with
  | nil => rfl
  | @cons s u ss us hab htail =>
    have h' : SubsOk (s :: ss) (u :: us) := List.Forall₂.cons hab htail
    have hb := linVal_bounds h'
    have hne : s :: ss ≠ [] := by simp
    unfold ind2sub
    rw [if_neg (by simp)]
    rw [if_neg]
    · have hdig := @msDigits_linVal ((s :: ss).reverse)
        ((u :: us).reverse) (List.forall₂_reverse_iff.mpr h')
      simp only [List.reverse_reverse] at hdig
      rw [hdig, List.reverse_reverse]
    · push_neg
      refine ⟨hb.1, ?_⟩
      rw [cumProd_getLast_mul hne]
      have hle := Int.lt_iff_add_one_le.mp hb.2
      linarith

theorem lsbDigits_subsOk :
    ∀ (siz : List Int), (∀ s ∈ siz, 0 < s) →
    ∀ (k : Int), 0 ≤ k → k < siz.prod → SubsOk siz (lsbDigits siz k) := by
  intro siz
  induction siz with
  | nil => intro _ k _ _; exact List.Forall₂.nil
  | cons s ss ih =>
    intro hpos k h0 h1
    have hs : 0 < s := hpos s (by simp)
    refine List.Forall₂.cons
      ⟨Int.emod_nonneg k (ne_of_gt hs), Int.emod_lt_of_pos k hs⟩ ?_
    apply ih (fun x hx => hpos x (by simp [hx])) _
      (Int.ediv_nonneg h0 (le_of_lt hs))
    rw [List.prod_cons] at h1
    rw [Int.ediv_lt_iff_lt_mul hs]
    calc k < s * ss.prod := h1
      _ = ss.prod * s := mul_comm _ _

theorem linVal_lsbDigits :
    ∀ (siz : List Int), (∀ s ∈ siz, 0 < s) →
    ∀ (k : Int), 0 ≤ k → k < siz.prod → linVal siz (lsbDigits siz k) = k := by
  intro siz
  induction siz with
  | nil =>
    intro _ k h0 h1
    have hk1 : k < 1 := by simpa using h1
    have h2 : linVal [] (lsbDigits [] k) = 0 := rfl
    rw [h2]
    omega
  | cons s ss ih =>
    intro hpos k h0 h1
    have hs : 0 < s := hpos s (by simp)
    have hd : k / s < ss.prod := by
      rw [List.prod_cons] at h1
      rw [Int.ediv_lt_iff_lt_mul hs]
      calc k < s * ss.prod := h1
        _ = ss.prod * s := mul_comm _ _
    simp only [lsbDigits, linVal]
    rw [ih (fun x hx => hpos x (by simp [hx])) _
      (Int.ediv_nonneg h0 (le_of_lt hs)) hd]
    exact Int.emod_add_ediv k s

/-- `ind2sub` produces exactly the mixed radix digits of an in-range
linear index. -/
theorem ind2sub_eq_lsbDigits {siz : List Int} (hpos : ∀ s ∈ siz, 0 < s)
    {k : Int} (h0 : 0 ≤ k) (h1 : k < siz.prod) :
    ind2sub siz k = .ok (lsbDigits siz k) := by
  have h := lsbDigits_subsOk siz hpos k h0 h1
  have hrt := ind2sub_linVal h
  rwa [linVal_lsbDigits siz hpos k h0 h1] at hrt

/-- `sub2ind` raises the out-of-range error as soon as some sub-index of
the common prefix of the two lists is out of range for its size. -/
theorem sub2ind_error_of_badPrefix :
    ∀ (siz sub : List Int),
    (∃ k, ∃ (h1 : k < siz.length) (h2 : k < sub.length),
      ¬ SubOk (siz.get ⟨k, h1⟩) (sub.get ⟨k, h2⟩)) →
    sub2ind siz sub = .error .outOfRange := by
  intro siz
  induction siz with
  | nil =>
    intro sub h
    obtain ⟨k, h1, -, -⟩ := h
    simp at h1
  | cons s ss ih =>
    intro sub h
    cases sub with
    | nil =>
      obtain ⟨k, -, h2, -⟩ := h
      simp at h2
    | cons u us =>
      by_cases hbad : u < 0 ∨ s ≤ u
      · simp only [sub2ind, if_pos hbad]
      · have hok : SubOk s u := by
          push_neg at hbad
          exact ⟨hbad.1, hbad.2⟩
        have hrest : ∃ k, ∃ (h1 : k < ss.length) (h2 : k < us.length),
            ¬ SubOk (ss.get ⟨k, h1⟩) (us.get ⟨k, h2⟩) := by
          obtain ⟨k, h1, h2, hk⟩ := h
          cases k with
          | zero => exact absurd hok hk
          | succ k' =>
            exact ⟨k', Nat.lt_of_succ_lt_succ h1, Nat.lt_of_succ_lt_succ h2, hk⟩
        simp only [sub2ind, if_neg hbad, ih us hrest]
        rfl

/-- For a nonempty size list, `ind2sub` raises the out-of-range error
whenever the linear index is negative or at least the total size. -/
theorem ind2sub_error_of_outOfRange {siz : List Int} (hne : siz ≠ [])
    {ind : Int} (hbad : ind < 0 ∨ siz.prod ≤ ind) :
    ind2sub siz ind = .error .outOfRange := by
  unfold ind2sub
  rw [if_neg (by simpa using hne)]
  rw [if_pos]
  rw [cumProd_getLast_mul hne]
  rcases hbad with h | h
  · exact Or.inl h
  · right
    linarith

/-- `linVal` only reads the common prefix of its two argument lists. -/
theorem linVal_eq_take :
    ∀ (siz sub : List Int),
    linVal siz sub
      = linVal (siz.take (min siz.length sub.length))
               (sub.take (min siz.length sub.length)) := by
  intro siz
  induction siz with
  | nil =>
    intro sub
    simp only [List.take_nil]
    rfl
  | cons s ss ih =>
    intro sub
    cases sub with
    | nil => rfl
    | cons u us =>
      simp only [List.length_cons, Nat.succ_min_succ, List.take_succ_cons, linVal]
      rw [← ih us]

/-- `sub2ind` succeeds whenever the common prefix is in range. -/
theorem sub2ind_ok_of_prefixOk :
    ∀ (siz sub : List Int),
    (∀ k, ∀ (h1 : k < siz.length) (h2 : k < sub.length),
      SubOk (siz.get ⟨k, h1⟩) (sub.get ⟨k, h2⟩)) →
    sub2ind siz sub = .ok (linVal siz sub) := by
  intro siz
  induction siz with
  | nil => intro sub _; rfl
  | cons s ss ih =>
    intro sub h
    cases sub with
    | nil => rfl
    | cons u us =>
      have hok : SubOk s u := h 0 (by simp) (by simp)
      have hrest : ∀ k, ∀ (h1 : k < ss.length) (h2 : k < us.length),
          SubOk (ss.get ⟨k, h1⟩) (us.get ⟨k, h2⟩) := by
        intro k h1 h2
        exact h (k + 1) (Nat.succ_lt_succ h1) (Nat.succ_lt_succ h2)
      have hneg : ¬ (u < 0 ∨ s ≤ u) := by
        push_neg
        exact ⟨hok.1, hok.2⟩
      simp only [sub2ind, if_neg hneg, ih us hrest, linVal]
      rfl

/-! #### Theorems: sorting and deduplication -/

theorem sortVars_perm (l : List Nat) : (sortVars l).Perm l :=
  List.perm_insertionSort _ l

theorem sortVars_sorted (l : List Nat) : (sortVars l).Sorted (· ≤ ·) :=
  List.sorted_insertionSort _ l

theorem sortVars_mem {l : List Nat} {a : Nat} : a ∈ sortVars l ↔ a ∈ l :=
  (sortVars_perm l).mem_iff

theorem sortVars_eq_self {l : List Nat} (h : l.Sorted (· ≤ ·)) :
    sortVars l = l :=
  List.Sorted.insertionSort_eq h

theorem stdUnique_mem : ∀ (l : List Nat) (a : Nat), a ∈ stdUnique l ↔ a ∈ l := by
  intro l
  induction l with
  | nil => intro a; simp [stdUnique]
  | cons b l' ih =>
    intro a
    cases l' with
    | nil => simp [stdUnique]
    | cons c rest =>
      by_cases hbc : b = c
      · subst hbc
        simp only [stdUnique, eq_self_iff_true, if_true]
        rw [ih a]
        simp only [List.mem_cons]
        tauto
      · simp only [stdUnique, if_neg hbc, List.mem_cons]
        rw [ih a]
        simp only [List.mem_cons]

theorem stdUnique_sorted :
    ∀ (l : List Nat), l.Sorted (· ≤ ·) → (stdUnique l).Sorted (· < ·) := by
  intro l
  induction l with
  | nil => intro _; simp [stdUnique]
  | cons b l' ih =>
    intro hs
    rcases List.sorted_cons.mp hs with ⟨hb, hs'⟩
    cases l' with
    | nil => simp [stdUnique]
    | cons c rest =>
      by_cases hbc : b = c
      · subst hbc
        simp only [stdUnique, eq_self_iff_true, if_true]
        exact ih hs'
      · simp only [stdUnique, if_neg hbc]
        rw [List.sorted_cons]
        refine ⟨?_, ih hs'⟩
        intro x hx
        rw [stdUnique_mem] at hx
        have hbc' : b < c := lt_of_le_of_ne (hb c (by simp)) hbc
        rcases List.mem_cons.mp hx with rfl | hxr
        · exact hbc'
        · rcases List.sorted_cons.mp hs' with ⟨hc, -⟩
          exact lt_of_lt_of_le hbc' (hc x hxr)

/-- Two strictly sorted lists with the same members are equal. -/
theorem sorted_lt_eq_of_mem_iff :
    ∀ {l₁ l₂ : List Nat}, l₁.Sorted (· < ·) → l₂.Sorted (· < ·) →
    (∀ a, a ∈ l₁ ↔ a ∈ l₂) → l₁ = l₂ := by
  intro l₁
  induction l₁ with
  | nil =>
    intro l₂ _ _ hmem
    cases l₂ with
    | nil => rfl
    | cons b bs =>
      exact absurd ((hmem b).mpr (by simp)) (by simp)
  | cons a as ih =>
    intro l₂ h₁ h₂ hmem
    cases l₂ with
    | nil => exact absurd ((hmem a).mp (by simp)) (by simp)
    | cons b bs =>
      rcases List.sorted_cons.mp h₁ with ⟨ha, has⟩
      rcases List.sorted_cons.mp h₂ with ⟨hb, hbs⟩
      have hab : a = b := by
        have h1 : a ∈ b :: bs := (hmem a).mp (by simp)
        have h2 : b ∈ a :: as := (hmem b).mpr (by simp)
        rcases List.mem_cons.mp h1 with h | h
        · exact h
        · rcases List.mem_cons.mp h2 with h' | h'
          · exact h'.symm
          · exact absurd (lt_trans (hb a h) (ha b h')) (lt_irrefl b)
      subst hab
      have htail : ∀ x, x ∈ as ↔ x ∈ bs := by
        intro x
        constructor
        · intro hx
          rcases List.mem_cons.mp ((hmem x).mp (List.mem_cons_of_mem a hx)) with h | h
          · exact absurd (h ▸ ha x hx) (lt_irrefl _)
          · exact h
        · intro hx
          rcases List.mem_cons.mp ((hmem x).mpr (List.mem_cons_of_mem a hx)) with h | h
          · exact absurd (h ▸ hb x hx) (lt_irrefl _)
          · exact h
      rw [ih has hbs htail]

/-! #### Theorems: iterator trajectories -/

theorem lsbDigits_zero (sizes : List Int) :
    lsbDigits sizes 0 = List.replicate sizes.length 0 := by
  induction sizes with
  | nil => rfl
  | cons s ss ih =>
    simp only [lsbDigits, Int.zero_emod, Int.zero_ediv, List.length_cons,
      List.replicate, ih]

theorem incSubs_allFixed :
    ∀ (us : List Int) (fs : List Bool) (ss : List Int),
    (∀ b ∈ fs, b = true) → incSubs us fs ss = (us, true) := by
  intro us
  induction us with
  | nil => intro fs ss _; cases fs <;> cases ss <;> rfl
  | cons u us ih =>
    intro fs ss hfs
    cases fs with
    | nil => rfl
    | cons fx fs' =>
      cases ss with
      | nil => rfl
      | cons s ss' =>
        have hfx : fx = true := hfs fx (by simp)
        subst hfx
        have hih := ih fs' ss' (fun b hb => hfs b (by simp [hb]))
        simp [incSubs, hih]

theorem zeroFree_allFixed :
    ∀ (us : List Int) (fs : List Bool),
    (∀ b ∈ fs, b = true) → zeroFree us fs = us := by
  intro us
  induction us with
  | nil => intro fs _; cases fs <;> rfl
  | cons u us ih =>
    intro fs hfs
    cases fs with
    | nil => rfl
    | cons fx fs' =>
      have hfx : fx = true := hfs fx (by simp)
      subst hfx
      have hih := ih fs' (fun b hb => hfs b (by simp [hb]))
      simp [zeroFree, hih]

/-- One step of the increment scan on a full-free iterator over
positive sizes performs the mixed radix increment. -/
theorem incSubs_digits :
    ∀ (sizes : List Int), (∀ s ∈ sizes, 0 < s) →
    ∀ (k : Int), 0 ≤ k → k < sizes.prod →
    incSubs (lsbDigits sizes k) (List.replicate sizes.length false) sizes
      = if k + 1 < sizes.prod then (lsbDigits sizes (k + 1), false)
        else (List.replicate sizes.length 0, true) := by
  intro sizes
  induction sizes with
  | nil =>
    intro _ k h0 h1
    have h1' : k < 1 := by simpa using h1
    have hk : k = 0 := by omega
    subst hk
    have hlt : ¬ ((0 : Int) + 1 < ([] : List Int).prod) := by simp
    rw [if_neg hlt]
    rfl
  | cons s ss ih =>
    intro hpos k h0 h1
    have hs : 0 < s := hpos s (by simp)
    have hpos' : ∀ x ∈ ss, 0 < x := fun x hx => hpos x (by simp [hx])
    have hkm : 0 ≤ k % s := Int.emod_nonneg k (ne_of_gt hs)
    have hkm2 : k % s < s := Int.emod_lt_of_pos k hs
    have hdecomp : k % s + s * (k / s) = k := Int.emod_add_ediv k s
    have hknn : 0 ≤ k / s := Int.ediv_nonneg h0 (le_of_lt hs)
    have hklt : k / s < ss.prod := by
      rw [List.prod_cons] at h1
      rw [Int.ediv_lt_iff_lt_mul hs]
      calc k < s * ss.prod := h1
        _ = ss.prod * s := mul_comm _ _
    have htm : (k % s + 1).tmod s = (k % s + 1) % s :=
      Int.tmod_eq_emod (by omega) (le_of_lt hs)
    simp only [lsbDigits, List.length_cons, List.replicate, incSubs,
      Bool.false_eq_true, if_false, htm]
    by_cases hcarry : k % s + 1 < s
    · have hmm : (k % s + 1) % s = k % s + 1 :=
        Int.emod_eq_of_lt (by omega) hcarry
      rw [hmm, if_pos (by omega)]
      have hdm : (k + 1) / s = k / s ∧ (k + 1) % s = k % s + 1 :=
        (Int.ediv_emod_unique hs).mpr ⟨by omega, by omega, hcarry⟩
      have hnext : k + 1 < (s :: ss).prod := by
        rcases lt_or_eq_of_le (Int.lt_iff_add_one_le.mp h1) with h | h
        · exact h
        · exfalso
          have : (k + 1) % s = 0 := by
            rw [h, List.prod_cons]
            exact Int.mul_emod_right s ss.prod
          omega
      rw [if_pos hnext]
      simp only [lsbDigits, hdm.1, hdm.2]
    · have hwrap : k % s + 1 = s := by omega
      have hmm : (k % s + 1) % s = 0 := by
        rw [hwrap, Int.emod_self]
      rw [hmm, if_neg (by omega)]
      have hk1 : k + 1 = s * (k / s + 1) := by
        rw [mul_add, mul_one]
        omega
      rw [ih hpos' (k / s) hknn hklt]
      by_cases hinner : k / s + 1 < ss.prod
      · rw [if_pos hinner]
        have hnext : k + 1 < (s :: ss).prod := by
          rw [List.prod_cons, hk1]
          exact mul_lt_mul_of_pos_left hinner hs
        rw [if_pos hnext]
        have hd : (k + 1) / s = k / s + 1 := by
          rw [hk1]
          exact Int.mul_ediv_cancel_left _ (ne_of_gt hs)
        have hm : (k + 1) % s = 0 := by
          rw [hk1]
          exact Int.mul_emod_right s _
        simp only [lsbDigits, hd, hm]
      · have hend : k / s + 1 = ss.prod := by omega
        have hnext : ¬ (k + 1 < (s :: ss).prod) := by
          rw [List.prod_cons, hk1, hend]
          omega
        rw [if_neg hnext, if_neg hinner]

theorem mkDomainIterator_eq_fullIterState {f : DiscreteFunction}
    (hlen : f.vars_i.length = f.size_i.length) :
    mkDomainIterator f = fullIterState f.vars_i f.size_i 0 := by
  unfold mkDomainIterator fullIterState
  rw [lsbDigits_zero, hlen]

theorem increment_fullIterState {vars : List Nat} {sizes : List Int}
    (hpos : ∀ s ∈ sizes, 0 < s) {k : Int} (h0 : 0 ≤ k) (h1 : k < sizes.prod) :
    (fullIterState vars sizes k).increment
      = .ok (if k + 1 < sizes.prod then fullIterState vars sizes (k + 1)
             else finishedIterState vars sizes) := by
  unfold DomainIterator.increment fullIterState
  simp only
  rw [incSubs_digits sizes hpos k h0 h1]
  by_cases h : k + 1 < sizes.prod
  · rw [if_pos h, if_pos h]
    have hok := sub2ind_ok_of_subsOk (lsbDigits_subsOk sizes hpos (k + 1)
      (by omega) h)
    rw [linVal_lsbDigits sizes hpos (k + 1) (by omega) h] at hok
    simp only [hok]
    rfl
  · rw [if_neg h, if_neg h]
    have hprod : 0 < sizes.prod := by omega
    have hok := sub2ind_ok_of_subsOk (lsbDigits_subsOk sizes hpos 0
      (le_refl 0) hprod)
    rw [linVal_lsbDigits sizes hpos 0 (le_refl 0) hprod] at hok
    have hok' : sub2ind sizes (List.replicate sizes.length 0) = .ok 0 := by
      rw [lsbDigits_zero sizes] at hok
      exact hok
    simp only [hok']
    rfl

/-! #### Theorems: constructors and wellformedness -/

theorem sizes_pos_of_forall₂ {reg : Registry} (hreg : RegWf reg) :
    ∀ {vars : List Nat} {sizs : List Int},
    List.Forall₂ (fun v s => reg v = some s) vars sizs →
    ∀ s ∈ sizs, 0 < s := by
  intro vars sizs h
  induction h with
  | nil => intro s hs; simp at hs
  | @cons v s vs ss hvs _ ih =>
    intro x hx
    rcases List.mem_cons.mp hx with rfl | hx'
    · have := hreg v x hvs
      omega
    · exact ih x hx'

theorem mapGetSizes_forall₂ {reg : Registry} :
    ∀ {l : List Nat} {sizs : List Int},
    mapGetSizes reg l = .ok sizs →
    List.Forall₂ (fun v s => reg v = some s) l sizs := by
  intro l
  induction l with
  | nil =>
    intro sizs h
    cases h
    exact List.Forall₂.nil
  | cons v vs ih =>
    intro sizs h
    simp only [mapGetSizes] at h
    cases hv : reg v with
    | none => rw [getDomainSize, hv] at h; cases h
    | some s =>
      rw [getDomainSize, hv] at h
      cases htail : mapGetSizes reg vs with
      | error e => rw [htail] at h; cases h
      | ok rest =>
        rw [htail] at h
        cases h
        exact List.Forall₂.cons hv (ih htail)

theorem mapGetSizes_ok {reg : Registry} :
    ∀ {l : List Nat}, (∀ v ∈ l, ∃ s, reg v = some s) →
    ∃ sizs, mapGetSizes reg l = .ok sizs := by
  intro l
  induction l with
  | nil => intro _; exact ⟨[], rfl⟩
  | cons v vs ih =>
    intro h
    obtain ⟨s, hs⟩ := h v (by simp)
    obtain ⟨rest, hrest⟩ := ih (fun x hx => h x (by simp [hx]))
    refine ⟨s :: rest, ?_⟩
    simp only [mapGetSizes, getDomainSize, hs, hrest]
    rfl

theorem mkDiscreteFunction_eq {reg : Registry} {vars : List Nat} {val : Rat}
    (h : ∀ v ∈ vars, ∃ s, reg v = some s) :
    ∃ sizs, mapGetSizes reg (sortVars vars) = .ok sizs ∧
      List.Forall₂ (fun v s => reg v = some s) (sortVars vars) sizs ∧
      mkDiscreteFunction reg vars val
        = .ok ⟨sortVars vars, sizs, List.replicate sizs.prod.toNat val⟩ := by
  have h' : ∀ v ∈ sortVars vars, ∃ s, reg v = some s := by
    intro v hv
    exact h v (sortVars_mem.mp hv)
  obtain ⟨sizs, hsizs⟩ := mapGetSizes_ok h'
  refine ⟨sizs, hsizs, mapGetSizes_forall₂ hsizs, ?_⟩
  unfold mkDiscreteFunction
  rw [hsizs]
  rfl

theorem mkDiscreteFunction_wf {reg : Registry} (hreg : RegWf reg)
    {vars : List Nat} {val : Rat} {f : DiscreteFunction}
    (hsorted : vars.Sorted (· < ·))
    (hmk : mkDiscreteFunction reg vars val = .ok f) :
    f.vars_i = vars ∧ DFWf reg f ∧
      f.values_i = List.replicate f.size_i.prod.toNat val := by
  have hss : sortVars vars = vars := sortVars_eq_self (hsorted.imp le_of_lt)
  unfold mkDiscreteFunction at hmk
  rw [hss] at hmk
  cases hsizs : mapGetSizes reg vars with
  | error e => rw [hsizs] at hmk; cases hmk
  | ok sizs =>
    rw [hsizs] at hmk
    cases hmk
    have hrel := mapGetSizes_forall₂ hsizs
    have hpos := sizes_pos_of_forall₂ hreg hrel
    have hprod : 0 < sizs.prod := List.prod_pos hpos
    refine ⟨rfl, ⟨hsorted, hrel, ?_⟩, rfl⟩
    simp only [List.length_replicate]
    omega

/-! #### Theorems: the union domain built by expand and addVars -/

theorem unionVars_sorted (vars add : List Nat) :
    (stdUnique (sortVars (vars ++ add))).Sorted (· < ·) :=
  stdUnique_sorted _ (sortVars_sorted _)

theorem unionVars_mem {vars add : List Nat} {x : Nat} :
    x ∈ stdUnique (sortVars (vars ++ add)) ↔ x ∈ vars ∨ x ∈ add := by
  rw [stdUnique_mem, sortVars_mem, List.mem_append]

theorem unionVars_sublist {vars add : List Nat}
    (hsorted : vars.Sorted (· < ·)) :
    List.Sublist vars (stdUnique (sortVars (vars ++ add))) := by
  apply List.sublist_of_subperm_of_sorted (r := (· ≤ ·))
  · apply List.subperm_of_subset hsorted.nodup
    intro x hx
    exact unionVars_mem.mpr (Or.inl hx)
  · exact hsorted.imp le_of_lt
  · exact (unionVars_sorted vars add).imp le_of_lt

theorem unionVars_eq_of_subset {vars add : List Nat}
    (hsorted : vars.Sorted (· < ·)) (hsub : ∀ v ∈ add, v ∈ vars) :
    stdUnique (sortVars (vars ++ add)) = vars := by
  apply sorted_lt_eq_of_mem_iff (unionVars_sorted vars add) hsorted
  intro a
  rw [unionVars_mem]
  constructor
  · rintro (h | h)
    · exact h
    · exact hsub a h
  · exact Or.inl

theorem unionVars_longer_of_not_subset {vars add : List Nat}
    (hsorted : vars.Sorted (· < ·)) (hsub : ¬ ∀ v ∈ add, v ∈ vars) :
    vars.length < (stdUnique (sortVars (vars ++ add))).length := by
  have hsl := @unionVars_sublist vars add hsorted
  rcases lt_or_eq_of_le hsl.length_le with h | h
  · exact h
  · exfalso
    have := hsl.eq_of_length h
    apply hsub
    intro v hv
    rw [this]
    exact unionVars_mem.mpr (Or.inr hv)

/-! #### Theorems: the filtered accessor -/

/-- When `vars` is a sublist of the strictly sorted list `sup` and both
carry registry-consistent size caches, filtering a valid sub-index
tuple for `sup` down to `vars` yields a valid sub-index tuple for
`vars`'s sizes. -/
theorem filterInds_spec {reg : Registry} :
    ∀ {vars sup : List Nat}, List.Sublist vars sup → sup.Sorted (· < ·) →
    ∀ {supSiz sizs sub : List Int},
    List.Forall₂ (fun v s => reg v = some s) sup supSiz →
    List.Forall₂ (fun v s => reg v = some s) vars sizs →
    SubsOk supSiz sub →
    SubsOk sizs (filterInds vars sup sub) := by
  intro vars sup hsl
  induction hsl with
  | slnil =>
    intro _ supSiz sizs sub hsup hvars hsub
    cases hvars
    cases hsup
    cases hsub
    exact List.Forall₂.nil
  | @cons vars' sup' a hsl' ih =>
    intro hsorted supSiz sizs sub hsup hvars hsub
    rcases List.sorted_cons.mp hsorted with ⟨ha, hsorted'⟩
    cases hsup with
    | cons hrel hsup' =>
      cases hsub with
      | cons hi hsub' =>
        rename_i s supSiz' i sub'
        have hne : ∀ mv ∈ vars', a ≠ mv := by
          intro mv hmv
          exact ne_of_lt (ha mv (hsl'.subset hmv))
        cases hvars with
        | nil =>
          simp only [filterInds]
          exact List.Forall₂.nil
        | @cons mv sv mvs sizs' hrelVar hvars' =>
          have hneq : a ≠ mv := hne mv (by simp)
          simp only [filterInds, if_neg hneq]
          exact ih hsorted' hsup' (List.Forall₂.cons hrelVar hvars') hsub'
  | @cons₂ vars' sup' a hsl' ih =>
    intro hsorted supSiz sizs sub hsup hvars hsub
    rcases List.sorted_cons.mp hsorted with ⟨-, hsorted'⟩
    cases hsup with
    | cons hrelSup hsup' =>
      cases hvars with
      | cons hrelVar hvars' =>
        cases hsub with
        | cons hi hsub' =>
          rename_i s supSiz' sv sizs' i sub'
          simp only [filterInds, if_pos rfl]
          have hss : sv = s := by
            rw [hrelSup] at hrelVar
            exact (Option.some_inj.mp hrelVar).symm
          refine List.Forall₂.cons ?_ (ih hsorted' hsup' hvars' hsub')
          rw [hss]
          exact hi

/-! #### Theorems: the expand copy loop -/

theorem ok_bind {ε α β : Type} (a : α) (g : α → Except ε β) :
    (Except.ok a : Except ε α) >>= g = g a := rfl

theorem error_bind {ε α β : Type} (e : ε) (g : α → Except ε β) :
    (Except.error e : Except ε α) >>= g = Except.error e := rfl

theorem fullIter_getSubInd (v : List Nat) (s : List Int) (k : Int) :
    (fullIterState v s k).getSubInd = .ok (lsbDigits s k) := rfl

theorem fullIter_getInd (v : List Nat) (s : List Int) (k : Int) :
    (fullIterState v s k).getInd = .ok k := rfl

theorem expandLoop_finished {f : DiscreteFunction} {nv : List Nat}
    {fuel : Nat} {it : DomainIterator} {acc : List Rat}
    (h : it.finished_i = true) :
    expandLoop f nv fuel it acc = .ok acc := by
  cases fuel with
  | zero => rfl
  | succ n => simp [expandLoop, h]

theorem forall₂_registered {reg : Registry} :
    ∀ {vs : List Nat} {ss : List Int},
    List.Forall₂ (fun v s => reg v = some s) vs ss →
    ∀ v ∈ vs, ∃ s, reg v = some s := by
  intro vs ss h
  induction h with
  | nil => intro v hv; simp at hv
  | @cons a s as ss' hrel _ ih =>
    intro v hv
    rcases List.mem_cons.mp hv with rfl | hv'
    · exact ⟨s, hrel⟩
    · exact ih v hv'

theorem atVarsSubs_ok {reg : Registry} {f : DiscreteFunction}
    (hwf : DFWf reg f) {sup : List Nat} {supSiz sub : List Int}
    (hsl : List.Sublist f.vars_i sup) (hsorted : sup.Sorted (· < ·))
    (hsupRel : List.Forall₂ (fun v s => reg v = some s) sup supSiz)
    (hsub : SubsOk supSiz sub) :
    f.atVarsSubs sup sub
      = .ok (f.valueAt (linVal f.size_i (filterInds f.vars_i sup sub))) := by
  have hvalid := filterInds_spec hsl hsorted hsupRel hwf.2.1 hsub
  have hlen : f.vars_i.length = (filterInds f.vars_i sup sub).length := by
    rw [hwf.2.1.length_eq, hvalid.length_eq]
  unfold DiscreteFunction.atVarsSubs
  rw [if_neg (by simp [hlen])]
  unfold DiscreteFunction.atSubs
  rw [sub2ind_ok_of_subsOk hvalid]
  rfl

/-- Full characterisation of the expand copy loop: starting at position
`k` of a full-free iterator with sufficient fuel, the loop succeeds and
overwrites exactly the positions `k ≤ j < prod` with the function `g`
of the position. -/
theorem expandLoop_spec {f : DiscreteFunction} {newVars : List Nat}
    {sizes : List Int} (hpos : ∀ s ∈ sizes, 0 < s) (g : Int → Rat)
    (hg : ∀ j : Int, 0 ≤ j → j < sizes.prod →
      f.atVarsSubs newVars (lsbDigits sizes j) = .ok (g j)) :
    ∀ (fuel : Nat) (k : Int) (acc : List Rat),
    0 ≤ k → k < sizes.prod → sizes.prod ≤ k + fuel →
    ∃ l, expandLoop f newVars fuel (fullIterState newVars sizes k) acc = .ok l ∧
      l.length = acc.length ∧
      ∀ j : Nat, j < acc.length →
        l.getD j 0 = if k ≤ (j : Int) ∧ (j : Int) < sizes.prod then g j
                     else acc.getD j 0 := by
  intro fuel
  induction fuel with
  | zero =>
    intro k acc h0 h1 h2
    omega
  | succ n ih =>
    intro k acc h0 h1 h2
    have hherz : (fullIterState newVars sizes k).finished_i = false := rfl
    simp only [expandLoop, hherz, Bool.false_eq_true, if_false,
      fullIter_getSubInd, fullIter_getInd, ok_bind]
    rw [hg k h0 h1]
    simp only [ok_bind]
    rw [increment_fullIterState hpos h0 h1]
    simp only [ok_bind]
    by_cases hnext : k + 1 < sizes.prod
    · rw [if_pos hnext]
      obtain ⟨l, hl, hlen, hval⟩ := ih (k + 1) (acc.set k.toNat (g k))
        (by omega) hnext (by omega)
      refine ⟨l, ?_, ?_, ?_⟩
      · exact hl
      · rw [hlen, List.length_set]
      · intro j hj
        have hj' : j < (acc.set k.toNat (g k)).length := by
          rw [List.length_set]; exact hj
        rw [hval j hj']
        by_cases hcase : k + 1 ≤ (j : Int) ∧ (j : Int) < sizes.prod
        · rw [if_pos hcase, if_pos (by omega)]
        · rw [if_neg hcase]
          by_cases hjk : j = k.toNat
          · have hjint : (j : Int) = k := by omega
            rw [if_pos (by omega)]
            rw [List.getD_eq_getElem?_getD, List.getElem?_set, if_pos hjk.symm,
              if_pos (by omega)]
            simp [hjint]
          · have hne2 : ¬ (k ≤ (j : Int) ∧ (j : Int) < sizes.prod) := by
              omega
            rw [if_neg hne2]
            rw [List.getD_eq_getElem?_getD, List.getElem?_set,
              if_neg (fun hc => hjk hc.symm), ← List.getD_eq_getElem?_getD]
    · rw [if_neg hnext]
      refine ⟨acc.set k.toNat (g k), ?_, List.length_set acc _ _, ?_⟩
      · exact expandLoop_finished rfl
      · intro j hj
        by_cases hjk : j = k.toNat
        · have hjint : (j : Int) = k := by omega
          rw [if_pos (by omega)]
          rw [List.getD_eq_getElem?_getD, List.getElem?_set, if_pos hjk.symm,
            if_pos (by omega)]
          simp [hjint]
        · have hne2 : ¬ (k ≤ (j : Int) ∧ (j : Int) < sizes.prod) := by
            omega
          rw [if_neg hne2]
          rw [List.getD_eq_getElem?_getD, List.getElem?_set,
            if_neg (fun hc => hjk hc.symm), ← List.getD_eq_getElem?_getD]

/-- Characterisation of a successful non-trivial `expand`: the result's
domain is the sorted unique union, it is well formed, and every value
is the old function evaluated at the restricted sub-indices. -/
theorem expand_spec {reg : Registry} (hreg : RegWf reg)
    {f : DiscreteFunction} (hwf : DFWf reg f) {add : List Nat}
    (hadd : ∀ v ∈ add, ∃ s, reg v = some s)
    (hnsub : ¬ ∀ v ∈ add, v ∈ f.vars_i) :
    ∃ g : DiscreteFunction, f.expand reg add = .ok g ∧
      g.vars_i = stdUnique (sortVars (f.vars_i ++ add)) ∧ DFWf reg g ∧
      ∀ j : Nat, j < g.values_i.length →
        f.atVarsSubs g.vars_i (lsbDigits g.size_i (j : Int))
          = .ok (g.values_i.getD j 0) := by
  have hUsorted := unionVars_sorted f.vars_i add
  have hUlen := unionVars_longer_of_not_subset hwf.1 hnsub
  have hUreg : ∀ v ∈ stdUnique (sortVars (f.vars_i ++ add)), ∃ s, reg v = some s := by
    intro v hv
    rcases unionVars_mem.mp hv with h | h
    · exact forall₂_registered hwf.2.1 v h
    · exact hadd v h
  obtain ⟨mkres, hmk⟩ : ∃ r, mkDiscreteFunction reg
      (stdUnique (sortVars (f.vars_i ++ add))) 0 = .ok r := by
    obtain ⟨sizs, -, -, hmk⟩ := @mkDiscreteFunction_eq _ _ 0 hUreg
    exact ⟨_, hmk⟩
  obtain ⟨hvars, hmkwf, hvals⟩ := mkDiscreteFunction_wf hreg hUsorted hmk
  have hpos : ∀ s ∈ mkres.size_i, 0 < s := sizes_pos_of_forall₂ hreg hmkwf.2.1
  have hprodpos : 0 < mkres.size_i.prod := List.prod_pos hpos
  have hlenvs : mkres.vars_i.length = mkres.size_i.length := hmkwf.2.1.length_eq
  have hlenval : (mkres.values_i.length : Int) = mkres.size_i.prod := hmkwf.2.2
  -- the per-position value function
  have hg : ∀ j : Int, 0 ≤ j → j < mkres.size_i.prod →
      f.atVarsSubs mkres.vars_i (lsbDigits mkres.size_i j)
        = .ok (f.valueAt (linVal f.size_i
            (filterInds f.vars_i mkres.vars_i (lsbDigits mkres.size_i j)))) := by
    intro j hj0 hj1
    have hsl : List.Sublist f.vars_i mkres.vars_i := by
      rw [hvars]
      exact unionVars_sublist hwf.1
    have hso : mkres.vars_i.Sorted (· < ·) := hmkwf.1
    exact atVarsSubs_ok hwf hsl hso hmkwf.2.1 (lsbDigits_subsOk _ hpos j hj0 hj1)
  obtain ⟨l, hloop, hllen, hlval⟩ := expandLoop_spec hpos
    (fun j => f.valueAt (linVal f.size_i
      (filterInds f.vars_i mkres.vars_i (lsbDigits mkres.size_i j))))
    hg mkres.values_i.length 0 mkres.values_i (le_refl 0) (by omega) (by omega)
  refine ⟨{ mkres with values_i := l }, ?_, ?_, ?_, ?_⟩
  · simp only [DiscreteFunction.expand]
    rw [if_neg (by omega), hmk]
    simp only [ok_bind]
    rw [mkDomainIterator_eq_fullIterState hlenvs, ← hvars, hloop]
    rfl
  · exact hvars
  · exact ⟨hmkwf.1, hmkwf.2.1, by
      show (l.length : Int) = mkres.size_i.prod
      rw [hllen]
      exact hlenval⟩
  · intro j hj
    have hj2 : j < mkres.values_i.length := by
      have : j < l.length := hj
      rwa [hllen] at this
    have hjprod : (j : Int) < mkres.size_i.prod := by omega
    show f.atVarsSubs mkres.vars_i (lsbDigits mkres.size_i (j : Int))
      = .ok (l.getD j 0)
    rw [hg j (by omega) hjprod]
    rw [hlval j hj2, if_pos (by omega)]

/-! #### Theorems: further helpers for expand, condition and addFun -/

theorem sizes_pos_of_subsOk2 {siz sub : List Int} (h : SubsOk siz sub) :
    ∀ s ∈ siz, 0 < s := by
  induction h with
  | nil => intro s hs; simp at hs
  | @cons s u ss us hab _ ih =>
    intro x hx
    rcases List.mem_cons.mp hx with rfl | hx'
    · exact lt_of_le_of_lt hab.1 hab.2
    · exact ih x hx'

/-- Digit extraction inverts `linVal` on valid tuples. -/
theorem lsbDigits_linVal {siz sub : List Int} (h : SubsOk siz sub) :
    lsbDigits siz (linVal siz sub) = sub := by
  have h1 := ind2sub_linVal h
  have hb := linVal_bounds h
  have h2 := ind2sub_eq_lsbDigits (sizes_pos_of_subsOk2 h) hb.1 hb.2
  rw [h1] at h2
  exact (Except.ok.inj h2).symm

theorem filterInds_self :
    ∀ (vars : List Nat) (sub : List Int), vars.length = sub.length →
    filterInds vars vars sub = sub := by
  intro vars
  induction vars with
  | nil =>
    intro sub h
    cases sub with
    | nil => rfl
    | cons i is => simp at h
  | cons v vs ih =>
    intro sub h
    cases sub with
    | nil => simp at h
    | cons i is =>
      simp only [List.length_cons, Nat.succ_inj] at h
      simp only [filterInds, eq_self_iff_true, if_true, ih is h]

/-- On a subset call, `expand` returns the function unchanged. -/
theorem expand_noop {reg : Registry} {f : DiscreteFunction} {add : List Nat}
    (hwf : DFWf reg f) (hsub : ∀ v ∈ add, v ∈ f.vars_i) :
    f.expand reg add = .ok f := by
  have hU := unionVars_eq_of_subset hwf.1 hsub
  simp only [DiscreteFunction.expand]
  rw [hU, if_pos (le_refl _)]

theorem setVarsSubs_shape {f f' : DiscreteFunction} {vs : List Nat}
    {is : List Int} {val : Rat}
    (h : f.setVarsSubs vs is val = .ok f') :
    f'.vars_i = f.vars_i ∧ f'.size_i = f.size_i ∧
      f'.values_i.length = f.values_i.length := by
  simp only [DiscreteFunction.setVarsSubs] at h
  split at h
  · cases h
  · cases hs : sub2ind f.size_i (filterInds f.vars_i vs is) with
    | error e => rw [hs] at h; cases h
    | ok i =>
      rw [hs] at h
      cases h
      exact ⟨rfl, rfl, List.length_set _ _ _⟩

theorem conditionLoop_shape {f : DiscreteFunction} :
    ∀ (fuel : Nat) (it : DomainIterator) (acc g : DiscreteFunction),
    conditionLoop f fuel it acc = .ok g →
    g.vars_i = acc.vars_i ∧ g.size_i = acc.size_i ∧
      g.values_i.length = acc.values_i.length := by
  intro fuel
  induction fuel with
  | zero =>
    intro it acc g h
    cases h
    exact ⟨rfl, rfl, rfl⟩
  | succ n ih =>
    intro it acc g h
    simp only [conditionLoop] at h
    split at h
    · cases h
      exact ⟨rfl, rfl, rfl⟩
    · cases h1 : it.getSubInd with
      | error e => rw [h1] at h; cases h
      | ok subs =>
        rw [h1] at h
        simp only [ok_bind] at h
        cases h2 : it.getInd with
        | error e => rw [h2] at h; cases h
        | ok ind =>
          rw [h2] at h
          simp only [ok_bind] at h
          cases h3 : acc.setVarsSubs it.getVars subs (f.valueAt ind) with
          | error e => rw [h3] at h; cases h
          | ok acc' =>
            rw [h3] at h
            simp only [ok_bind] at h
            cases h4 : it.increment with
            | error e => rw [h4] at h; cases h
            | ok it' =>
              rw [h4] at h
              simp only [ok_bind] at h
              obtain ⟨e1, e2, e3⟩ := ih it' acc' g h
              obtain ⟨d1, d2, d3⟩ := setVarsSubs_shape h3
              exact ⟨e1.trans d1, e2.trans d2, e3.trans d3⟩

theorem addFunLoop_shape {rhs : DiscreteFunction} :
    ∀ (fuel : Nat) (it : DomainIterator) (acc g : DiscreteFunction),
    addFunLoop rhs fuel it acc = .ok g →
    g.vars_i = acc.vars_i ∧ g.size_i = acc.size_i ∧
      g.values_i.length = acc.values_i.length := by
  intro fuel
  induction fuel with
  | zero =>
    intro it acc g h
    cases h
    exact ⟨rfl, rfl, rfl⟩
  | succ n ih =>
    intro it acc g h
    simp only [addFunLoop] at h
    split at h
    · cases h
      exact ⟨rfl, rfl, rfl⟩
    · cases h1 : it.getSubInd with
      | error e => rw [h1] at h; cases h
      | ok subs =>
        rw [h1] at h
        simp only [ok_bind] at h
        cases h2 : rhs.atVarsSubs it.getVars subs with
        | error e => rw [h2] at h; cases h
        | ok v =>
          rw [h2] at h
          simp only [ok_bind] at h
          cases h3 : it.getInd with
          | error e => rw [h3] at h; cases h
          | ok ind =>
            rw [h3] at h
            simp only [ok_bind] at h
            cases h4 : it.increment with
            | error e => rw [h4] at h; cases h
            | ok it' =>
              rw [h4] at h
              simp only [ok_bind] at h
              obtain ⟨e1, e2, e3⟩ := ih it' _ g h
              refine ⟨e1, e2, ?_⟩
              rw [e3]
              exact List.length_set _ _ _

theorem subFunLoop_shape {rhs : DiscreteFunction} :
    ∀ (fuel : Nat) (it : DomainIterator) (acc g : DiscreteFunction),
    subFunLoop rhs fuel it acc = .ok g →
    g.vars_i = acc.vars_i ∧ g.size_i = acc.size_i ∧
      g.values_i.length = acc.values_i.length := by
  intro fuel
  induction fuel with
  | zero =>
    intro it acc g h
    cases h
    exact ⟨rfl, rfl, rfl⟩
  | succ n ih =>
    intro it acc g h
    simp only [subFunLoop] at h
    split at h
    · cases h
      exact ⟨rfl, rfl, rfl⟩
    · cases h1 : it.getSubInd with
      | error e => rw [h1] at h; cases h
      | ok subs =>
        rw [h1] at h
        simp only [ok_bind] at h
        cases h2 : rhs.atVarsSubs it.getVars subs with
        | error e => rw [h2] at h; cases h
        | ok v =>
          rw [h2] at h
          simp only [ok_bind] at h
          cases h3 : it.getInd with
          | error e => rw [h3] at h; cases h
          | ok ind =>
            rw [h3] at h
            simp only [ok_bind] at h
            cases h4 : it.increment with
            | error e => rw [h4] at h; cases h
            | ok it' =>
              rw [h4] at h
              simp only [ok_bind] at h
              obtain ⟨e1, e2, e3⟩ := ih it' _ g h
              refine ⟨e1, e2, ?_⟩
              rw [e3]
              exact List.length_set _ _ _

theorem forall₂_sizes_unique {reg : Registry} :
    ∀ {vs : List Nat} {ss1 ss2 : List Int},
    List.Forall₂ (fun v s => reg v = some s) vs ss1 →
    List.Forall₂ (fun v s => reg v = some s) vs ss2 → ss1 = ss2 := by
  intro vs
  induction vs with
  | nil =>
    intro ss1 ss2 h1 h2
    cases h1
    cases h2
    rfl
  | cons v vs' ih =>
    intro ss1 ss2 h1 h2
    cases h1 with
    | cons hr1 ht1 =>
      cases h2 with
      | cons hr2 ht2 =>
        rw [hr1] at hr2
        rw [Option.some_inj.mp hr2]
        rw [ih ht1 ht2]

/-- `expand` preserves wellformedness (in both branches). -/
theorem expand_wf {reg : Registry} (hreg : RegWf reg) {f : DiscreteFunction}
    (hwf : DFWf reg f) {add : List Nat}
    (hadd : ∀ v ∈ add, ∃ s, reg v = some s) {g : DiscreteFunction}
    (h : f.expand reg add = .ok g) : DFWf reg g := by
  by_cases hsub : ∀ v ∈ add, v ∈ f.vars_i
  · rw [expand_noop hwf hsub] at h
    cases h
    exact hwf
  · obtain ⟨g', hg', -, hwf', -⟩ := expand_spec hreg hwf hadd hsub
    rw [hg'] at h
    cases h
    exact hwf'

theorem regDemo_wf : RegWf regDemo := by
  intro v s h
  unfold regDemo at h
  by_cases h1 : v = 1
  · rw [if_pos h1] at h
    cases h
    decide
  · rw [if_neg h1] at h
    by_cases h2 : v = 2
    · rw [if_pos h2] at h
      cases h
      decide
    · rw [if_neg h2] at h
      cases h

theorem fDemo_wf : DFWf regDemo fDemo := by
  refine ⟨?_, ?_, ?_⟩
  · simp [fDemo]
  · exact List.Forall₂.cons (by decide) List.Forall₂.nil
  · decide

/-! #### Claim theorems: index arithmetic (C1, C10) -/

/-- Claim C1 (counterexample): the claim asserts that `ind2sub` fails
with an out-of-range error whenever the linear index exceeds the total
domain size.  For the empty size list the total domain size is 1, yet
`ind2sub [] 2` succeeds, returning the empty tuple (the special case
documented in common.h). -/
theorem claim_C1_counterexample :
    ([] : List Int).prod < 2 ∧ ind2sub [] 2 = .ok [] := by
  constructor
  · decide
  · rfl

/-- Claim C1 (amended): for every size list and every sub-index tuple
with each sub-index in `[0, size)`, `sub2ind` followed by `ind2sub`
returns the original tuple; `sub2ind` fails with an out-of-range error
for any equal-length input containing a negative or too-large
sub-index; and, for a nonempty size list, `ind2sub` fails with an
out-of-range error for any linear index outside the domain.  (The
amendment restricts the `ind2sub` failure clause to nonempty size
lists: `ind2sub` on the empty size list returns the empty tuple without
any range check.) -/
theorem claim_C1_roundTrip (siz sub : List Int) (ind : Int) :
    (SubsOk siz sub →
      sub2ind siz sub = .ok (linVal siz sub) ∧
      ind2sub siz (linVal siz sub) = .ok sub) ∧
    (siz.length = sub.length →
      (∃ k, ∃ (h1 : k < siz.length) (h2 : k < sub.length),
        ¬ SubOk (siz.get ⟨k, h1⟩) (sub.get ⟨k, h2⟩)) →
      sub2ind siz sub = .error .outOfRange) ∧
    (siz ≠ [] → siz.prod ≤ ind →
      ind2sub siz ind = .error .outOfRange) := by
  refine ⟨fun h => ⟨sub2ind_ok_of_subsOk h, ind2sub_linVal h⟩, ?_, ?_⟩
  · intro _ h
    exact sub2ind_error_of_badPrefix siz sub h
  · intro hne h
    exact ind2sub_error_of_outOfRange hne (Or.inr h)

/-- Witness for claim C1: concrete round trip and concrete failures. -/
theorem claim_C1_witness :
    (sub2ind [2, 3] [1, 2] = .ok 5 ∧ ind2sub [2, 3] 5 = .ok [1, 2]) ∧
    sub2ind [2, 3] [2, 0] = .error .outOfRange ∧
    ind2sub [2, 3] 6 = .error .outOfRange := by
  have hvalid : SubsOk [2, 3] [1, 2] :=
    List.Forall₂.cons ⟨by decide, by decide⟩
      (List.Forall₂.cons ⟨by decide, by decide⟩ List.Forall₂.nil)
  have h1 := (claim_C1_roundTrip [2, 3] [1, 2] 6).1 hvalid
  have h2 := (claim_C1_roundTrip [2, 3] [2, 0] 6).2.1 (by decide)
    ⟨0, by decide, by decide, by decide⟩
  have h3 := (claim_C1_roundTrip [2, 3] [1, 2] 6).2.2 (by decide) (by decide)
  exact ⟨⟨h1.1, h1.2⟩, h2, h3⟩

/-- Claim C10: `sub2ind` performs no length check between the size list
and the sub-index list: whenever every sub-index of the common prefix
of the two lists is in range, it returns the linear index computed over
the common prefix without raising any error (in particular `0` for an
empty sub-index list); only the sub-indices of the common prefix are
range-checked. -/
theorem claim_C10_sub2ind_no_length_check (siz sub : List Int) :
    ((∀ k, ∀ (h1 : k < siz.length) (h2 : k < sub.length),
        SubOk (siz.get ⟨k, h1⟩) (sub.get ⟨k, h2⟩)) →
      sub2ind siz sub = .ok (linVal siz sub)) ∧
    (linVal siz sub
      = linVal (siz.take (min siz.length sub.length))
               (sub.take (min siz.length sub.length))) ∧
    sub2ind siz [] = .ok 0 := by
  refine ⟨fun h => sub2ind_ok_of_prefixOk siz sub h, linVal_eq_take siz sub, ?_⟩
  cases siz <;> rfl

/-- Witness for claim C10: length mismatches in both directions raise
no error; out-of-range entries beyond the common prefix are ignored. -/
theorem claim_C10_witness :
    sub2ind [2, 3] [1] = .ok 1 ∧
    sub2ind [2] [1, 5] = .ok 1 ∧
    sub2ind [7] ([] : List Int) = .ok 0 := by
  have h1 := (claim_C10_sub2ind_no_length_check [2, 3] [1]).1 (by
    intro k hk1 hk2
    simp only [List.length_cons, List.length_nil] at hk2
    have hk0 : k = 0 := by omega
    subst hk0
    exact show SubOk 2 1 by decide)
  have h2 := (claim_C10_sub2ind_no_length_check [2] [1, 5]).1 (by
    intro k hk1 hk2
    simp only [List.length_cons, List.length_nil] at hk1
    have hk0 : k = 0 := by omega
    subst hk0
    exact show SubOk 2 1 by decide)
  have h3 := (claim_C10_sub2ind_no_length_check [7] []).2.2
  exact ⟨h1, h2, h3⟩

/-! #### Claim theorems: the DiscreteFunction domain algebra (C2, C3) -/

/-- Claim C3: for every well-formed DiscreteFunction `f` and variable
list `V` of registered variables: if every variable of `V` already lies
in `f`'s domain (equivalently, the sorted deduplicated union is no
larger than the current domain), `expand` leaves `f` completely
unchanged; and in every successful case the resulting domain is the
sorted deduplicated union and, at every valid sub-index tuple of the
union domain, the new value equals the old function evaluated through
the filtered accessor, i.e. at the restriction of the sub-indices to
the old domain. -/
theorem claim_C3_expand {reg : Registry} (f : DiscreteFunction) (V : List Nat)
    (hreg : RegWf reg) (hwf : DFWf reg f)
    (hV : ∀ v ∈ V, ∃ s, reg v = some s) :
    ((∀ v ∈ V, v ∈ f.vars_i) → f.expand reg V = .ok f) ∧
    (∀ g, f.expand reg V = .ok g →
      g.vars_i = stdUnique (sortVars (f.vars_i ++ V)) ∧
      ∀ sub : List Int, SubsOk g.size_i sub →
        g.atSubs sub = f.atVarsSubs g.vars_i sub) := by
  constructor
  · intro hsub
    exact expand_noop hwf hsub
  · intro g hg
    by_cases hsub : ∀ v ∈ V, v ∈ f.vars_i
    · rw [expand_noop hwf hsub] at hg
      cases hg
      refine ⟨(unionVars_eq_of_subset hwf.1 hsub).symm, ?_⟩
      intro sub hsubok
      have hlen : f.vars_i.length = sub.length := by
        rw [hwf.2.1.length_eq]
        exact hsubok.length_eq
      simp only [DiscreteFunction.atVarsSubs]
      rw [filterInds_self _ _ hlen, if_neg (by simp [hlen])]
    · obtain ⟨g', hg', hvars', hwf', hval'⟩ := expand_spec hreg hwf hV hsub
      rw [hg'] at hg
      cases hg
      refine ⟨hvars', ?_⟩
      intro sub hsubok
      have hb := linVal_bounds hsubok
      have hjnat : (linVal g.size_i sub).toNat < g.values_i.length := by
        have hl := hwf'.2.2
        omega
      have hvj := hval' (linVal g.size_i sub).toNat hjnat
      rw [Int.toNat_of_nonneg hb.1, lsbDigits_linVal hsubok] at hvj
      rw [hvj]
      unfold DiscreteFunction.atSubs
      rw [sub2ind_ok_of_subsOk hsubok]
      rfl

/-- Witness for claim C3: a subset expansion that is a no-op, and a
proper expansion whose domain is the union and whose values broadcast
the old ones. -/
theorem claim_C3_witness :
    fDemo.expand regDemo [2] = .ok fDemo ∧
    gDemo.vars_i = stdUnique (sortVars (fDemo.vars_i ++ [1])) ∧
    gDemo.atSubs [3, 1] = fDemo.atVarsSubs gDemo.vars_i [3, 1] := by
  have h1 := (@claim_C3_expand regDemo fDemo [2] regDemo_wf fDemo_wf
    (by
      intro v hv
      rw [List.mem_singleton] at hv
      subst hv
      exact ⟨3, rfl⟩)).1
    (by
      intro v hv
      rw [List.mem_singleton] at hv
      subst hv
      simp [fDemo])
  have h2 := (@claim_C3_expand regDemo fDemo [1] regDemo_wf fDemo_wf
    (by
      intro v hv
      rw [List.mem_singleton] at hv
      subst hv
      exact ⟨4, rfl⟩)).2
    gDemo (by rfl)
  refine ⟨h1, h2.1, h2.2 [3, 1] ?_⟩
  exact List.Forall₂.cons (by decide)
    (List.Forall₂.cons (by decide) List.Forall₂.nil)

/-- Claim C2: the domain-size invariant — the value array length equals
the product of the cached domain sizes — holds for every constructed
DiscreteFunction and is preserved by `expand`, `condition` and the
in-place arithmetic `operator+=` with another function. -/
theorem claim_C2_domainSize {reg : Registry} (hreg : RegWf reg)
    (f rhs : DiscreteFunction) (mkVars addV conVars : List Nat)
    (conVals : List Int) (val : Rat) :
    (∀ h, mkDiscreteFunction reg mkVars val = .ok h →
      (h.values_i.length : Int) = h.size_i.prod) ∧
    (DFWf reg f → (∀ v ∈ addV, ∃ s, reg v = some s) →
      ∀ g, f.expand reg addV = .ok g →
        (g.values_i.length : Int) = g.size_i.prod) ∧
    (DFWf reg f →
      ∀ g, f.condition reg conVars conVals = .ok g →
        (g.values_i.length : Int) = g.size_i.prod) ∧
    (DFWf reg f → DFWf reg rhs →
      ∀ g, f.addFun reg rhs = .ok g →
        (g.values_i.length : Int) = g.size_i.prod) := by
  refine ⟨?_, ?_, ?_, ?_⟩
  · intro h hmk
    unfold mkDiscreteFunction at hmk
    cases hs : mapGetSizes reg (sortVars mkVars) with
    | error e => rw [hs] at hmk; cases hmk
    | ok sizs =>
      rw [hs] at hmk
      simp only [ok_bind] at hmk
      cases hmk
      have hpos := sizes_pos_of_forall₂ hreg (mapGetSizes_forall₂ hs)
      have hprod : 0 < sizs.prod := List.prod_pos hpos
      show ((List.replicate sizs.prod.toNat val).length : Int) = sizs.prod
      rw [List.length_replicate]
      omega
  · intro hwfF hadd g hg
    exact (expand_wf hreg hwfF hadd hg).2.2
  · intro hwfF g hcond
    simp only [DiscreteFunction.condition] at hcond
    cases h1 : (mkDomainIterator f).condition conVars conVals with
    | error e => rw [h1] at hcond; cases hcond
    | ok it =>
      rw [h1] at hcond
      simp only [ok_bind] at hcond
      split at hcond
      · cases hcond
        exact hwfF.2.2
      · cases h2 : mkDiscreteFunction reg
            (f.vars_i.filter (fun v => !it.isFixed v)) 0 with
        | error e => rw [h2] at hcond; cases hcond
        | ok result =>
          rw [h2] at hcond
          simp only [ok_bind] at hcond
          have hfree : (f.vars_i.filter
              (fun v => !it.isFixed v)).Sorted (· < ·) :=
            hwfF.1.filter _
          obtain ⟨-, hrwf, -⟩ := mkDiscreteFunction_wf hreg hfree h2
          obtain ⟨-, e2, e3⟩ := conditionLoop_shape _ it result g hcond
          rw [e3, e2]
          exact hrwf.2.2
  · intro hwfF hwfR g haf
    simp only [DiscreteFunction.addFun] at haf
    split at haf
    · rename_i hsd
      cases haf
      have hvars : f.vars_i = rhs.vars_i := by
        simpa [sameDomain] using hsd
      have hsizes : f.size_i = rhs.size_i :=
        forall₂_sizes_unique hwfF.2.1 (by rw [hvars]; exact hwfR.2.1)
      have hflen := hwfF.2.2
      have hrlen := hwfR.2.2
      rw [← hsizes] at hrlen
      show ((List.zipWith (· + ·) f.values_i rhs.values_i).length : Int)
        = f.size_i.prod
      rw [List.length_zipWith]
      omega
    · cases h1 : f.expand reg rhs.vars_i with
      | error e => rw [h1] at haf; cases haf
      | ok g1 =>
        rw [h1] at haf
        simp only [ok_bind] at haf
        have hg1wf : DFWf reg g1 :=
          expand_wf hreg hwfF (forall₂_registered hwfR.2.1) h1
        obtain ⟨-, e2, e3⟩ := addFunLoop_shape _ _ _ g haf
        rw [e3, e2]
        exact hg1wf.2.2

/-- Witness for claim C2: the invariant evaluated on a constructed
function and after concrete expand, condition and add operations. -/
theorem claim_C2_witness :
    (((⟨[1, 2], [4, 3], List.replicate 12 5⟩ :
        DiscreteFunction).values_i.length : Int)
      = (⟨[1, 2], [4, 3], List.replicate 12 5⟩ :
        DiscreteFunction).size_i.prod) ∧
    ((gDemo.values_i.length : Int) = gDemo.size_i.prod) ∧
    (((⟨[], [], [20]⟩ : DiscreteFunction).values_i.length : Int)
      = (⟨[], [], [20]⟩ : DiscreteFunction).size_i.prod) ∧
    (((⟨[2], [3], [10 + 10, 20 + 20, 30 + 30]⟩ :
        DiscreteFunction).values_i.length : Int)
      = (⟨[2], [3], [10 + 10, 20 + 20, 30 + 30]⟩ :
        DiscreteFunction).size_i.prod) := by
  have hc := @claim_C2_domainSize regDemo regDemo_wf fDemo fDemo
    [2, 1] [1] [2] [1] 5
  have hV1 : ∀ v ∈ [1], ∃ s, regDemo v = some s := by
    intro v hv
    rw [List.mem_singleton] at hv
    subst hv
    exact ⟨4, rfl⟩
  refine ⟨hc.1 _ ?_, hc.2.1 fDemo_wf hV1 gDemo ?_, hc.2.2.1 fDemo_wf _ ?_,
    hc.2.2.2 fDemo_wf fDemo_wf _ ?_⟩
  · rfl
  · rfl
  · rfl
  · rfl

/-! #### Helpers for the marginalisation claims (C4) -/

theorem take_set_eq {α : Type} (l : List α) (n : Nat) (i : α) :
    (l.set n i).take n = l.take n := by
  apply List.ext_getElem?
  intro q
  rw [List.getElem?_take, List.getElem?_take]
  by_cases h : q < n
  · rw [if_pos h, if_pos h, List.getElem?_set_ne (by omega)]
  · rw [if_neg h, if_neg h]

theorem lsbDigits_length (siz : List Int) (k : Int) :
    (lsbDigits siz k).length = siz.length := by
  induction siz generalizing k with
  | nil => rfl
  | cons s ss ih => simp [lsbDigits, ih]

theorem indexOf?_cons_ne {a v : Nat} (as : List Nat) (h : a ≠ v) :
    List.indexOf? v (a :: as) = (List.indexOf? v as).map (· + 1) := by
  simp [List.indexOf?, List.findIdx?_cons, h]

/-- In a strictly sorted list the first index of the element at
position `p` is `p` itself. -/
theorem indexOf?_sorted :
    ∀ (vars : List Nat), vars.Sorted (· < ·) →
    ∀ (p : Nat) (v : Nat), vars[p]? = some v →
    List.indexOf? v vars = some p := by
  intro vars
  induction vars with
  | nil => intro _ p v h; simp at h
  | cons a as ih =>
    intro hs p v h
    cases p with
    | zero =>
      rw [List.getElem?_cons_zero] at h
      cases h
      simp [List.indexOf?]
    | succ q =>
      rw [List.getElem?_cons_succ] at h
      have hpair := List.sorted_cons.mp hs
      have hmem : v ∈ as := List.getElem?_mem h
      have hav : a ≠ v := ne_of_lt (hpair.1 v hmem)
      rw [indexOf?_cons_ne as hav, ih hpair.2 q v h]
      rfl

/-- The condition-recording loop of `DomainIterator::condition`, applied
to the tail of the iterator's own (sorted) variable list starting at
position `p`, overwrites the sub-indices and fixed flags from `p` on. -/
theorem applyConditions_drop {vars : List Nat} (hs : vars.Sorted (· < ·)) :
    ∀ (is : List Int) (p : Nat) (u : List Int) (fx : List Bool),
    u.length = vars.length → fx.length = vars.length →
    p + is.length = vars.length →
    applyConditions vars (vars.drop p) is (u, fx)
      = (u.take p ++ is, fx.take p ++ List.replicate is.length true) := by
  intro is
  induction is with
  | nil =>
    intro p u fx hu hfx hp
    simp only [List.length_nil, Nat.add_zero] at hp
    rw [List.drop_eq_nil_of_le (by omega)]
    show (u, fx) = _
    rw [List.take_of_length_le (by omega), List.take_of_length_le (by omega)]
    simp
  | cons i is' ih =>
    intro p u fx hu hfx hp
    have hplt : p < vars.length := by
      simp only [List.length_cons] at hp
      omega
    rw [List.drop_eq_getElem_cons hplt]
    have hidx : List.indexOf? vars[p] vars = some p :=
      indexOf?_sorted vars hs p vars[p] (List.getElem?_eq_getElem hplt)
    simp only [applyConditions, hidx]
    rw [ih (p + 1) (u.set p i) (fx.set p true)
      (by rw [List.length_set]; exact hu)
      (by rw [List.length_set]; exact hfx)
      (by simp only [List.length_cons] at hp; omega)]
    have hpu : p < u.length := by omega
    have hpf : p < fx.length := by omega
    rw [List.take_succ, take_set_eq, List.getElem?_set_self hpu,
      List.take_succ, take_set_eq, List.getElem?_set_self hpf]
    simp [List.append_assoc, List.replicate_succ]

/-- Conditioning a fresh iterator over `inFun` on a full-free iterator
at position `k` over the same variables fixes every variable at the
digits of `k` and sets the linear index to `k`. -/
theorem conditionIter_mkIter_full {inFun : DiscreteFunction}
    (hs : inFun.vars_i.Sorted (· < ·))
    (hpos : ∀ s ∈ inFun.size_i, 0 < s)
    (hlen : inFun.vars_i.length = inFun.size_i.length)
    {k : Int} (h0 : 0 ≤ k) (h1 : k < inFun.size_i.prod) :
    (mkDomainIterator inFun).conditionIter
        (fullIterState inFun.vars_i inFun.size_i k)
      = .ok ⟨inFun.vars_i, lsbDigits inFun.size_i k, k,
             List.replicate (lsbDigits inFun.size_i k).length true,
             inFun.size_i, false⟩ := by
  have hdig : (lsbDigits inFun.size_i k).length = inFun.size_i.length :=
    lsbDigits_length _ _
  have hsub := lsbDigits_subsOk inFun.size_i hpos k h0 h1
  have hac := applyConditions_drop hs (lsbDigits inFun.size_i k) 0
    (List.replicate inFun.vars_i.length 0)
    (List.replicate inFun.vars_i.length false)
    (by simp) (by simp) (by simp [hdig, hlen])
  rw [List.drop_zero, List.take_zero, List.take_zero, List.nil_append,
    List.nil_append] at hac
  unfold DomainIterator.conditionIter
  rw [fullIter_getSubInd]
  simp only [ok_bind]
  show (mkDomainIterator inFun).condition inFun.vars_i
    (lsbDigits inFun.size_i k) = _
  simp only [DomainIterator.condition, mkDomainIterator]
  rw [hac]
  rw [zeroFree_allFixed _ _ (fun b hb => List.eq_of_mem_replicate hb)]
  have hok := sub2ind_ok_of_subsOk hsub
  rw [linVal_lsbDigits inFun.size_i hpos k h0 h1] at hok
  rw [hok]
  rfl

/-- Incrementing an iterator whose variables are all fixed only sets the
finished flag (the scan skips every position). -/
theorem increment_allFixed (it : DomainIterator)
    (hfix : ∀ b ∈ it.fixed_i, b = true)
    (hok : sub2ind it.sizes_i it.subInd_i = .ok it.ind_i) :
    it.increment = .ok { it with finished_i := true } := by
  simp only [DomainIterator.increment]
  rw [incSubs_allFixed it.subInd_i it.fixed_i it.sizes_i hfix]
  simp only [hok, ok_bind]

theorem marginalInnerLoop_finished {inFun : DiscreteFunction}
    {agg : Rat → Rat → Rat} {fuel : Nat} {it : DomainIterator} {acc : Rat}
    (h : it.finished_i = true) :
    marginalInnerLoop inFun agg fuel it acc = .ok acc := by
  cases fuel with
  | zero => rfl
  | succ n => simp [marginalInnerLoop, h]

theorem marginalOuterLoop_finished {inFun : DiscreteFunction}
    {agg : Rat → Rat → Rat} {fuel : Nat} {it : DomainIterator}
    {out : DiscreteFunction} (h : it.finished_i = true) :
    marginalOuterLoop inFun agg fuel it out = .ok out := by
  cases fuel with
  | zero => rfl
  | succ n => simp [marginalOuterLoop, h]

/-- Full characterisation of the marginal outer loop when the iterator
runs over exactly the input's domain: every position `k ≤ j < prod` of
the output value array is overwritten with the input value at `j` (the
conditioned inner iterator is exhausted right after its seed value, so
no aggregation happens). -/
theorem marginalOuterLoop_copy {inFun : DiscreteFunction}
    (agg : Rat → Rat → Rat) (hs : inFun.vars_i.Sorted (· < ·))
    (hpos : ∀ s ∈ inFun.size_i, 0 < s)
    (hlen : inFun.vars_i.length = inFun.size_i.length) :
    ∀ (fuel : Nat) (k : Int) (out : DiscreteFunction),
    0 ≤ k → k < inFun.size_i.prod → inFun.size_i.prod ≤ k + fuel →
    ∃ l, marginalOuterLoop inFun agg fuel
        (fullIterState inFun.vars_i inFun.size_i k) out
      = .ok { out with values_i := l } ∧
      l.length = out.values_i.length ∧
      ∀ j : Nat, j < out.values_i.length →
        l.getD j 0 = if k ≤ (j : Int) ∧ (j : Int) < inFun.size_i.prod
                     then inFun.valueAt (j : Int)
                     else out.values_i.getD j 0 := by
  intro fuel
  induction fuel with
  | zero =>
    intro k out h0 h1 h2
    omega
  | succ n ih =>
    intro k out h0 h1 h2
    have hfin : (fullIterState inFun.vars_i inFun.size_i k).finished_i
        = false := rfl
    simp only [marginalOuterLoop, hfin, Bool.false_eq_true, if_false]
    rw [conditionIter_mkIter_full hs hpos hlen h0 h1]
    simp only [ok_bind]
    have hgi : (⟨inFun.vars_i, lsbDigits inFun.size_i k, k,
        List.replicate (lsbDigits inFun.size_i k).length true,
        inFun.size_i, false⟩ : DomainIterator).getInd = .ok k := rfl
    rw [hgi]
    simp only [ok_bind]
    have hok2 : sub2ind inFun.size_i (lsbDigits inFun.size_i k) = .ok k := by
      have hok := sub2ind_ok_of_subsOk
        (lsbDigits_subsOk inFun.size_i hpos k h0 h1)
      rwa [linVal_lsbDigits inFun.size_i hpos k h0 h1] at hok
    have hinc := increment_allFixed ⟨inFun.vars_i, lsbDigits inFun.size_i k, k,
        List.replicate (lsbDigits inFun.size_i k).length true,
        inFun.size_i, false⟩
      (fun b hb => List.eq_of_mem_replicate hb) hok2
    rw [hinc]
    simp only [ok_bind]
    rw [marginalInnerLoop_finished rfl]
    simp only [ok_bind]
    rw [fullIter_getInd]
    simp only [ok_bind]
    rw [increment_fullIterState hpos h0 h1]
    simp only [ok_bind]
    by_cases hnext : k + 1 < inFun.size_i.prod
    · rw [if_pos hnext]
      obtain ⟨l, hl, hlen2, hval⟩ := ih (k + 1)
        { out with values_i := out.values_i.set k.toNat (inFun.valueAt k) }
        (by omega) hnext (by omega)
      refine ⟨l, hl, ?_, ?_⟩
      · rw [hlen2]
        show (out.values_i.set k.toNat (inFun.valueAt k)).length
          = out.values_i.length
        rw [List.length_set]
      · intro j hj
        have hj' : j < ({ out with
            values_i := out.values_i.set k.toNat (inFun.valueAt k) } :
            DiscreteFunction).values_i.length := by
          show j < (out.values_i.set k.toNat (inFun.valueAt k)).length
          rw [List.length_set]
          exact hj
        rw [hval j hj']
        by_cases hcase : k + 1 ≤ (j : Int) ∧ (j : Int) < inFun.size_i.prod
        · rw [if_pos hcase, if_pos (by omega)]
        · rw [if_neg hcase]
          by_cases hjk : j = k.toNat
          · have hjint : (j : Int) = k := by omega
            rw [if_pos (by omega)]
            show (out.values_i.set k.toNat (inFun.valueAt k)).getD j 0
              = inFun.valueAt (j : Int)
            rw [List.getD_eq_getElem?_getD, List.getElem?_set,
              if_pos hjk.symm, if_pos (by omega)]
            simp [hjint]
          · have hne2 : ¬ (k ≤ (j : Int) ∧ (j : Int) < inFun.size_i.prod) := by
              omega
            rw [if_neg hne2]
            show (out.values_i.set k.toNat (inFun.valueAt k)).getD j 0
              = out.values_i.getD j 0
            rw [List.getD_eq_getElem?_getD, List.getElem?_set,
              if_neg (fun hc => hjk hc.symm), ← List.getD_eq_getElem?_getD]
    · rw [if_neg hnext]
      refine ⟨out.values_i.set k.toNat (inFun.valueAt k),
        marginalOuterLoop_finished rfl, List.length_set _ _ _, ?_⟩
      intro j hj
      by_cases hjk : j = k.toNat
      · have hjint : (j : Int) = k := by omega
        rw [if_pos (by omega)]
        rw [List.getD_eq_getElem?_getD, List.getElem?_set,
          if_pos hjk.symm, if_pos (by omega)]
        simp [hjint]
      · have hne2 : ¬ (k ≤ (j : Int) ∧ (j : Int) < inFun.size_i.prod) := by
          omega
        rw [if_neg hne2]
        rw [List.getD_eq_getElem?_getD, List.getElem?_set,
          if_neg (fun hc => hjk hc.symm), ← List.getD_eq_getElem?_getD]

theorem includes_refl : ∀ (l : List Nat), includes l l = true := by
  intro l
  induction l with
  | nil => rfl
  | cons a as ih => simp [includes, lt_self_iff_false, ih]

/-- `std::includes` answering true certifies the subset relation. -/
theorem subset_of_includes :
    ∀ (as bs : List Nat), includes as bs = true → ∀ v ∈ bs, v ∈ as := by
  intro as
  induction as with
  | nil =>
    intro bs h v hv
    cases bs with
    | nil => simp at hv
    | cons b bs' => simp [includes] at h
  | cons a as' ih =>
    intro bs h v hv
    cases bs with
    | nil => simp at hv
    | cons b bs' =>
      simp only [includes] at h
      by_cases hba : b < a
      · rw [if_pos hba] at h
        cases h
      · rw [if_neg hba] at h
        by_cases hab : a < b
        · rw [if_pos hab] at h
          exact List.mem_cons_of_mem a (ih (b :: bs') h v hv)
        · rw [if_neg hab] at h
          have hae : a = b := by omega
          rcases List.mem_cons.mp hv with h' | hv'
          · rw [h', ← hae]
            exact List.mem_cons_self a as'
          · exact List.mem_cons_of_mem a (ih bs' h v hv')

theorem includes_false_of_not_subset {as bs : List Nat}
    (h : ¬ ∀ v ∈ bs, v ∈ as) : includes as bs = false := by
  cases hi : includes as bs with
  | false => rfl
  | true => exact absurd (subset_of_includes as bs hi) h

theorem marginal_badDomain {inFun outFun : DiscreteFunction}
    (agg : Rat → Rat → Rat)
    (h : ¬ ∀ v ∈ outFun.vars_i, v ∈ inFun.vars_i) :
    marginal inFun agg outFun = .error .badDomain := by
  unfold marginal
  rw [includes_false_of_not_subset h]
  rfl

/-- Marginalising to an output with the same domain copies the input
value array verbatim. -/
theorem marginal_copy {reg : Registry} (hreg : RegWf reg)
    {inFun outFun : DiscreteFunction} (hwfIn : DFWf reg inFun)
    (hwfOut : DFWf reg outFun) (agg : Rat → Rat → Rat)
    (hvars : inFun.vars_i = outFun.vars_i) :
    marginal inFun agg outFun
      = .ok { outFun with values_i := inFun.values_i } := by
  have hsizes : inFun.size_i = outFun.size_i :=
    forall₂_sizes_unique (hvars ▸ hwfIn.2.1) hwfOut.2.1
  have hpos : ∀ s ∈ inFun.size_i, 0 < s := sizes_pos_of_forall₂ hreg hwfIn.2.1
  have hprod : 0 < inFun.size_i.prod := List.prod_pos hpos
  have hlenI : inFun.vars_i.length = inFun.size_i.length := hwfIn.2.1.length_eq
  have hlenO : outFun.vars_i.length = outFun.size_i.length :=
    hwfOut.2.1.length_eq
  have hinc : includes inFun.vars_i outFun.vars_i = true := by
    rw [hvars]
    exact includes_refl outFun.vars_i
  have hiter : mkDomainIterator outFun
      = fullIterState inFun.vars_i inFun.size_i 0 := by
    rw [mkDomainIterator_eq_fullIterState hlenO, hvars, hsizes]
  simp only [marginal, hinc, Bool.not_true, Bool.false_eq_true, if_false]
  rw [hiter]
  obtain ⟨l, hl, hlen2, hval⟩ := marginalOuterLoop_copy agg hwfIn.1 hpos hlenI
    outFun.values_i.length 0 outFun (le_refl 0) hprod
    (by
      have h1 := hwfOut.2.2
      rw [← hsizes] at h1
      omega)
  rw [hl]
  have hleq : l = inFun.values_i := by
    have hlenEq : l.length = inFun.values_i.length := by
      have h1 := hwfOut.2.2
      have h2 := hwfIn.2.2
      rw [← hsizes] at h1
      omega
    apply List.ext_getElem hlenEq
    intro j hj1 hj2
    have hj3 : j < outFun.values_i.length := by
      rw [← hlen2]
      exact hj1
    have hv := hval j hj3
    rw [if_pos ⟨by omega, by
      have h2 := hwfIn.2.2
      omega⟩] at hv
    rw [List.getD_eq_getElem l 0 hj1] at hv
    rw [hv]
    show inFun.valueAt (j : Int) = _
    unfold DiscreteFunction.valueAt
    rw [Int.toNat_natCast]
    exact List.getD_eq_getElem _ 0 hj2
  rw [hleq]

/-! #### Claim theorem: marginalisation (C4) -/

/-- Claim C4: when the output domain equals the input domain,
`maxMarginal`, `minMarginal` and `meanMarginal` each succeed and leave
the output holding exactly the input's value at every position (the
value arrays coincide); when the output domain is not a subset of the
input domain, each of the three calls fails with the bad-domain
error. -/
theorem claim_C4_marginals (reg : Registry) (hreg : RegWf reg)
    (inFun outFun : DiscreteFunction) :
    (DFWf reg inFun → DFWf reg outFun → inFun.vars_i = outFun.vars_i →
      maxMarginal inFun outFun
        = .ok { outFun with values_i := inFun.values_i } ∧
      minMarginal inFun outFun
        = .ok { outFun with values_i := inFun.values_i } ∧
      meanMarginal inFun outFun
        = .ok { outFun with values_i := inFun.values_i }) ∧
    (¬ (∀ v ∈ outFun.vars_i, v ∈ inFun.vars_i) →
      maxMarginal inFun outFun = .error .badDomain ∧
      minMarginal inFun outFun = .error .badDomain ∧
      meanMarginal inFun outFun = .error .badDomain) := by
  constructor
  · intro hwfIn hwfOut hvars
    refine ⟨marginal_copy hreg hwfIn hwfOut _ hvars,
      marginal_copy hreg hwfIn hwfOut _ hvars, ?_⟩
    simp only [meanMarginal]
    rw [marginal_copy hreg hwfIn hwfOut _ hvars]
    simp only [ok_bind, DiscreteFunction.domainSize]
    have hlen0 : 0 < inFun.values_i.length := by
      have h2 := hwfIn.2.2
      have hpos : ∀ s ∈ inFun.size_i, 0 < s :=
        sizes_pos_of_forall₂ hreg hwfIn.2.1
      have h3 := List.prod_pos hpos
      omega
    have hQ : (0 : Rat) < ((inFun.values_i.length : Int) : Rat) := by
      exact_mod_cast hlen0
    rw [div_self (ne_of_gt hQ)]
    simp [mul_one, List.map_id']
  · intro h
    refine ⟨marginal_badDomain _ h, marginal_badDomain _ h, ?_⟩
    simp only [meanMarginal]
    rw [marginal_badDomain _ h]
    rfl

/-- Witness for claim C4: a copying max-marginal with equal domains and
a failing mean-marginal whose output domain is not a subset. -/
theorem claim_C4_witness :
    maxMarginal fDemo ⟨[2], [3], [0, 0, 0]⟩
      = .ok ⟨[2], [3], [10, 20, 30]⟩ ∧
    meanMarginal fDemo gDemo = .error .badDomain := by
  constructor
  · exact ((claim_C4_marginals regDemo regDemo_wf fDemo
      ⟨[2], [3], [0, 0, 0]⟩).1 fDemo_wf
      ⟨by decide, List.Forall₂.cons (by decide) List.Forall₂.nil, by decide⟩
      rfl).1
  · exact ((claim_C4_marginals regDemo regDemo_wf fDemo gDemo).2
      (by decide)).2.2


/-! #### Claim theorem: the DomainIterator linear-index invariant (C5) -/

/-- Claim C5 (code bug): construct the iterator over variable 2 (domain
size 3), advance it twice so that its sub-indices are `[2]` and its
linear index is 2 (the invariant holds so far), then call `addVars`
with variable 1 (domain size 4).  The returned iterator stores
sub-indices `[0, 2]` and sizes `[4, 3]`, whose row-major
(least-significant-first) linear index is 8, yet its stored linear
index is still 2: `addVars` computes `ind_i` with `sub2ind` from the
old arrays, before the swaps that install the merged arrays, so the
claimed invariant is broken immediately after `addVars`. -/
theorem claim_C5_addVars_bug :
    mkDomainIteratorOfVars regDemo [2]
      = .ok ⟨[2], [0], 0, [false], [3], false⟩ ∧
    (⟨[2], [0], 0, [false], [3], false⟩ : DomainIterator).increment
      = .ok ⟨[2], [1], 1, [false], [3], false⟩ ∧
    (⟨[2], [1], 1, [false], [3], false⟩ : DomainIterator).increment
      = .ok ⟨[2], [2], 2, [false], [3], false⟩ ∧
    (⟨[2], [2], 2, [false], [3], false⟩ : DomainIterator).addVars regDemo [1]
      = .ok ⟨[1, 2], [0, 2], 2, [false, false], [4, 3], false⟩ ∧
    sub2ind [4, 3] [0, 2] = .ok 8 ∧ (2 : Int) ≠ 8 := by
  refine ⟨rfl, rfl, rfl, rfl, rfl, by decide⟩


/-! #### Helpers for the PostOffice claims (C6) -/

theorem alFind_mem {α : Type} :
    ∀ {l : List (Nat × α)} {key : Nat} {v : α},
    alFind l key = some v → (key, v) ∈ l := by
  intro l
  induction l with
  | nil => intro key v h; cases h
  | cons p rest ih =>
    intro key v h
    cases p with
    | mk k w =>
      simp only [alFind] at h
      by_cases hk : key = k
      · rw [if_pos hk] at h
        cases h
        subst hk
        exact List.mem_cons_self _ _
      · rw [if_neg hk] at h
        exact List.mem_cons_of_mem _ (ih h)

theorem alFind_eq_none {α : Type} :
    ∀ {l : List (Nat × α)} {key : Nat},
    key ∉ l.map Prod.fst → alFind l key = none := by
  intro l
  induction l with
  | nil => intro key _; rfl
  | cons p rest ih =>
    intro key h
    cases p with
    | mk k w =>
      simp only [List.map_cons, List.mem_cons] at h
      push_neg at h
      simp only [alFind, if_neg h.1]
      exact ih h.2

theorem alFind_alInsert_self {α : Type} :
    ∀ (l : List (Nat × α)) (k : Nat) (v : α),
    alFind (alInsert l k v) k = some v := by
  intro l
  induction l with
  | nil => intro k v; simp [alInsert, alFind]
  | cons p rest ih =>
    intro k v
    cases p with
    | mk k2 w =>
      simp only [alInsert]
      by_cases h1 : k < k2
      · rw [if_pos h1]
        simp [alFind]
      · rw [if_neg h1]
        by_cases h2 : k = k2
        · rw [if_pos h2]
          simp [alFind]
        · rw [if_neg h2]
          simp only [alFind, if_neg h2]
          exact ih k v

theorem alFind_alInsert_ne {α : Type} :
    ∀ (l : List (Nat × α)) (k k2 : Nat) (v : α), k2 ≠ k →
    alFind (alInsert l k v) k2 = alFind l k2 := by
  intro l
  induction l with
  | nil =>
    intro k k2 v h
    simp [alInsert, alFind, h]
  | cons p rest ih =>
    intro k k2 v h
    cases p with
    | mk kk w =>
      simp only [alInsert]
      by_cases h1 : k < kk
      · rw [if_pos h1]
        simp only [alFind, if_neg h]
      · rw [if_neg h1]
        by_cases h2 : k = kk
        · rw [if_pos h2]
          subst h2
          simp only [alFind, if_neg h]
        · rw [if_neg h2]
          by_cases h3 : k2 = kk
          · simp only [alFind, if_pos h3]
          · simp only [alFind, if_neg h3]
            exact ih k k2 v h

theorem ptrMatch_some {boxes : List (Nat × List (Nat × Nat))} {k1 k2 p : Nat}
    (h : (match alFind boxes k1 with
          | none => none
          | some m => alFind m k2) = some p) :
    ∃ m, alFind boxes k1 = some m ∧ alFind m k2 = some p := by
  cases hm : alFind boxes k1 with
  | none => rw [hm] at h; cases h
  | some m => rw [hm] at h; exact ⟨m, rfl, h⟩

theorem POWf_cur_alias {po : PostOffice} (h : POWf po) (s r : Nat) :
    curOutPtr po s r = curInPtr po r s := by
  cases hco : curOutPtr po s r with
  | some p =>
    unfold curOutPtr at hco
    obtain ⟨m, hm, hp⟩ := ptrMatch_some hco
    exact (h.2.1 (s, m) (alFind_mem hm) (r, p) (alFind_mem hp)).symm
  | none =>
    cases hci : curInPtr po r s with
    | none => rfl
    | some q =>
      unfold curInPtr at hci
      obtain ⟨m, hm, hp⟩ := ptrMatch_some hci
      have h2 := h.2.2.1 (r, m) (alFind_mem hm) (s, q) (alFind_mem hp)
      rw [hco] at h2
      cases h2

theorem POWf_prev_alias {po : PostOffice} (h : POWf po) (s r : Nat) :
    prevOutPtr po s r = prevInPtr po r s := by
  cases hco : prevOutPtr po s r with
  | some p =>
    unfold prevOutPtr at hco
    obtain ⟨m, hm, hp⟩ := ptrMatch_some hco
    exact (h.2.2.2.1 (s, m) (alFind_mem hm) (r, p) (alFind_mem hp)).symm
  | none =>
    cases hci : prevInPtr po r s with
    | none => rfl
    | some q =>
      unfold prevInPtr at hci
      obtain ⟨m, hm, hp⟩ := ptrMatch_some hci
      have h2 := h.2.2.2.2.1 (r, m) (alFind_mem hm) (s, q) (alFind_mem hp)
      rw [hco] at h2
      cases h2

theorem POWf_dom {po : PostOffice} (h : POWf po) (s r : Nat) :
    curOutPtr po s r = none ↔ prevOutPtr po s r = none := by
  constructor
  · intro hc
    cases hp : prevOutPtr po s r with
    | none => rfl
    | some q =>
      unfold prevOutPtr at hp
      obtain ⟨m, hm, hq⟩ := ptrMatch_some hp
      exact absurd hc (h.2.2.2.2.2.2 (s, m) (alFind_mem hm) (r, q) (alFind_mem hq))
  · intro hp
    cases hc : curOutPtr po s r with
    | none => rfl
    | some q =>
      unfold curOutPtr at hc
      obtain ⟨m, hm, hq⟩ := ptrMatch_some hc
      exact absurd hp (h.2.2.2.2.2.1 (s, m) (alFind_mem hm) (r, q) (alFind_mem hq))

theorem alSorted_keys_nodup {α : Type} {l : List (Nat × α)}
    (h : alSorted l) : (l.map Prod.fst).Nodup := by
  unfold alSorted at h
  unfold List.Nodup
  rw [List.pairwise_map]
  exact h.imp (fun hab => ne_of_lt hab)

/-- The receiver `r` is untouched by the inbox-swap loop when it has no
current inbox row. -/
theorem swapInboxesLoop_absent (s : Nat) :
    ∀ (cur prevIn : List (Nat × List (Nat × Nat))) (r : Nat),
    alFind cur r = none →
    alFind (swapInboxesLoop s cur prevIn).1 r = none ∧
    alFind (swapInboxesLoop s cur prevIn).2 r = alFind prevIn r := by
  intro cur
  induction cur with
  | nil => intro prevIn r _; exact ⟨rfl, rfl⟩
  | cons p rest ih =>
    intro prevIn r hr
    cases p with
    | mk r0 msgs =>
      simp only [alFind] at hr
      by_cases h0 : r = r0
      · rw [if_pos h0] at hr
        cases hr
      · rw [if_neg h0] at hr
        simp only [swapInboxesLoop, alFind, if_neg h0]
        obtain ⟨ha, hb⟩ := ih (swapInboxEntry s prevIn r0 msgs).2 r hr
        refine ⟨ha, hb.trans ?_⟩
        unfold swapInboxEntry
        cases alFind msgs s with
        | none => rfl
        | some c => exact alFind_alInsert_ne _ _ _ _ h0

/-- A receiver whose current inbox row does not mention the sender is
untouched by the inbox-swap loop. -/
theorem swapInboxesLoop_noSender (s : Nat) :
    ∀ (cur prevIn : List (Nat × List (Nat × Nat))) (r : Nat)
    (m : List (Nat × Nat)),
    (cur.map Prod.fst).Nodup →
    alFind cur r = some m → alFind m s = none →
    alFind (swapInboxesLoop s cur prevIn).1 r = some m ∧
    alFind (swapInboxesLoop s cur prevIn).2 r = alFind prevIn r := by
  intro cur
  induction cur with
  | nil => intro prevIn r m _ hr; cases hr
  | cons p rest ih =>
    intro prevIn r m hnd hr hs
    cases p with
    | mk r0 msgs =>
      simp only [List.map_cons, List.nodup_cons] at hnd
      simp only [alFind] at hr
      by_cases h0 : r = r0
      · rw [if_pos h0] at hr
        cases hr
        subst h0
        have hrest : alFind rest r = none :=
          alFind_eq_none hnd.1
        simp only [swapInboxesLoop, alFind, if_pos rfl]
        have he : swapInboxEntry s prevIn r m = (m, prevIn) := by
          unfold swapInboxEntry
          rw [hs]
        rw [he]
        obtain ⟨-, hb⟩ := swapInboxesLoop_absent s rest prevIn r hrest
        exact ⟨rfl, hb⟩
      · rw [if_neg h0] at hr
        simp only [swapInboxesLoop, alFind, if_neg h0]
        obtain ⟨ha, hb⟩ := ih (swapInboxEntry s prevIn r0 msgs).2 r m hnd.2 hr hs
        refine ⟨ha, hb.trans ?_⟩
        unfold swapInboxEntry
        cases alFind msgs s with
        | none => rfl
        | some c => exact alFind_alInsert_ne _ _ _ _ h0

/-- A receiver whose current inbox row mentions the sender gets its
current and previous pointers exchanged by the inbox-swap loop (the
previous pointer is materialised as null when absent). -/
theorem swapInboxesLoop_swap (s : Nat) :
    ∀ (cur prevIn : List (Nat × List (Nat × Nat))) (r : Nat)
    (m : List (Nat × Nat)) (c : Nat),
    (cur.map Prod.fst).Nodup →
    alFind cur r = some m → alFind m s = some c →
    alFind (swapInboxesLoop s cur prevIn).1 r
      = some (alInsert m s ((alFind ((alFind prevIn r).getD []) s).getD 0)) ∧
    alFind (swapInboxesLoop s cur prevIn).2 r
      = some (alInsert ((alFind prevIn r).getD []) s c) := by
  intro cur
  induction cur with
  | nil => intro prevIn r m c _ hr; cases hr
  | cons p rest ih =>
    intro prevIn r m c hnd hr hs
    cases p with
    | mk r0 msgs =>
      simp only [List.map_cons, List.nodup_cons] at hnd
      simp only [alFind] at hr
      by_cases h0 : r = r0
      · rw [if_pos h0] at hr
        cases hr
        subst h0
        have hrest : alFind rest r = none :=
          alFind_eq_none hnd.1
        simp only [swapInboxesLoop, alFind, if_pos rfl]
        have he : swapInboxEntry s prevIn r m
            = (alInsert m s ((alFind ((alFind prevIn r).getD []) s).getD 0),
               alInsert prevIn r
                 (alInsert ((alFind prevIn r).getD []) s c)) := by
          unfold swapInboxEntry
          rw [hs]
        rw [he]
        obtain ⟨-, hb⟩ := swapInboxesLoop_absent s rest
          (alInsert prevIn r (alInsert ((alFind prevIn r).getD []) s c)) r hrest
        refine ⟨rfl, hb.trans ?_⟩
        exact alFind_alInsert_self _ _ _
      · rw [if_neg h0] at hr
        simp only [swapInboxesLoop, alFind, if_neg h0]
        obtain ⟨ha, hb⟩ := ih (swapInboxEntry s prevIn r0 msgs).2 r m c hnd.2 hr hs
        have hpr : alFind (swapInboxEntry s prevIn r0 msgs).2 r
            = alFind prevIn r := by
          unfold swapInboxEntry
          cases alFind msgs s with
          | none => rfl
          | some c2 => exact alFind_alInsert_ne _ _ _ _ h0
        rw [hpr] at ha hb
        exact ⟨ha, hb⟩

/-! #### Claim theorem: PostOffice mailbox exchange (C6) -/

/-- Claim C6: after `addEdge(s, r)` the edge exists and the current
(respectively previous) outbox pointer for `(s, r)` is the identical
message address as the current (previous) inbox pointer for `(r, s)`;
after `swapOutBoxes(s)`, for every receiver, the current outbox pointer
of `(s, r)` is the address that was previously stored as the previous
one and vice versa, and the inbox views still alias the outbox
views. -/
theorem claim_C6_postoffice (po : PostOffice) (hwf : POWf po) (s r : Nat)
    (msgVal : DiscreteFunction) :
    ((po.addEdge s r msgVal).hasEdge s r = true ∧
     curOutPtr (po.addEdge s r msgVal) s r
       = curInPtr (po.addEdge s r msgVal) r s ∧
     prevOutPtr (po.addEdge s r msgVal) s r
       = prevInPtr (po.addEdge s r msgVal) r s) ∧
    (∀ q : Nat,
     curOutPtr (po.swapOutBoxes s) s q = prevOutPtr po s q ∧
     prevOutPtr (po.swapOutBoxes s) s q = curOutPtr po s q ∧
     curInPtr (po.swapOutBoxes s) q s = curOutPtr (po.swapOutBoxes s) s q ∧
     prevInPtr (po.swapOutBoxes s) q s
       = prevOutPtr (po.swapOutBoxes s) s q) := by
  constructor
  · -- the addEdge part
    simp only [PostOffice.addEdge]
    by_cases hnz : (alFind ((alFind po.curOutboxes_i s).getD []) r).getD 0 ≠ 0
    · rw [if_pos hnz]
      obtain ⟨cm, hcm⟩ : ∃ cm, alFind po.curOutboxes_i s = some cm := by
        cases hx : alFind po.curOutboxes_i s with
        | none => rw [hx] at hnz; simp [alFind] at hnz
        | some cm => exact ⟨cm, rfl⟩
      rw [hcm] at hnz ⊢
      simp only [Option.getD_some] at hnz ⊢
      obtain ⟨p, hp⟩ : ∃ p, alFind cm r = some p := by
        cases hx : alFind cm r with
        | none => rw [hx] at hnz; simp at hnz
        | some p => exact ⟨p, rfl⟩
      rw [hp] at hnz ⊢
      simp only [Option.getD_some] at hnz ⊢
      have hco : curOutPtr po s r = some p := by
        unfold curOutPtr
        rw [hcm]
        exact hp
      refine ⟨?_, ?_, ?_⟩
      · show PostOffice.hasEdge _ s r = true
        unfold PostOffice.hasEdge
        show (match alFind (alInsert po.curOutboxes_i s
            (alInsert cm r p)) s with
          | none => false
          | some m => match alFind m r with
            | none => false
            | some _ => true) = true
        rw [alFind_alInsert_self]
        show (match alFind (alInsert cm r p) r with
          | none => false
          | some _ => true) = true
        rw [alFind_alInsert_self]
      · show curOutPtr _ s r = curInPtr _ r s
        have h1 : curOutPtr { po with
            curOutboxes_i := alInsert po.curOutboxes_i s
              (alInsert cm r p) } s r = some p := by
          unfold curOutPtr
          show (match alFind (alInsert po.curOutboxes_i s
              (alInsert cm r p)) s with
            | none => none
            | some m => alFind m r) = some p
          rw [alFind_alInsert_self]
          show alFind (alInsert cm r p) r = some p
          rw [alFind_alInsert_self]
        have h2 : curInPtr { po with
            curOutboxes_i := alInsert po.curOutboxes_i s
              (alInsert cm r p) } r s = curInPtr po r s := rfl
        rw [h1, h2, ← POWf_cur_alias hwf s r, hco]
      · show prevOutPtr po s r = prevInPtr po r s
        exact POWf_prev_alias hwf s r
    · rw [if_neg hnz]
      refine ⟨?_, ?_, ?_⟩
      · show PostOffice.hasEdge _ s r = true
        unfold PostOffice.hasEdge
        show (match alFind (alInsert po.curOutboxes_i s
            (alInsert ((alFind po.curOutboxes_i s).getD []) r po.nextAddr)) s
          with
          | none => false
          | some m => match alFind m r with
            | none => false
            | some _ => true) = true
        rw [alFind_alInsert_self]
        show (match alFind (alInsert ((alFind po.curOutboxes_i s).getD []) r
            po.nextAddr) r with
          | none => false
          | some _ => true) = true
        rw [alFind_alInsert_self]
      · show curOutPtr _ s r = curInPtr _ r s
        unfold curOutPtr curInPtr
        show (match alFind (alInsert po.curOutboxes_i s
            (alInsert ((alFind po.curOutboxes_i s).getD []) r po.nextAddr)) s
          with
          | none => none
          | some m => alFind m r)
          = (match alFind (alInsert po.curInboxes_i r
            (alInsert ((alFind po.curInboxes_i r).getD []) s po.nextAddr)) r
          with
          | none => none
          | some m => alFind m s)
        rw [alFind_alInsert_self, alFind_alInsert_self]
        show alFind (alInsert ((alFind po.curOutboxes_i s).getD []) r
            po.nextAddr) r
          = alFind (alInsert ((alFind po.curInboxes_i r).getD []) s
            po.nextAddr) s
        rw [alFind_alInsert_self, alFind_alInsert_self]
      · show prevOutPtr _ s r = prevInPtr _ r s
        unfold prevOutPtr prevInPtr
        show (match alFind (alInsert po.prevOutboxes_i s
            (alInsert ((alFind po.prevOutboxes_i s).getD []) r
              (po.nextAddr + 1))) s with
          | none => none
          | some m => alFind m r)
          = (match alFind (alInsert po.prevInboxes_i r
            (alInsert ((alFind po.prevInboxes_i r).getD []) s
              (po.nextAddr + 1))) r with
          | none => none
          | some m => alFind m s)
        rw [alFind_alInsert_self, alFind_alInsert_self]
        show alFind (alInsert ((alFind po.prevOutboxes_i s).getD []) r
            (po.nextAddr + 1)) r
          = alFind (alInsert ((alFind po.prevInboxes_i r).getD []) s
            (po.nextAddr + 1)) s
        rw [alFind_alInsert_self, alFind_alInsert_self]
  · -- the swapOutBoxes part
    intro q
    simp only [PostOffice.swapOutBoxes]
    cases hs : alFind po.curOutboxes_i s with
    | none =>
      have hcn : curOutPtr po s q = none := by
        unfold curOutPtr
        rw [hs]
      have hpn : prevOutPtr po s q = none := (POWf_dom hwf s q).mp hcn
      refine ⟨?_, ?_, ?_, ?_⟩
      · rw [hcn, hpn]
      · rw [hcn, hpn]
      · rw [← POWf_cur_alias hwf s q]
      · rw [← POWf_prev_alias hwf s q]
    | some cm =>
      have hnd := alSorted_keys_nodup hwf.1
      have hA : curOutPtr { po with
          curOutboxes_i := alInsert po.curOutboxes_i s
            ((alFind po.prevOutboxes_i s).getD []),
          prevOutboxes_i := alInsert po.prevOutboxes_i s cm,
          curInboxes_i :=
            (swapInboxesLoop s po.curInboxes_i po.prevInboxes_i).1,
          prevInboxes_i :=
            (swapInboxesLoop s po.curInboxes_i po.prevInboxes_i).2 } s q
          = prevOutPtr po s q := by
        unfold curOutPtr prevOutPtr
        show (match alFind (alInsert po.curOutboxes_i s
            ((alFind po.prevOutboxes_i s).getD [])) s with
          | none => none
          | some m => alFind m q) = _
        rw [alFind_alInsert_self]
        cases hp : alFind po.prevOutboxes_i s with
        | none => rfl
        | some pm => rfl
      have hB : prevOutPtr { po with
          curOutboxes_i := alInsert po.curOutboxes_i s
            ((alFind po.prevOutboxes_i s).getD []),
          prevOutboxes_i := alInsert po.prevOutboxes_i s cm,
          curInboxes_i :=
            (swapInboxesLoop s po.curInboxes_i po.prevInboxes_i).1,
          prevInboxes_i :=
            (swapInboxesLoop s po.curInboxes_i po.prevInboxes_i).2 } s q
          = curOutPtr po s q := by
        unfold prevOutPtr curOutPtr
        show (match alFind (alInsert po.prevOutboxes_i s cm) s with
          | none => none
          | some m => alFind m q) = _
        rw [alFind_alInsert_self, hs]
      refine ⟨hA, hB, ?_, ?_⟩
      · -- current inbox aliasing after the swap
        rw [hA]
        show curInPtr _ q s = _
        unfold curInPtr
        cases hcq : alFind po.curInboxes_i q with
        | none =>
          obtain ⟨ha, -⟩ := swapInboxesLoop_absent s po.curInboxes_i
            po.prevInboxes_i q hcq
          show (match alFind
              (swapInboxesLoop s po.curInboxes_i po.prevInboxes_i).1 q with
            | none => none
            | some m => alFind m s) = _
          rw [ha]
          have hci : curInPtr po q s = none := by
            unfold curInPtr
            rw [hcq]
          have hcn : curOutPtr po s q = none := by
            rw [POWf_cur_alias hwf s q, hci]
          rw [(POWf_dom hwf s q).mp hcn]
        | some m =>
          cases hms : alFind m s with
          | none =>
            obtain ⟨ha, -⟩ := swapInboxesLoop_noSender s po.curInboxes_i
              po.prevInboxes_i q m hnd hcq hms
            show (match alFind
                (swapInboxesLoop s po.curInboxes_i po.prevInboxes_i).1 q with
              | none => none
              | some mm => alFind mm s) = _
            rw [ha]
            show alFind m s = _
            rw [hms]
            have hci : curInPtr po q s = none := by
              unfold curInPtr
              rw [hcq]
              exact hms
            have hcn : curOutPtr po s q = none := by
              rw [POWf_cur_alias hwf s q, hci]
            rw [(POWf_dom hwf s q).mp hcn]
          | some c =>
            obtain ⟨ha, -⟩ := swapInboxesLoop_swap s po.curInboxes_i
              po.prevInboxes_i q m c hnd hcq hms
            show (match alFind
                (swapInboxesLoop s po.curInboxes_i po.prevInboxes_i).1 q with
              | none => none
              | some mm => alFind mm s) = _
            rw [ha]
            show alFind (alInsert m s
                ((alFind ((alFind po.prevInboxes_i q).getD []) s).getD 0)) s
              = _
            rw [alFind_alInsert_self]
            have hci : curInPtr po q s = some c := by
              unfold curInPtr
              rw [hcq]
              exact hms
            have hcs : curOutPtr po s q = some c := by
              rw [POWf_cur_alias hwf s q, hci]
            have hpn : prevOutPtr po s q ≠ none := by
              intro hx
              rw [(POWf_dom hwf s q).mpr hx] at hcs
              cases hcs
            obtain ⟨d, hd⟩ : ∃ d, prevOutPtr po s q = some d := by
              cases hx : prevOutPtr po s q with
              | none => exact absurd hx hpn
              | some d => exact ⟨d, rfl⟩
            have hpi : prevInPtr po q s = some d := by
              rw [← POWf_prev_alias hwf s q, hd]
            obtain ⟨pm, hpm, hpms⟩ : ∃ pm, alFind po.prevInboxes_i q = some pm
                ∧ alFind pm s = some d := by
              unfold prevInPtr at hpi
              exact ptrMatch_some hpi
            rw [hpm]
            simp only [Option.getD_some]
            rw [hpms]
            simp only [Option.getD_some]
            rw [hd]
      · -- previous inbox aliasing after the swap
        rw [hB]
        show prevInPtr _ q s = _
        unfold prevInPtr
        cases hcq : alFind po.curInboxes_i q with
        | none =>
          obtain ⟨-, hb⟩ := swapInboxesLoop_absent s po.curInboxes_i
            po.prevInboxes_i q hcq
          show (match alFind
              (swapInboxesLoop s po.curInboxes_i po.prevInboxes_i).2 q with
            | none => none
            | some mm => alFind mm s) = _
          rw [hb]
          have hci : curInPtr po q s = none := by
            unfold curInPtr
            rw [hcq]
          have hcn : curOutPtr po s q = none := by
            rw [POWf_cur_alias hwf s q, hci]
          have hpn : prevOutPtr po s q = none := (POWf_dom hwf s q).mp hcn
          have hpin : prevInPtr po q s = none := by
            rw [← POWf_prev_alias hwf s q, hpn]
          unfold prevInPtr at hpin
          rw [hpin, hcn]
        | some m =>
          cases hms : alFind m s with
          | none =>
            obtain ⟨-, hb⟩ := swapInboxesLoop_noSender s po.curInboxes_i
              po.prevInboxes_i q m hnd hcq hms
            show (match alFind
                (swapInboxesLoop s po.curInboxes_i po.prevInboxes_i).2 q with
              | none => none
              | some mm => alFind mm s) = _
            rw [hb]
            have hci : curInPtr po q s = none := by
              unfold curInPtr
              rw [hcq]
              exact hms
            have hcn : curOutPtr po s q = none := by
              rw [POWf_cur_alias hwf s q, hci]
            have hpn : prevOutPtr po s q = none := (POWf_dom hwf s q).mp hcn
            have hpin : prevInPtr po q s = none := by
              rw [← POWf_prev_alias hwf s q, hpn]
            unfold prevInPtr at hpin
            rw [hpin, hcn]
          | some c =>
            obtain ⟨-, hb⟩ := swapInboxesLoop_swap s po.curInboxes_i
              po.prevInboxes_i q m c hnd hcq hms
            show (match alFind
                (swapInboxesLoop s po.curInboxes_i po.prevInboxes_i).2 q with
              | none => none
              | some mm => alFind mm s) = _
            rw [hb]
            show alFind (alInsert ((alFind po.prevInboxes_i q).getD []) s c) s
              = _
            rw [alFind_alInsert_self]
            have hci : curInPtr po q s = some c := by
              unfold curInPtr
              rw [hcq]
              exact hms
            rw [POWf_cur_alias hwf s q, hci]

/-- Witness for claim C6: a fresh edge (1, 2), then a further edge and
a swap, all on concrete states. -/
theorem claim_C6_witness :
    ((emptyPostOffice.addEdge 1 2 (constDF 5)).addEdge 1 3
        (constDF 7)).hasEdge 1 3 = true ∧
    curOutPtr ((emptyPostOffice.addEdge 1 2 (constDF 5)).swapOutBoxes 1) 1 2
      = some 2 ∧
    curInPtr ((emptyPostOffice.addEdge 1 2 (constDF 5)).swapOutBoxes 1) 2 1
      = some 2 ∧
    prevOutPtr ((emptyPostOffice.addEdge 1 2 (constDF 5)).swapOutBoxes 1) 1 2
      = some 1 := by
  have h := claim_C6_postoffice (emptyPostOffice.addEdge 1 2 (constDF 5))
    (by decide) 1 3 (constDF 7)
  refine ⟨h.1.1, ?_, ?_, ?_⟩
  · exact ((h.2 2).1).trans (by rfl)
  · exact ((h.2 2).2.2.1).trans (((h.2 2).1).trans (by rfl))
  · exact ((h.2 2).2.1).trans (by rfl)

/-! #### Claim theorem: controller accessors (C9) -/

/-- Claim C9: `getFactor` fails with the no-such-element error exactly
on factors missing from the factor map and otherwise returns the
stored function; `getValue` fails with the no-such-element error
exactly on variables missing from the assignment map and otherwise
returns the stored assignment.  Both are pure accessors of the
controller state. -/
theorem claim_C9_accessors (c : MaxSumController) (id var : Nat) :
    (alFind c.factors_i id = none →
      c.getFactor id = .error .noSuchElement) ∧
    (∀ f, alFind c.factors_i id = some f → c.getFactor id = .ok f) ∧
    (alFind c.values_i var = none →
      c.getValue var = .error .noSuchElement) ∧
    (∀ x, alFind c.values_i var = some x → c.getValue var = .ok x) := by
  refine ⟨?_, ?_, ?_, ?_⟩
  · intro h
    unfold MaxSumController.getFactor
    rw [h]
  · intro f h
    unfold MaxSumController.getFactor
    rw [h]
  · intro h
    unfold MaxSumController.getValue
    rw [h]
  · intro x h
    unfold MaxSumController.getValue
    rw [h]

/-- Witness for claim C9 on a concrete controller with factor 3 and
variable 2 present, factor 5 and variable 9 absent. -/
theorem claim_C9_witness :
    (⟨[(3, fDemo)], [(2, 4)], emptyPostOffice, emptyPostOffice, 100, 0⟩ :
      MaxSumController).getFactor 5 = .error .noSuchElement ∧
    (⟨[(3, fDemo)], [(2, 4)], emptyPostOffice, emptyPostOffice, 100, 0⟩ :
      MaxSumController).getFactor 3 = .ok fDemo ∧
    (⟨[(3, fDemo)], [(2, 4)], emptyPostOffice, emptyPostOffice, 100, 0⟩ :
      MaxSumController).getValue 9 = .error .noSuchElement ∧
    (⟨[(3, fDemo)], [(2, 4)], emptyPostOffice, emptyPostOffice, 100, 0⟩ :
      MaxSumController).getValue 2 = .ok 4 := by
  have h := claim_C9_accessors
    ⟨[(3, fDemo)], [(2, 4)], emptyPostOffice, emptyPostOffice, 100, 0⟩ 5 9
  have h2 := claim_C9_accessors
    ⟨[(3, fDemo)], [(2, 4)], emptyPostOffice, emptyPostOffice, 100, 0⟩ 3 2
  exact ⟨h.1 (by rfl), h2.2.1 fDemo (by rfl), h.2.2.1 (by rfl),
    h2.2.2.2 4 (by rfl)⟩


/-! #### Helpers for the optimise claims (C7, C8) -/

theorem afterIters_succ_front (reg : Registry) :
    ∀ (k : Nat) (c : MaxSumController), afterIters reg c (k + 1)
      = (oneIteration reg c) >>= (fun r => afterIters reg r.2 k) := by
  intro k
  induction k with
  | zero =>
    intro c
    show ((afterIters reg c 0) >>= fun cprev =>
      (oneIteration reg cprev) >>= fun r => .ok r.2) = _
    rw [show afterIters reg c 0 = .ok c from rfl, ok_bind]
    cases h1 : oneIteration reg c with
    | error e => simp only [error_bind]
    | ok r => rw [ok_bind]; rfl
  | succ n ih =>
    intro c
    show ((afterIters reg c (n + 1)) >>= fun cprev =>
      (oneIteration reg cprev) >>= fun r => .ok r.2) = _
    rw [ih c]
    cases h1 : oneIteration reg c with
    | error e => simp only [error_bind]
    | ok r =>
      rw [ok_bind, ok_bind]
      rfl

theorem updatesAt_zero (reg : Registry) (c : MaxSumController) :
    updatesAt reg c 0 = (oneIteration reg c) >>= (fun r => .ok r.1) := rfl

theorem updatesAt_succ_front (reg : Registry) (k : Nat)
    (c : MaxSumController) :
    updatesAt reg c (k + 1)
      = (oneIteration reg c) >>= (fun r => updatesAt reg r.2 k) := by
  unfold updatesAt
  rw [afterIters_succ_front reg k c]
  cases h1 : oneIteration reg c with
  | error e => rw [error_bind, error_bind, error_bind]
  | ok r =>
    rw [ok_bind, ok_bind]

/-- Full characterisation of the `optimise` loop: starting at iteration
`count` with `fuel` iterations of budget left, a successful run
performs `n - count` further iterations (each a factor-to-variable pass
followed by a variable-to-factor pass), lands on the iterated state,
never stops while an iteration still changes messages, and stops early
exactly after an iteration with zero updates. -/
theorem optimiseLoop_spec (reg : Registry) :
    ∀ (fuel : Nat) (count : Int) (c : MaxSumController) (n : Int)
    (c2 : MaxSumController),
    optimiseLoop reg fuel count c = .ok (n, c2) →
    count ≤ n ∧ n ≤ count + fuel ∧ (0 < fuel → count + 1 ≤ n) ∧
    afterIters reg c (n - count).toNat = .ok c2 ∧
    (∀ j : Nat, (j : Int) < n - count - 1 → updatesAt reg c j ≠ .ok 0) ∧
    (n < count + fuel → updatesAt reg c ((n - count).toNat - 1) = .ok 0) := by
  intro fuel
  induction fuel with
  | zero =>
    intro count c n c2 h
    simp only [optimiseLoop] at h
    injection h with h3
    injection h3 with hn hc
    subst hn
    subst hc
    refine ⟨le_refl _, by omega, by omega, ?_, ?_, ?_⟩
    · rw [show ((count : Int) - count).toNat = 0 by omega]
      rfl
    · intro j hj
      exact absurd hj (by omega)
    · intro hlt
      exact absurd hlt (by omega)
  | succ m ih =>
    intro count c n c2 h
    simp only [optimiseLoop] at h
    cases h1 : oneIteration reg c with
    | error e =>
      rw [h1, error_bind] at h
      cases h
    | ok r =>
      rw [h1, ok_bind] at h
      by_cases hz : r.1 = 0
      · rw [if_pos hz] at h
        injection h with h3
        injection h3 with hn hc
        subst hc
        have hn2 : n = count + 1 := hn.symm
        subst hn2
        refine ⟨by omega, by omega, fun _ => le_refl _, ?_, ?_, ?_⟩
        · rw [show ((count + 1 : Int) - count).toNat = 1 by omega,
            afterIters_succ_front reg 0 c, h1, ok_bind]
          rfl
        · intro j hj
          exact absurd hj (by omega)
        · intro _
          rw [show ((count + 1 : Int) - count).toNat - 1 = 0 by omega,
            updatesAt_zero, h1, ok_bind, hz]
      · rw [if_neg hz] at h
        obtain ⟨ha, hb, hc', hd, he, hf⟩ := ih (count + 1) r.2 n c2 h
        have hstep : count + 1 ≤ n := ha
        refine ⟨by omega, by omega, fun _ => hstep, ?_, ?_, ?_⟩
        · rw [show (n - count).toNat = (n - (count + 1)).toNat + 1 by omega,
            afterIters_succ_front, h1, ok_bind]
          exact hd
        · intro j hj
          cases j with
          | zero =>
            intro hEq
            rw [updatesAt_zero, h1, ok_bind] at hEq
            injection hEq with hEq2
            exact hz hEq2
          | succ j2 =>
            rw [updatesAt_succ_front reg j2 c, h1, ok_bind]
            refine he j2 ?_
            have : ((j2 + 1 : Nat) : Int) < n - count - 1 := hj
            omega
        · intro hlt
          by_cases hm : 0 < m
          · have h2 := hc' hm
            rw [show (n - count).toNat - 1
                = ((n - (count + 1)).toNat - 1) + 1 by omega,
              updatesAt_succ_front, h1, ok_bind]
            exact hf (by omega)
          · exfalso
            have hm0 : m = 0 := by omega
            subst hm0
            omega

/-! #### Claim theorem: optimise termination and structure (C7) -/

/-- Claim C7: `optimise` always returns.  With a non-positive iteration
budget it performs no iterations and returns 0 with the state
untouched.  Otherwise it performs `n` iterations with
`1 ≤ n ≤ maxIterations_i`, where each iteration is one
factor-to-variable pass followed by one variable-to-factor pass
(`afterIters` iterates exactly `oneIteration`, the composition of
`updateFac2VarMsgs` and `updateVar2FacMsgs`); every iteration before
the last produced at least one message update, and if the loop stopped
before exhausting the budget, the final iteration produced none.  The
returned count is the number of iterations performed. -/
theorem claim_C7_optimise (reg : Registry) (c : MaxSumController)
    (n : Int) (c2 : MaxSumController)
    (h : c.optimise reg = .ok (n, c2)) :
    (c.maxIterations_i ≤ 0 → n = 0 ∧ c2 = c) ∧
    (0 < c.maxIterations_i →
      1 ≤ n ∧ n ≤ c.maxIterations_i ∧
      afterIters reg c n.toNat = .ok c2 ∧
      (∀ j : Nat, (j : Int) < n - 1 → updatesAt reg c j ≠ .ok 0) ∧
      (n < c.maxIterations_i → updatesAt reg c (n.toNat - 1) = .ok 0)) := by
  unfold MaxSumController.optimise at h
  obtain ⟨ha, hb, hc', hd, he, hf⟩ :=
    optimiseLoop_spec reg c.maxIterations_i.toNat 0 c n c2 h
  constructor
  · intro hle
    have h0 : c.maxIterations_i.toNat = 0 := by omega
    rw [h0] at h
    simp only [optimiseLoop] at h
    injection h with h3
    injection h3 with hn hcc
    exact ⟨hn.symm, hcc.symm⟩
  · intro hpos
    have hft : 0 < c.maxIterations_i.toNat := by omega
    have hmax : (c.maxIterations_i.toNat : Int) = c.maxIterations_i := by
      omega
    refine ⟨?_, ?_, ?_, ?_, ?_⟩
    · have := hc' hft
      omega
    · omega
    · rw [show n.toNat = (n - 0).toNat by omega]
      exact hd
    · intro j hj
      exact he j (by omega)
    · intro hlt
      have h2 := hf (by omega)
      rw [show (n - 0).toNat - 1 = n.toNat - 1 by omega] at h2
      exact h2

/-- Witness for claim C7: a fresh controller with budget 5; `optimise`
performs exactly one (empty) iteration. -/
theorem claim_C7_witness :
    (mkMaxSumController 5 0).optimise regDemo
      = .ok (1, mkMaxSumController 5 0) ∧
    (1 : Int) ≤ 1 ∧ (1 : Int) ≤ (mkMaxSumController 5 0).maxIterations_i ∧
    afterIters regDemo (mkMaxSumController 5 0) 1
      = .ok (mkMaxSumController 5 0) := by
  have h := claim_C7_optimise regDemo (mkMaxSumController 5 0) 1
    (mkMaxSumController 5 0) (by rfl)
  have h2 := h.2 (by decide)
  exact ⟨by rfl, h2.1, h2.2.1, h2.2.2.1⟩


/-! #### Value-level helpers for the single-factor optimisation (C8) -/

theorem zipWith_add_replicate_zero :
    ∀ (l : List Rat) (n : Nat), l.length ≤ n →
    List.zipWith (· + ·) l (List.replicate n 0) = l := by
  intro l
  induction l with
  | nil => intro n _; simp
  | cons a l2 ih =>
    intro n h
    cases n with
    | zero => simp at h
    | succ m =>
      simp only [List.replicate_succ, List.zipWith_cons_cons, add_zero]
      rw [ih m (by simpa using h)]

theorem zipWith_replicate_zero_add :
    ∀ (l : List Rat) (n : Nat), l.length ≤ n →
    List.zipWith (· + ·) (List.replicate n 0) l = l := by
  intro l
  induction l with
  | nil => intro n _; simp
  | cons a l2 ih =>
    intro n h
    cases n with
    | zero => simp at h
    | succ m =>
      simp only [List.replicate_succ, List.zipWith_cons_cons, zero_add]
      rw [ih m (by simpa using h)]

theorem zipWith_sub_replicate_zero :
    ∀ (l : List Rat) (n : Nat), l.length ≤ n →
    List.zipWith (· - ·) l (List.replicate n 0) = l := by
  intro l
  induction l with
  | nil => intro n _; simp
  | cons a l2 ih =>
    intro n h
    cases n with
    | zero => simp at h
    | succ m =>
      simp only [List.replicate_succ, List.zipWith_cons_cons, sub_zero]
      rw [ih m (by simpa using h)]

theorem zipWith_sub_self (l : List Rat) :
    List.zipWith (· - ·) l l = List.replicate l.length 0 := by
  induction l with
  | nil => rfl
  | cons a l2 ih =>
    simp only [List.zipWith_cons_cons, sub_self, List.length_cons,
      List.replicate_succ, ih]

theorem foldl_add_zero_div (d : Rat) :
    ∀ (n : Nat) (acc : Rat),
    List.foldl (fun r x => r + x / d) acc (List.replicate n 0) = acc := by
  intro n
  induction n with
  | zero => intro acc; rfl
  | succ m ih =>
    intro acc
    simp only [List.replicate_succ, List.foldl_cons, zero_div, add_zero]
    exact ih acc

theorem mean_zeros (vs : List Nat) (ss : List Int) (n : Nat) :
    (⟨vs, ss, List.replicate n 0⟩ : DiscreteFunction).mean = 0 := by
  unfold DiscreteFunction.mean
  exact foldl_add_zero_div _ n 0

theorem maxnorm_zeros (vs : List Nat) (ss : List Int) (n : Nat) :
    (⟨vs, ss, List.replicate n 0⟩ : DiscreteFunction).maxnorm = 0 := by
  unfold DiscreteFunction.maxnorm
  show List.foldl _ 0 (List.replicate n 0) = 0
  induction n with
  | zero => rfl
  | succ m ih =>
    simp only [List.replicate_succ, List.foldl_cons, abs_zero]
    rw [if_neg (lt_irrefl 0)]
    exact ih

theorem subScalar_zero (f : DiscreteFunction) : f.subScalar 0 = f := by
  unfold DiscreteFunction.subScalar
  simp [sub_zero, List.map_id']

theorem addFun_same (reg : Registry) (vs : List Nat) (s1 s2 : List Int)
    (l1 l2 : List Rat) :
    DiscreteFunction.addFun reg ⟨vs, s1, l1⟩ ⟨vs, s2, l2⟩
      = .ok ⟨vs, s1, List.zipWith (· + ·) l1 l2⟩ := by
  unfold DiscreteFunction.addFun sameDomain
  simp

theorem subFun_same (reg : Registry) (vs : List Nat) (s1 s2 : List Int)
    (l1 l2 : List Rat) :
    DiscreteFunction.subFun reg ⟨vs, s1, l1⟩ ⟨vs, s2, l2⟩
      = .ok ⟨vs, s1, List.zipWith (· - ·) l1 l2⟩ := by
  unfold DiscreteFunction.subFun sameDomain
  simp

theorem mapGetSizes_single {reg : Registry} {v : Nat} {s : Int}
    (hv : reg v = some s) : mapGetSizes reg [v] = .ok [s] := by
  show ((getDomainSize reg v) >>= fun s2 =>
    (mapGetSizes reg []) >>= fun rest => .ok (s2 :: rest)) = _
  unfold getDomainSize
  rw [hv]
  rfl

theorem mkDiscreteFunction_single {reg : Registry} {v : Nat} {s : Int}
    (hv : reg v = some s) :
    mkDiscreteFunction reg [v] 0
      = .ok ⟨[v], [s], List.replicate s.toNat 0⟩ := by
  unfold mkDiscreteFunction
  rw [show sortVars [v] = [v] from rfl, mapGetSizes_single hv, ok_bind]
  show Except.ok (⟨[v], [s], List.replicate ([s].prod).toNat 0⟩ :
    DiscreteFunction) = _
  rw [List.prod_singleton]

/-- Symbolic execution of one `processVar` step on the single-edge
controller shape: the variable's outboxes swap, the outgoing message
becomes the zero function (the message sum minus the factor-to-variable
input equals zero after normalisation), no threshold notification
fires, and the assignment is set to the argmax of the message sum. -/
theorem processVar_step (reg : Registry) (v id : Nat) (s : Int)
    (vals : List Rat) (hvl : vals.length = s.toNat)
    (a b c : Nat) (hab : a ≠ b) (thresh : Rat) (hth : ¬ thresh < 0)
    (V : List (Nat × Int)) (facs : List (Nat × DiscreteFunction))
    (maxIter : Int) (f2v : PostOffice)
    (hv : reg v = some s)
    (hcin : alFind f2v.curInboxes_i v = some [(id, c)])
    (hheapc : f2v.heap c = ⟨[v], [s], vals⟩)
    (H : Nat → DiscreteFunction) (nots : List Nat) (na : Nat)
    (hHa : H a = ⟨[v], [s], List.replicate s.toNat 0⟩) :
    processVar reg
      ⟨facs, V, f2v,
       ⟨[(v, [(id, a)])], [(v, [(id, b)])], [(id, [(v, a)])],
        [(id, [(v, b)])], nots, na, H⟩, maxIter, thresh⟩ v
    = .ok ⟨facs,
        (if (⟨[v], [s], vals⟩ : DiscreteFunction).argmax
            ≠ (alFind V v).getD 0
         then alInsert (alInsert V v ((alFind V v).getD 0)) v
           (⟨[v], [s], vals⟩ : DiscreteFunction).argmax
         else alInsert V v ((alFind V v).getD 0)),
        f2v,
        ⟨[(v, [(id, b)])], [(v, [(id, a)])], [(id, [(v, b)])],
         [(id, [(v, a)])],
         (if (⟨[v], [s], vals⟩ : DiscreteFunction).argmax
             ≠ (alFind V v).getD 0
          then [id] else nots), na,
         fun x => if x = b then ⟨[v], [s], List.replicate s.toNat 0⟩
                  else H x⟩,
        maxIter, thresh⟩ := by
  unfold processVar
  rw [mkDiscreteFunction_single hv, ok_bind]
  simp only [PostOffice.swapOutBoxes, swapInboxesLoop, swapInboxEntry,
    alFind, alInsert, if_pos, eq_self_iff_true, if_true, lt_irrefl,
    if_false, Option.getD_some, hcin, ok_bind]
  have hsum : sumInMsgs reg f2v.heap
      (⟨[v], [s], List.replicate s.toNat 0⟩ : DiscreteFunction) [(id, c)]
      = .ok (⟨[v], [s], vals⟩ : DiscreteFunction) := by
    simp only [sumInMsgs, hheapc, addFun_same, ok_bind]
    rw [zipWith_replicate_zero_add vals s.toNat (le_of_eq hvl)]
  rw [hsum, ok_bind]
  have hloop : var2FacNeighborLoop reg thresh
      (⟨[v], [s], vals⟩ : DiscreteFunction) f2v.heap [(id, c)] [(id, a)]
      [(id, b)]
      ⟨[(v, [(id, b)])], [(v, [(id, a)])], [(id, [(v, b)])],
       [(id, [(v, a)])], nots, na, H⟩
      = .ok ⟨[(v, [(id, b)])], [(v, [(id, a)])], [(id, [(v, b)])],
       [(id, [(v, a)])], nots, na,
       fun x => if x = b then ⟨[v], [s], List.replicate s.toNat 0⟩
                else H x⟩ := by
    simp only [var2FacNeighborLoop, alFind, eq_self_iff_true, if_true,
      ok_bind, hheapc, subFun_same, zipWith_sub_self, hvl, mean_zeros,
      subScalar_zero, List.length_replicate, maxnorm_zeros, hab, hth,
      if_false, hHa]
  rw [hloop, ok_bind]
  by_cases hc2 : (⟨[v], [s], vals⟩ : DiscreteFunction).argmax
      = (alFind V v).getD 0
  · rw [if_neg (by simpa using hc2), if_neg (by simpa using hc2),
      if_neg (by simpa using hc2)]
  · rw [if_pos hc2, if_pos hc2, if_pos hc2]
    show Except.ok _ = _
    simp only [PostOffice.notifyAll, List.map]

/-- Symbolic execution of one `processFactor` step on the single-edge
controller shape: the factor's outboxes swap, the outgoing message is
overwritten with the factor values (max-marginalising the factor plus a
zero input), and the neighbour is notified exactly when the difference
with the previous outgoing message beats the threshold. -/
theorem processFactor_step (reg : Registry) (v id : Nat) (s : Int)
    (vals avals : List Rat) (hvl : vals.length = s.toNat)
    (a b c : Nat) (hab : a ≠ b) (thresh : Rat)
    (V : List (Nat × Int)) (maxIter : Int) (v2f : PostOffice)
    (hcin : alFind v2f.curInboxes_i id = some [(v, c)])
    (hheapc : v2f.heap c = ⟨[v], [s], List.replicate s.toNat 0⟩)
    (H : Nat → DiscreteFunction) (nots : List Nat) (na : Nat)
    (hHa : H a = ⟨[v], [s], avals⟩)
    (hmarg : maxMarginal ⟨[v], [s], vals⟩ (H b)
      = .ok ⟨[v], [s], vals⟩) :
    processFactor reg
      ⟨[(id, ⟨[v], [s], vals⟩)], V,
       ⟨[(id, [(v, a)])], [(id, [(v, b)])], [(v, [(id, a)])],
        [(v, [(id, b)])], nots, na, H⟩, v2f, maxIter, thresh⟩ id
    = .ok ⟨[(id, ⟨[v], [s], vals⟩)], V,
        (if thresh < (⟨[v], [s],
              List.zipWith (· - ·) vals avals⟩ : DiscreteFunction).maxnorm
         then ⟨[(id, [(v, b)])], [(id, [(v, a)])], [(v, [(id, b)])],
               [(v, [(id, a)])], nots ++ [v], na,
               fun x => if x = b then ⟨[v], [s], vals⟩ else H x⟩
         else ⟨[(id, [(v, b)])], [(id, [(v, a)])], [(v, [(id, b)])],
               [(v, [(id, a)])], nots, na,
               fun x => if x = b then ⟨[v], [s], vals⟩ else H x⟩),
        v2f, maxIter, thresh⟩ := by
  unfold processFactor
  simp only [PostOffice.swapOutBoxes, swapInboxesLoop, swapInboxEntry,
    alFind, alInsert, eq_self_iff_true, if_true, lt_irrefl, if_false,
    Option.getD_some, hcin, ok_bind]
  have hsum : sumInMsgs reg v2f.heap (⟨[v], [s], vals⟩ : DiscreteFunction)
      [(v, c)] = .ok (⟨[v], [s], vals⟩ : DiscreteFunction) := by
    simp only [sumInMsgs, hheapc, addFun_same, ok_bind]
    rw [zipWith_add_replicate_zero vals s.toNat (le_of_eq hvl)]
  rw [hsum, ok_bind]
  have hloop : fac2VarNeighborLoop reg thresh
      (⟨[v], [s], vals⟩ : DiscreteFunction) v2f.heap [(v, c)] [(v, a)]
      [(v, b)]
      ⟨[(id, [(v, b)])], [(id, [(v, a)])], [(v, [(id, b)])],
       [(v, [(id, a)])], nots, na, H⟩
      = .ok (if thresh < (⟨[v], [s],
              List.zipWith (· - ·) vals avals⟩ : DiscreteFunction).maxnorm
         then ⟨[(id, [(v, b)])], [(id, [(v, a)])], [(v, [(id, b)])],
               [(v, [(id, a)])], nots ++ [v], na,
               fun x => if x = b then ⟨[v], [s], vals⟩ else H x⟩
         else ⟨[(id, [(v, b)])], [(id, [(v, a)])], [(v, [(id, b)])],
               [(v, [(id, a)])], nots, na,
               fun x => if x = b then ⟨[v], [s], vals⟩ else H x⟩) := by
    simp only [fac2VarNeighborLoop, alFind, eq_self_iff_true, if_true,
      ok_bind, hheapc, subFun_same,
      zipWith_sub_replicate_zero vals s.toNat (le_of_eq hvl), hmarg, hab,
      if_false, hHa, PostOffice.notify]
  rw [hloop, ok_bind]

/-- `setFactor` on a fresh controller with a single-variable factor:
two post-office edges are created (current message address 1, previous
2 on each side), the assignment is initialised to 0, and everybody is
notified. -/
theorem setFactor_single (reg : Registry) (v id : Nat) (s : Int)
    (vals : List Rat) (hv : reg v = some s) (maxIter : Int) (thresh : Rat) :
    (mkMaxSumController maxIter thresh).setFactor reg id ⟨[v], [s], vals⟩
    = .ok ⟨[(id, ⟨[v], [s], vals⟩)], [(v, 0)],
        ⟨[(id, [(v, 1)])], [(id, [(v, 2)])], [(v, [(id, 1)])],
         [(v, [(id, 2)])], [v], 3,
         fun x => if x = 1 ∨ x = 2 then ⟨[v], [s], List.replicate s.toNat 0⟩
                  else constDF 0⟩,
        ⟨[(v, [(id, 1)])], [(v, [(id, 2)])], [(id, [(v, 1)])],
         [(id, [(v, 2)])], [id], 3,
         fun x => if x = 1 ∨ x = 2 then ⟨[v], [s], List.replicate s.toNat 0⟩
                  else constDF 0⟩,
        maxIter, thresh⟩ := by
  unfold MaxSumController.setFactor mkMaxSumController
  simp only [alFind, Option.getD_none, constDF, DiscreteFunction.noVars,
    setDiffGo, List.length_nil, Nat.sub_zero, List.replicate,
    List.nil_append, setFactorRemoveLoop, setFactorAddLoop,
    mkDiscreteFunction_single hv, ok_bind, PostOffice.addEdge,
    emptyPostOffice, alInsert, eq_self_iff_true, if_true, lt_irrefl,
    if_false, PostOffice.notifyAll, List.map, ne_eq, not_true, not_false_iff]

/-! #### Claim theorem: optimise on the empty and single-factor graphs (C8) -/

/-- Claim C8: on a controller with no factors `optimise` performs no
real work: with a positive budget it runs exactly one (vacuous)
iteration, returning with the controller unchanged.  On a fresh
controller holding exactly one factor over a single variable, after
`optimise` the value stored for that variable is the factor's
`argmax` (the lowest linear index attaining the maximum). -/
theorem claim_C8_optimise (reg : Registry) :
    (∀ (maxIter : Int) (thresh : Rat), 1 ≤ maxIter →
      (mkMaxSumController maxIter thresh).optimise reg
        = .ok (1, mkMaxSumController maxIter thresh)) ∧
    (∀ (v id : Nat) (s : Int) (vals : List Rat) (maxIter : Int)
       (thresh : Rat) (c1 : MaxSumController) (n : Int)
       (c2 : MaxSumController),
      RegWf reg → reg v = some s → (vals.length : Int) = s →
      0 ≤ thresh → 1 ≤ maxIter →
      (mkMaxSumController maxIter thresh).setFactor reg id
        ⟨[v], [s], vals⟩ = .ok c1 →
      c1.optimise reg = .ok (n, c2) →
      c2.getValue v
        = .ok (⟨[v], [s], vals⟩ : DiscreteFunction).argmax) := by
  constructor
  · intro maxIter thresh hpos
    unfold MaxSumController.optimise
    obtain ⟨m, hm⟩ : ∃ m,
        (mkMaxSumController maxIter thresh).maxIterations_i.toNat = m + 1 := by
      refine ⟨maxIter.toNat - 1, ?_⟩
      show maxIter.toNat = maxIter.toNat - 1 + 1
      omega
    rw [hm]
    simp only [optimiseLoop]
    rw [show oneIteration reg (mkMaxSumController maxIter thresh)
        = .ok (0, mkMaxSumController maxIter thresh) from rfl, ok_bind]
    rw [if_pos rfl]
    norm_num
  · intro v id s vals maxIter thresh c1 n c2 hreg hv hvl0 hth0 hmax hset hopt
    have hs2 : 2 ≤ s := hreg v s hv
    have hvl : vals.length = s.toNat := by omega
    have hth : ¬ thresh < 0 := not_lt.mpr hth0
    have hwfF : DFWf reg ⟨[v], [s], vals⟩ := by
      refine ⟨by simp, List.Forall₂.cons hv List.Forall₂.nil, ?_⟩
      show ((vals.length : Int)) = ([s] : List Int).prod
      rw [List.prod_singleton]
      exact hvl0
    have hwfT : DFWf reg ⟨[v], [s], List.replicate s.toNat 0⟩ := by
      refine ⟨by simp, List.Forall₂.cons hv List.Forall₂.nil, ?_⟩
      show (((List.replicate s.toNat (0 : Rat)).length : Int))
        = ([s] : List Int).prod
      rw [List.prod_singleton, List.length_replicate]
      omega
    have hmargT : maxMarginal ⟨[v], [s], vals⟩
        (⟨[v], [s], List.replicate s.toNat 0⟩ : DiscreteFunction)
        = .ok ⟨[v], [s], vals⟩ := marginal_copy hreg hwfF hwfT _ rfl
    rw [setFactor_single reg v id s vals hv maxIter thresh] at hset
    injection hset with hset2
    subst hset2
    have hiter1 : ∃ (k : Nat) (W : List (Nat × Int)) (p q : Nat)
        (Hf Hv : Nat → DiscreteFunction) (nots2 : List Nat),
        oneIteration reg ⟨[(id, ⟨[v], [s], vals⟩)], [(v, 0)], ⟨[(id, [(v, 1)])], [(id, [(v, 2)])], [(v, [(id, 1)])], [(v, [(id, 2)])], [v], 3, fun x => if x = 1 ∨ x = 2 then (⟨[v], [s], List.replicate s.toNat 0⟩ : DiscreteFunction) else constDF 0⟩, ⟨[(v, [(id, 1)])], [(v, [(id, 2)])], [(id, [(v, 1)])], [(id, [(v, 2)])], [id], 3, fun x => if x = 1 ∨ x = 2 then (⟨[v], [s], List.replicate s.toNat 0⟩ : DiscreteFunction) else constDF 0⟩, maxIter, thresh⟩
          = .ok (k, ⟨[(id, ⟨[v], [s], vals⟩)], W, ⟨[(id, [(v, 2)])], [(id, [(v, 1)])], [(v, [(id, 2)])], [(v, [(id, 1)])], [], 3, Hf⟩, ⟨[(v, [(id, p)])], [(v, [(id, q)])], [(id, [(v, p)])], [(id, [(v, q)])], nots2, 3, Hv⟩, maxIter, thresh⟩) ∧ k ≠ 0 ∧
        alFind W v = some (⟨[v], [s], vals⟩ : DiscreteFunction).argmax ∧
        Hf 2 = ⟨[v], [s], vals⟩ ∧ Hf 1 = ⟨[v], [s], List.replicate s.toNat 0⟩ ∧
        Hv p = ⟨[v], [s], List.replicate s.toNat 0⟩ ∧
        (nots2 = [] ∨ nots2 = [id]) := by
      by_cases hB1 : thresh < (⟨[v], [s], vals⟩ : DiscreteFunction).maxnorm
      · by_cases hB2 : (⟨[v], [s], vals⟩ : DiscreteFunction).argmax = 0
        · refine ⟨2, [(v, 0)], 1, 2, fun x => if x = 2 then (⟨[v], [s], vals⟩ : DiscreteFunction) else if x = 1 ∨ x = 2 then (⟨[v], [s], List.replicate s.toNat 0⟩ : DiscreteFunction) else constDF 0, fun x => if x = 1 then (⟨[v], [s], List.replicate s.toNat 0⟩ : DiscreteFunction) else if x = 2 then (⟨[v], [s], List.replicate s.toNat 0⟩ : DiscreteFunction) else if x = 1 ∨ x = 2 then (⟨[v], [s], List.replicate s.toNat 0⟩ : DiscreteFunction) else constDF 0, [],
            ?_, by decide, by simp [alFind, hB2], by norm_num, by norm_num,
            by norm_num, Or.inl rfl⟩
          have hpf2 : processFactor reg ⟨[(id, ⟨[v], [s], vals⟩)], [(v, 0)], ⟨[(id, [(v, 1)])], [(id, [(v, 2)])], [(v, [(id, 1)])], [(v, [(id, 2)])], [v], 3, fun x => if x = 1 ∨ x = 2 then (⟨[v], [s], List.replicate s.toNat 0⟩ : DiscreteFunction) else constDF 0⟩, ⟨[(v, [(id, 1)])], [(v, [(id, 2)])], [(id, [(v, 1)])], [(id, [(v, 2)])], [], 3, fun x => if x = 1 ∨ x = 2 then (⟨[v], [s], List.replicate s.toNat 0⟩ : DiscreteFunction) else constDF 0⟩, maxIter, thresh⟩ id
              = .ok ⟨[(id, ⟨[v], [s], vals⟩)], [(v, 0)], ⟨[(id, [(v, 2)])], [(id, [(v, 1)])], [(v, [(id, 2)])], [(v, [(id, 1)])], [v, v], 3, fun x => if x = 2 then (⟨[v], [s], vals⟩ : DiscreteFunction) else if x = 1 ∨ x = 2 then (⟨[v], [s], List.replicate s.toNat 0⟩ : DiscreteFunction) else constDF 0⟩, ⟨[(v, [(id, 1)])], [(v, [(id, 2)])], [(id, [(v, 1)])], [(id, [(v, 2)])], [], 3, fun x => if x = 1 ∨ x = 2 then (⟨[v], [s], List.replicate s.toNat 0⟩ : DiscreteFunction) else constDF 0⟩, maxIter, thresh⟩ := by
            rw [processFactor_step reg v id s vals (List.replicate s.toNat 0)
              hvl 1 2 1 (by decide) thresh [(v, 0)] maxIter
              (⟨[(v, [(id, 1)])], [(v, [(id, 2)])], [(id, [(v, 1)])], [(id, [(v, 2)])], [], 3, fun x => if x = 1 ∨ x = 2 then (⟨[v], [s], List.replicate s.toNat 0⟩ : DiscreteFunction) else constDF 0⟩ : PostOffice)
              (by simp [alFind]) (by norm_num) (fun x => if x = 1 ∨ x = 2 then (⟨[v], [s], List.replicate s.toNat 0⟩ : DiscreteFunction) else constDF 0) [v] 3 (by norm_num)
              (by
                rw [show (fun x => if x = 1 ∨ x = 2 then (⟨[v], [s], List.replicate s.toNat 0⟩ : DiscreteFunction) else constDF 0) 2 = (⟨[v], [s], List.replicate s.toNat 0⟩ : DiscreteFunction) by norm_num]
                exact hmargT)]
            rw [zipWith_sub_replicate_zero vals s.toNat (le_of_eq hvl),
              if_pos hB1]
            rfl
          have hu1 : MaxSumController.updateFac2VarMsgs reg ⟨[(id, ⟨[v], [s], vals⟩)], [(v, 0)], ⟨[(id, [(v, 1)])], [(id, [(v, 2)])], [(v, [(id, 1)])], [(v, [(id, 2)])], [v], 3, fun x => if x = 1 ∨ x = 2 then (⟨[v], [s], List.replicate s.toNat 0⟩ : DiscreteFunction) else constDF 0⟩, ⟨[(v, [(id, 1)])], [(v, [(id, 2)])], [(id, [(v, 1)])], [(id, [(v, 2)])], [id], 3, fun x => if x = 1 ∨ x = 2 then (⟨[v], [s], List.replicate s.toNat 0⟩ : DiscreteFunction) else constDF 0⟩, maxIter, thresh⟩
              = .ok (2, ⟨[(id, ⟨[v], [s], vals⟩)], [(v, 0)], ⟨[(id, [(v, 2)])], [(id, [(v, 1)])], [(v, [(id, 2)])], [(v, [(id, 1)])], [v, v], 3, fun x => if x = 2 then (⟨[v], [s], vals⟩ : DiscreteFunction) else if x = 1 ∨ x = 2 then (⟨[v], [s], List.replicate s.toNat 0⟩ : DiscreteFunction) else constDF 0⟩, ⟨[(v, [(id, 1)])], [(v, [(id, 2)])], [(id, [(v, 1)])], [(id, [(v, 2)])], [], 3, fun x => if x = 1 ∨ x = 2 then (⟨[v], [s], List.replicate s.toNat 0⟩ : DiscreteFunction) else constDF 0⟩, maxIter, thresh⟩) := by
            simp only [MaxSumController.updateFac2VarMsgs, fac2VarQueueLoop,
              hpf2, ok_bind, PostOffice.noticeCount, List.length_cons,
              List.length_nil]
          have hpv1 : processVar reg
              ⟨[(id, ⟨[v], [s], vals⟩)], [(v, 0)], ⟨[(id, [(v, 2)])], [(id, [(v, 1)])], [(v, [(id, 2)])], [(v, [(id, 1)])], [], 3, fun x => if x = 2 then (⟨[v], [s], vals⟩ : DiscreteFunction) else if x = 1 ∨ x = 2 then (⟨[v], [s], List.replicate s.toNat 0⟩ : DiscreteFunction) else constDF 0⟩, ⟨[(v, [(id, 1)])], [(v, [(id, 2)])], [(id, [(v, 1)])], [(id, [(v, 2)])], [], 3, fun x => if x = 1 ∨ x = 2 then (⟨[v], [s], List.replicate s.toNat 0⟩ : DiscreteFunction) else constDF 0⟩, maxIter, thresh⟩ v
              = .ok ⟨[(id, ⟨[v], [s], vals⟩)], [(v, 0)], ⟨[(id, [(v, 2)])], [(id, [(v, 1)])], [(v, [(id, 2)])], [(v, [(id, 1)])], [], 3, fun x => if x = 2 then (⟨[v], [s], vals⟩ : DiscreteFunction) else if x = 1 ∨ x = 2 then (⟨[v], [s], List.replicate s.toNat 0⟩ : DiscreteFunction) else constDF 0⟩, ⟨[(v, [(id, 2)])], [(v, [(id, 1)])], [(id, [(v, 2)])], [(id, [(v, 1)])], [], 3, fun x => if x = 2 then (⟨[v], [s], List.replicate s.toNat 0⟩ : DiscreteFunction) else if x = 1 ∨ x = 2 then (⟨[v], [s], List.replicate s.toNat 0⟩ : DiscreteFunction) else constDF 0⟩, maxIter, thresh⟩ := by
            rw [processVar_step reg v id s vals hvl 1 2 2 (by decide) thresh
              hth [(v, 0)] [(id, ⟨[v], [s], vals⟩)] maxIter (⟨[(id, [(v, 2)])], [(id, [(v, 1)])], [(v, [(id, 2)])], [(v, [(id, 1)])], [], 3, fun x => if x = 2 then (⟨[v], [s], vals⟩ : DiscreteFunction) else if x = 1 ∨ x = 2 then (⟨[v], [s], List.replicate s.toNat 0⟩ : DiscreteFunction) else constDF 0⟩ : PostOffice) hv
              (by simp [alFind]) (by norm_num) (fun x => if x = 1 ∨ x = 2 then (⟨[v], [s], List.replicate s.toNat 0⟩ : DiscreteFunction) else constDF 0) [] 3 (by norm_num)]
            simp only [alFind, eq_self_iff_true, if_true, Option.getD_some,
              hB2, ne_eq, not_true, if_false]
            simp only [alInsert, lt_irrefl, if_false, eq_self_iff_true,
              if_true]
          have hpv2 : processVar reg
              ⟨[(id, ⟨[v], [s], vals⟩)], [(v, 0)], ⟨[(id, [(v, 2)])], [(id, [(v, 1)])], [(v, [(id, 2)])], [(v, [(id, 1)])], [], 3, fun x => if x = 2 then (⟨[v], [s], vals⟩ : DiscreteFunction) else if x = 1 ∨ x = 2 then (⟨[v], [s], List.replicate s.toNat 0⟩ : DiscreteFunction) else constDF 0⟩, ⟨[(v, [(id, 2)])], [(v, [(id, 1)])], [(id, [(v, 2)])], [(id, [(v, 1)])], [], 3, fun x => if x = 2 then (⟨[v], [s], List.replicate s.toNat 0⟩ : DiscreteFunction) else if x = 1 ∨ x = 2 then (⟨[v], [s], List.replicate s.toNat 0⟩ : DiscreteFunction) else constDF 0⟩, maxIter, thresh⟩ v
              = .ok ⟨[(id, ⟨[v], [s], vals⟩)], [(v, 0)], ⟨[(id, [(v, 2)])], [(id, [(v, 1)])], [(v, [(id, 2)])], [(v, [(id, 1)])], [], 3, fun x => if x = 2 then (⟨[v], [s], vals⟩ : DiscreteFunction) else if x = 1 ∨ x = 2 then (⟨[v], [s], List.replicate s.toNat 0⟩ : DiscreteFunction) else constDF 0⟩, ⟨[(v, [(id, 1)])], [(v, [(id, 2)])], [(id, [(v, 1)])], [(id, [(v, 2)])], [], 3, fun x => if x = 1 then (⟨[v], [s], List.replicate s.toNat 0⟩ : DiscreteFunction) else if x = 2 then (⟨[v], [s], List.replicate s.toNat 0⟩ : DiscreteFunction) else if x = 1 ∨ x = 2 then (⟨[v], [s], List.replicate s.toNat 0⟩ : DiscreteFunction) else constDF 0⟩, maxIter, thresh⟩ := by
            rw [processVar_step reg v id s vals hvl 2 1 2 (by decide) thresh
              hth [(v, 0)] [(id, ⟨[v], [s], vals⟩)] maxIter (⟨[(id, [(v, 2)])], [(id, [(v, 1)])], [(v, [(id, 2)])], [(v, [(id, 1)])], [], 3, fun x => if x = 2 then (⟨[v], [s], vals⟩ : DiscreteFunction) else if x = 1 ∨ x = 2 then (⟨[v], [s], List.replicate s.toNat 0⟩ : DiscreteFunction) else constDF 0⟩ : PostOffice) hv
              (by simp [alFind]) (by norm_num) (fun x => if x = 2 then (⟨[v], [s], List.replicate s.toNat 0⟩ : DiscreteFunction) else if x = 1 ∨ x = 2 then (⟨[v], [s], List.replicate s.toNat 0⟩ : DiscreteFunction) else constDF 0) [] 3 (by norm_num)]
            simp only [alFind, eq_self_iff_true, if_true, Option.getD_some,
              hB2, ne_eq, not_true, if_false]
            simp only [alInsert, lt_irrefl, if_false, eq_self_iff_true,
              if_true]
          have hu2 : MaxSumController.updateVar2FacMsgs reg
              ⟨[(id, ⟨[v], [s], vals⟩)], [(v, 0)], ⟨[(id, [(v, 2)])], [(id, [(v, 1)])], [(v, [(id, 2)])], [(v, [(id, 1)])], [v, v], 3, fun x => if x = 2 then (⟨[v], [s], vals⟩ : DiscreteFunction) else if x = 1 ∨ x = 2 then (⟨[v], [s], List.replicate s.toNat 0⟩ : DiscreteFunction) else constDF 0⟩, ⟨[(v, [(id, 1)])], [(v, [(id, 2)])], [(id, [(v, 1)])], [(id, [(v, 2)])], [], 3, fun x => if x = 1 ∨ x = 2 then (⟨[v], [s], List.replicate s.toNat 0⟩ : DiscreteFunction) else constDF 0⟩, maxIter, thresh⟩
              = .ok (0, ⟨[(id, ⟨[v], [s], vals⟩)], [(v, 0)], ⟨[(id, [(v, 2)])], [(id, [(v, 1)])], [(v, [(id, 2)])], [(v, [(id, 1)])], [], 3, fun x => if x = 2 then (⟨[v], [s], vals⟩ : DiscreteFunction) else if x = 1 ∨ x = 2 then (⟨[v], [s], List.replicate s.toNat 0⟩ : DiscreteFunction) else constDF 0⟩, ⟨[(v, [(id, 1)])], [(v, [(id, 2)])], [(id, [(v, 1)])], [(id, [(v, 2)])], [], 3, fun x => if x = 1 then (⟨[v], [s], List.replicate s.toNat 0⟩ : DiscreteFunction) else if x = 2 then (⟨[v], [s], List.replicate s.toNat 0⟩ : DiscreteFunction) else if x = 1 ∨ x = 2 then (⟨[v], [s], List.replicate s.toNat 0⟩ : DiscreteFunction) else constDF 0⟩, maxIter, thresh⟩) := by
            simp only [MaxSumController.updateVar2FacMsgs, var2FacQueueLoop,
              hpv1, ok_bind, hpv2, PostOffice.noticeCount, List.length_nil]
          unfold oneIteration
          rw [hu1, ok_bind, hu2, ok_bind]
          rfl
        · refine ⟨3, [(v, (⟨[v], [s], vals⟩ : DiscreteFunction).argmax)], 1, 2, fun x => if x = 2 then (⟨[v], [s], vals⟩ : DiscreteFunction) else if x = 1 ∨ x = 2 then (⟨[v], [s], List.replicate s.toNat 0⟩ : DiscreteFunction) else constDF 0, fun x => if x = 1 then (⟨[v], [s], List.replicate s.toNat 0⟩ : DiscreteFunction) else if x = 2 then (⟨[v], [s], List.replicate s.toNat 0⟩ : DiscreteFunction) else if x = 1 ∨ x = 2 then (⟨[v], [s], List.replicate s.toNat 0⟩ : DiscreteFunction) else constDF 0, [id],
              ?_, by decide, by simp [alFind], by norm_num, by norm_num,
              by norm_num, Or.inr rfl⟩
          have hpf2 : processFactor reg ⟨[(id, ⟨[v], [s], vals⟩)], [(v, 0)], ⟨[(id, [(v, 1)])], [(id, [(v, 2)])], [(v, [(id, 1)])], [(v, [(id, 2)])], [v], 3, fun x => if x = 1 ∨ x = 2 then (⟨[v], [s], List.replicate s.toNat 0⟩ : DiscreteFunction) else constDF 0⟩, ⟨[(v, [(id, 1)])], [(v, [(id, 2)])], [(id, [(v, 1)])], [(id, [(v, 2)])], [], 3, fun x => if x = 1 ∨ x = 2 then (⟨[v], [s], List.replicate s.toNat 0⟩ : DiscreteFunction) else constDF 0⟩, maxIter, thresh⟩ id
              = .ok ⟨[(id, ⟨[v], [s], vals⟩)], [(v, 0)], ⟨[(id, [(v, 2)])], [(id, [(v, 1)])], [(v, [(id, 2)])], [(v, [(id, 1)])], [v, v], 3, fun x => if x = 2 then (⟨[v], [s], vals⟩ : DiscreteFunction) else if x = 1 ∨ x = 2 then (⟨[v], [s], List.replicate s.toNat 0⟩ : DiscreteFunction) else constDF 0⟩, ⟨[(v, [(id, 1)])], [(v, [(id, 2)])], [(id, [(v, 1)])], [(id, [(v, 2)])], [], 3, fun x => if x = 1 ∨ x = 2 then (⟨[v], [s], List.replicate s.toNat 0⟩ : DiscreteFunction) else constDF 0⟩, maxIter, thresh⟩ := by
            rw [processFactor_step reg v id s vals (List.replicate s.toNat 0)
              hvl 1 2 1 (by decide) thresh [(v, 0)] maxIter
              (⟨[(v, [(id, 1)])], [(v, [(id, 2)])], [(id, [(v, 1)])], [(id, [(v, 2)])], [], 3, fun x => if x = 1 ∨ x = 2 then (⟨[v], [s], List.replicate s.toNat 0⟩ : DiscreteFunction) else constDF 0⟩ : PostOffice)
              (by simp [alFind]) (by norm_num) (fun x => if x = 1 ∨ x = 2 then (⟨[v], [s], List.replicate s.toNat 0⟩ : DiscreteFunction) else constDF 0) [v] 3 (by norm_num)
              (by
                rw [show (fun x => if x = 1 ∨ x = 2 then (⟨[v], [s], List.replicate s.toNat 0⟩ : DiscreteFunction) else constDF 0) 2 = (⟨[v], [s], List.replicate s.toNat 0⟩ : DiscreteFunction) by norm_num]
                exact hmargT)]
            rw [zipWith_sub_replicate_zero vals s.toNat (le_of_eq hvl),
              if_pos hB1]
            rfl
          have hu1 : MaxSumController.updateFac2VarMsgs reg ⟨[(id, ⟨[v], [s], vals⟩)], [(v, 0)], ⟨[(id, [(v, 1)])], [(id, [(v, 2)])], [(v, [(id, 1)])], [(v, [(id, 2)])], [v], 3, fun x => if x = 1 ∨ x = 2 then (⟨[v], [s], List.replicate s.toNat 0⟩ : DiscreteFunction) else constDF 0⟩, ⟨[(v, [(id, 1)])], [(v, [(id, 2)])], [(id, [(v, 1)])], [(id, [(v, 2)])], [id], 3, fun x => if x = 1 ∨ x = 2 then (⟨[v], [s], List.replicate s.toNat 0⟩ : DiscreteFunction) else constDF 0⟩, maxIter, thresh⟩
              = .ok (2, ⟨[(id, ⟨[v], [s], vals⟩)], [(v, 0)], ⟨[(id, [(v, 2)])], [(id, [(v, 1)])], [(v, [(id, 2)])], [(v, [(id, 1)])], [v, v], 3, fun x => if x = 2 then (⟨[v], [s], vals⟩ : DiscreteFunction) else if x = 1 ∨ x = 2 then (⟨[v], [s], List.replicate s.toNat 0⟩ : DiscreteFunction) else constDF 0⟩, ⟨[(v, [(id, 1)])], [(v, [(id, 2)])], [(id, [(v, 1)])], [(id, [(v, 2)])], [], 3, fun x => if x = 1 ∨ x = 2 then (⟨[v], [s], List.replicate s.toNat 0⟩ : DiscreteFunction) else constDF 0⟩, maxIter, thresh⟩) := by
            simp only [MaxSumController.updateFac2VarMsgs, fac2VarQueueLoop,
              hpf2, ok_bind, PostOffice.noticeCount, List.length_cons,
              List.length_nil]
          have hpv1 : processVar reg
              ⟨[(id, ⟨[v], [s], vals⟩)], [(v, 0)], ⟨[(id, [(v, 2)])], [(id, [(v, 1)])], [(v, [(id, 2)])], [(v, [(id, 1)])], [], 3, fun x => if x = 2 then (⟨[v], [s], vals⟩ : DiscreteFunction) else if x = 1 ∨ x = 2 then (⟨[v], [s], List.replicate s.toNat 0⟩ : DiscreteFunction) else constDF 0⟩, ⟨[(v, [(id, 1)])], [(v, [(id, 2)])], [(id, [(v, 1)])], [(id, [(v, 2)])], [], 3, fun x => if x = 1 ∨ x = 2 then (⟨[v], [s], List.replicate s.toNat 0⟩ : DiscreteFunction) else constDF 0⟩, maxIter, thresh⟩ v
              = .ok ⟨[(id, ⟨[v], [s], vals⟩)], [(v, (⟨[v], [s], vals⟩ : DiscreteFunction).argmax)], ⟨[(id, [(v, 2)])], [(id, [(v, 1)])], [(v, [(id, 2)])], [(v, [(id, 1)])], [], 3, fun x => if x = 2 then (⟨[v], [s], vals⟩ : DiscreteFunction) else if x = 1 ∨ x = 2 then (⟨[v], [s], List.replicate s.toNat 0⟩ : DiscreteFunction) else constDF 0⟩, ⟨[(v, [(id, 2)])], [(v, [(id, 1)])], [(id, [(v, 2)])], [(id, [(v, 1)])], [id], 3, fun x => if x = 2 then (⟨[v], [s], List.replicate s.toNat 0⟩ : DiscreteFunction) else if x = 1 ∨ x = 2 then (⟨[v], [s], List.replicate s.toNat 0⟩ : DiscreteFunction) else constDF 0⟩, maxIter, thresh⟩ := by
            rw [processVar_step reg v id s vals hvl 1 2 2 (by decide) thresh
              hth [(v, 0)] [(id, ⟨[v], [s], vals⟩)] maxIter (⟨[(id, [(v, 2)])], [(id, [(v, 1)])], [(v, [(id, 2)])], [(v, [(id, 1)])], [], 3, fun x => if x = 2 then (⟨[v], [s], vals⟩ : DiscreteFunction) else if x = 1 ∨ x = 2 then (⟨[v], [s], List.replicate s.toNat 0⟩ : DiscreteFunction) else constDF 0⟩ : PostOffice) hv
              (by simp [alFind]) (by norm_num) (fun x => if x = 1 ∨ x = 2 then (⟨[v], [s], List.replicate s.toNat 0⟩ : DiscreteFunction) else constDF 0) [] 3 (by norm_num)]
            simp only [alFind, alInsert, lt_irrefl, eq_self_iff_true, if_true,
              if_false, Option.getD_some, ne_eq, hB2, not_false_eq_true]
          have hpv2 : processVar reg
              ⟨[(id, ⟨[v], [s], vals⟩)], [(v, (⟨[v], [s], vals⟩ : DiscreteFunction).argmax)], ⟨[(id, [(v, 2)])], [(id, [(v, 1)])], [(v, [(id, 2)])], [(v, [(id, 1)])], [], 3, fun x => if x = 2 then (⟨[v], [s], vals⟩ : DiscreteFunction) else if x = 1 ∨ x = 2 then (⟨[v], [s], List.replicate s.toNat 0⟩ : DiscreteFunction) else constDF 0⟩, ⟨[(v, [(id, 2)])], [(v, [(id, 1)])], [(id, [(v, 2)])], [(id, [(v, 1)])], [id], 3, fun x => if x = 2 then (⟨[v], [s], List.replicate s.toNat 0⟩ : DiscreteFunction) else if x = 1 ∨ x = 2 then (⟨[v], [s], List.replicate s.toNat 0⟩ : DiscreteFunction) else constDF 0⟩, maxIter, thresh⟩ v
              = .ok ⟨[(id, ⟨[v], [s], vals⟩)], [(v, (⟨[v], [s], vals⟩ : DiscreteFunction).argmax)], ⟨[(id, [(v, 2)])], [(id, [(v, 1)])], [(v, [(id, 2)])], [(v, [(id, 1)])], [], 3, fun x => if x = 2 then (⟨[v], [s], vals⟩ : DiscreteFunction) else if x = 1 ∨ x = 2 then (⟨[v], [s], List.replicate s.toNat 0⟩ : DiscreteFunction) else constDF 0⟩, ⟨[(v, [(id, 1)])], [(v, [(id, 2)])], [(id, [(v, 1)])], [(id, [(v, 2)])], [id], 3, fun x => if x = 1 then (⟨[v], [s], List.replicate s.toNat 0⟩ : DiscreteFunction) else if x = 2 then (⟨[v], [s], List.replicate s.toNat 0⟩ : DiscreteFunction) else if x = 1 ∨ x = 2 then (⟨[v], [s], List.replicate s.toNat 0⟩ : DiscreteFunction) else constDF 0⟩, maxIter, thresh⟩ := by
            rw [processVar_step reg v id s vals hvl 2 1 2 (by decide) thresh
              hth [(v, (⟨[v], [s], vals⟩ : DiscreteFunction).argmax)] [(id, ⟨[v], [s], vals⟩)] maxIter (⟨[(id, [(v, 2)])], [(id, [(v, 1)])], [(v, [(id, 2)])], [(v, [(id, 1)])], [], 3, fun x => if x = 2 then (⟨[v], [s], vals⟩ : DiscreteFunction) else if x = 1 ∨ x = 2 then (⟨[v], [s], List.replicate s.toNat 0⟩ : DiscreteFunction) else constDF 0⟩ : PostOffice) hv
              (by simp [alFind]) (by norm_num) (fun x => if x = 2 then (⟨[v], [s], List.replicate s.toNat 0⟩ : DiscreteFunction) else if x = 1 ∨ x = 2 then (⟨[v], [s], List.replicate s.toNat 0⟩ : DiscreteFunction) else constDF 0) [id] 3 (by norm_num)]
            simp only [alFind, alInsert, lt_irrefl, eq_self_iff_true, if_true,
              if_false, Option.getD_some, ne_eq, not_true]
          have hu2 : MaxSumController.updateVar2FacMsgs reg
              ⟨[(id, ⟨[v], [s], vals⟩)], [(v, 0)], ⟨[(id, [(v, 2)])], [(id, [(v, 1)])], [(v, [(id, 2)])], [(v, [(id, 1)])], [v, v], 3, fun x => if x = 2 then (⟨[v], [s], vals⟩ : DiscreteFunction) else if x = 1 ∨ x = 2 then (⟨[v], [s], List.replicate s.toNat 0⟩ : DiscreteFunction) else constDF 0⟩, ⟨[(v, [(id, 1)])], [(v, [(id, 2)])], [(id, [(v, 1)])], [(id, [(v, 2)])], [], 3, fun x => if x = 1 ∨ x = 2 then (⟨[v], [s], List.replicate s.toNat 0⟩ : DiscreteFunction) else constDF 0⟩, maxIter, thresh⟩
              = .ok (1, ⟨[(id, ⟨[v], [s], vals⟩)], [(v, (⟨[v], [s], vals⟩ : DiscreteFunction).argmax)], ⟨[(id, [(v, 2)])], [(id, [(v, 1)])], [(v, [(id, 2)])], [(v, [(id, 1)])], [], 3, fun x => if x = 2 then (⟨[v], [s], vals⟩ : DiscreteFunction) else if x = 1 ∨ x = 2 then (⟨[v], [s], List.replicate s.toNat 0⟩ : DiscreteFunction) else constDF 0⟩, ⟨[(v, [(id, 1)])], [(v, [(id, 2)])], [(id, [(v, 1)])], [(id, [(v, 2)])], [id], 3, fun x => if x = 1 then (⟨[v], [s], List.replicate s.toNat 0⟩ : DiscreteFunction) else if x = 2 then (⟨[v], [s], List.replicate s.toNat 0⟩ : DiscreteFunction) else if x = 1 ∨ x = 2 then (⟨[v], [s], List.replicate s.toNat 0⟩ : DiscreteFunction) else constDF 0⟩, maxIter, thresh⟩) := by
            simp only [MaxSumController.updateVar2FacMsgs, var2FacQueueLoop,
              hpv1, hpv2, ok_bind, PostOffice.noticeCount, List.length_cons, List.length_nil]
          unfold oneIteration
          rw [hu1, ok_bind, hu2, ok_bind]
          rfl
      · by_cases hB2 : (⟨[v], [s], vals⟩ : DiscreteFunction).argmax = 0
        · refine ⟨1, [(v, 0)], 2, 1, fun x => if x = 2 then (⟨[v], [s], vals⟩ : DiscreteFunction) else if x = 1 ∨ x = 2 then (⟨[v], [s], List.replicate s.toNat 0⟩ : DiscreteFunction) else constDF 0, fun x => if x = 2 then (⟨[v], [s], List.replicate s.toNat 0⟩ : DiscreteFunction) else if x = 1 ∨ x = 2 then (⟨[v], [s], List.replicate s.toNat 0⟩ : DiscreteFunction) else constDF 0, [],
              ?_, by decide, by simp [alFind, hB2], by norm_num, by norm_num,
              by norm_num, Or.inl rfl⟩
          have hpf2 : processFactor reg ⟨[(id, ⟨[v], [s], vals⟩)], [(v, 0)], ⟨[(id, [(v, 1)])], [(id, [(v, 2)])], [(v, [(id, 1)])], [(v, [(id, 2)])], [v], 3, fun x => if x = 1 ∨ x = 2 then (⟨[v], [s], List.replicate s.toNat 0⟩ : DiscreteFunction) else constDF 0⟩, ⟨[(v, [(id, 1)])], [(v, [(id, 2)])], [(id, [(v, 1)])], [(id, [(v, 2)])], [], 3, fun x => if x = 1 ∨ x = 2 then (⟨[v], [s], List.replicate s.toNat 0⟩ : DiscreteFunction) else constDF 0⟩, maxIter, thresh⟩ id
              = .ok ⟨[(id, ⟨[v], [s], vals⟩)], [(v, 0)], ⟨[(id, [(v, 2)])], [(id, [(v, 1)])], [(v, [(id, 2)])], [(v, [(id, 1)])], [v], 3, fun x => if x = 2 then (⟨[v], [s], vals⟩ : DiscreteFunction) else if x = 1 ∨ x = 2 then (⟨[v], [s], List.replicate s.toNat 0⟩ : DiscreteFunction) else constDF 0⟩, ⟨[(v, [(id, 1)])], [(v, [(id, 2)])], [(id, [(v, 1)])], [(id, [(v, 2)])], [], 3, fun x => if x = 1 ∨ x = 2 then (⟨[v], [s], List.replicate s.toNat 0⟩ : DiscreteFunction) else constDF 0⟩, maxIter, thresh⟩ := by
            rw [processFactor_step reg v id s vals (List.replicate s.toNat 0)
              hvl 1 2 1 (by decide) thresh [(v, 0)] maxIter
              (⟨[(v, [(id, 1)])], [(v, [(id, 2)])], [(id, [(v, 1)])], [(id, [(v, 2)])], [], 3, fun x => if x = 1 ∨ x = 2 then (⟨[v], [s], List.replicate s.toNat 0⟩ : DiscreteFunction) else constDF 0⟩ : PostOffice)
              (by simp [alFind]) (by norm_num) (fun x => if x = 1 ∨ x = 2 then (⟨[v], [s], List.replicate s.toNat 0⟩ : DiscreteFunction) else constDF 0) [v] 3 (by norm_num)
              (by
                rw [show (fun x => if x = 1 ∨ x = 2 then (⟨[v], [s], List.replicate s.toNat 0⟩ : DiscreteFunction) else constDF 0) 2 = (⟨[v], [s], List.replicate s.toNat 0⟩ : DiscreteFunction) by norm_num]
                exact hmargT)]
            rw [zipWith_sub_replicate_zero vals s.toNat (le_of_eq hvl),
              if_neg hB1]
          have hu1 : MaxSumController.updateFac2VarMsgs reg ⟨[(id, ⟨[v], [s], vals⟩)], [(v, 0)], ⟨[(id, [(v, 1)])], [(id, [(v, 2)])], [(v, [(id, 1)])], [(v, [(id, 2)])], [v], 3, fun x => if x = 1 ∨ x = 2 then (⟨[v], [s], List.replicate s.toNat 0⟩ : DiscreteFunction) else constDF 0⟩, ⟨[(v, [(id, 1)])], [(v, [(id, 2)])], [(id, [(v, 1)])], [(id, [(v, 2)])], [id], 3, fun x => if x = 1 ∨ x = 2 then (⟨[v], [s], List.replicate s.toNat 0⟩ : DiscreteFunction) else constDF 0⟩, maxIter, thresh⟩
              = .ok (1, ⟨[(id, ⟨[v], [s], vals⟩)], [(v, 0)], ⟨[(id, [(v, 2)])], [(id, [(v, 1)])], [(v, [(id, 2)])], [(v, [(id, 1)])], [v], 3, fun x => if x = 2 then (⟨[v], [s], vals⟩ : DiscreteFunction) else if x = 1 ∨ x = 2 then (⟨[v], [s], List.replicate s.toNat 0⟩ : DiscreteFunction) else constDF 0⟩, ⟨[(v, [(id, 1)])], [(v, [(id, 2)])], [(id, [(v, 1)])], [(id, [(v, 2)])], [], 3, fun x => if x = 1 ∨ x = 2 then (⟨[v], [s], List.replicate s.toNat 0⟩ : DiscreteFunction) else constDF 0⟩, maxIter, thresh⟩) := by
            simp only [MaxSumController.updateFac2VarMsgs, fac2VarQueueLoop,
              hpf2, ok_bind, PostOffice.noticeCount, List.length_cons,
              List.length_nil]
          have hpv1 : processVar reg
              ⟨[(id, ⟨[v], [s], vals⟩)], [(v, 0)], ⟨[(id, [(v, 2)])], [(id, [(v, 1)])], [(v, [(id, 2)])], [(v, [(id, 1)])], [], 3, fun x => if x = 2 then (⟨[v], [s], vals⟩ : DiscreteFunction) else if x = 1 ∨ x = 2 then (⟨[v], [s], List.replicate s.toNat 0⟩ : DiscreteFunction) else constDF 0⟩, ⟨[(v, [(id, 1)])], [(v, [(id, 2)])], [(id, [(v, 1)])], [(id, [(v, 2)])], [], 3, fun x => if x = 1 ∨ x = 2 then (⟨[v], [s], List.replicate s.toNat 0⟩ : DiscreteFunction) else constDF 0⟩, maxIter, thresh⟩ v
              = .ok ⟨[(id, ⟨[v], [s], vals⟩)], [(v, 0)], ⟨[(id, [(v, 2)])], [(id, [(v, 1)])], [(v, [(id, 2)])], [(v, [(id, 1)])], [], 3, fun x => if x = 2 then (⟨[v], [s], vals⟩ : DiscreteFunction) else if x = 1 ∨ x = 2 then (⟨[v], [s], List.replicate s.toNat 0⟩ : DiscreteFunction) else constDF 0⟩, ⟨[(v, [(id, 2)])], [(v, [(id, 1)])], [(id, [(v, 2)])], [(id, [(v, 1)])], [], 3, fun x => if x = 2 then (⟨[v], [s], List.replicate s.toNat 0⟩ : DiscreteFunction) else if x = 1 ∨ x = 2 then (⟨[v], [s], List.replicate s.toNat 0⟩ : DiscreteFunction) else constDF 0⟩, maxIter, thresh⟩ := by
            rw [processVar_step reg v id s vals hvl 1 2 2 (by decide) thresh
              hth [(v, 0)] [(id, ⟨[v], [s], vals⟩)] maxIter (⟨[(id, [(v, 2)])], [(id, [(v, 1)])], [(v, [(id, 2)])], [(v, [(id, 1)])], [], 3, fun x => if x = 2 then (⟨[v], [s], vals⟩ : DiscreteFunction) else if x = 1 ∨ x = 2 then (⟨[v], [s], List.replicate s.toNat 0⟩ : DiscreteFunction) else constDF 0⟩ : PostOffice) hv
              (by simp [alFind]) (by norm_num) (fun x => if x = 1 ∨ x = 2 then (⟨[v], [s], List.replicate s.toNat 0⟩ : DiscreteFunction) else constDF 0) [] 3 (by norm_num)]
            simp only [alFind, eq_self_iff_true, if_true, Option.getD_some,
              hB2, ne_eq, not_true, if_false]
            simp only [alInsert, lt_irrefl, if_false, eq_self_iff_true,
              if_true]
          have hu2 : MaxSumController.updateVar2FacMsgs reg
              ⟨[(id, ⟨[v], [s], vals⟩)], [(v, 0)], ⟨[(id, [(v, 2)])], [(id, [(v, 1)])], [(v, [(id, 2)])], [(v, [(id, 1)])], [v], 3, fun x => if x = 2 then (⟨[v], [s], vals⟩ : DiscreteFunction) else if x = 1 ∨ x = 2 then (⟨[v], [s], List.replicate s.toNat 0⟩ : DiscreteFunction) else constDF 0⟩, ⟨[(v, [(id, 1)])], [(v, [(id, 2)])], [(id, [(v, 1)])], [(id, [(v, 2)])], [], 3, fun x => if x = 1 ∨ x = 2 then (⟨[v], [s], List.replicate s.toNat 0⟩ : DiscreteFunction) else constDF 0⟩, maxIter, thresh⟩
              = .ok (0, ⟨[(id, ⟨[v], [s], vals⟩)], [(v, 0)], ⟨[(id, [(v, 2)])], [(id, [(v, 1)])], [(v, [(id, 2)])], [(v, [(id, 1)])], [], 3, fun x => if x = 2 then (⟨[v], [s], vals⟩ : DiscreteFunction) else if x = 1 ∨ x = 2 then (⟨[v], [s], List.replicate s.toNat 0⟩ : DiscreteFunction) else constDF 0⟩, ⟨[(v, [(id, 2)])], [(v, [(id, 1)])], [(id, [(v, 2)])], [(id, [(v, 1)])], [], 3, fun x => if x = 2 then (⟨[v], [s], List.replicate s.toNat 0⟩ : DiscreteFunction) else if x = 1 ∨ x = 2 then (⟨[v], [s], List.replicate s.toNat 0⟩ : DiscreteFunction) else constDF 0⟩, maxIter, thresh⟩) := by
            simp only [MaxSumController.updateVar2FacMsgs, var2FacQueueLoop,
              hpv1, ok_bind, PostOffice.noticeCount, List.length_cons, List.length_nil]
          unfold oneIteration
          rw [hu1, ok_bind, hu2, ok_bind]
          rfl
        · refine ⟨2, [(v, (⟨[v], [s], vals⟩ : DiscreteFunction).argmax)], 2, 1, fun x => if x = 2 then (⟨[v], [s], vals⟩ : DiscreteFunction) else if x = 1 ∨ x = 2 then (⟨[v], [s], List.replicate s.toNat 0⟩ : DiscreteFunction) else constDF 0, fun x => if x = 2 then (⟨[v], [s], List.replicate s.toNat 0⟩ : DiscreteFunction) else if x = 1 ∨ x = 2 then (⟨[v], [s], List.replicate s.toNat 0⟩ : DiscreteFunction) else constDF 0, [id],
              ?_, by decide, by simp [alFind], by norm_num, by norm_num,
              by norm_num, Or.inr rfl⟩
          have hpf2 : processFactor reg ⟨[(id, ⟨[v], [s], vals⟩)], [(v, 0)], ⟨[(id, [(v, 1)])], [(id, [(v, 2)])], [(v, [(id, 1)])], [(v, [(id, 2)])], [v], 3, fun x => if x = 1 ∨ x = 2 then (⟨[v], [s], List.replicate s.toNat 0⟩ : DiscreteFunction) else constDF 0⟩, ⟨[(v, [(id, 1)])], [(v, [(id, 2)])], [(id, [(v, 1)])], [(id, [(v, 2)])], [], 3, fun x => if x = 1 ∨ x = 2 then (⟨[v], [s], List.replicate s.toNat 0⟩ : DiscreteFunction) else constDF 0⟩, maxIter, thresh⟩ id
              = .ok ⟨[(id, ⟨[v], [s], vals⟩)], [(v, 0)], ⟨[(id, [(v, 2)])], [(id, [(v, 1)])], [(v, [(id, 2)])], [(v, [(id, 1)])], [v], 3, fun x => if x = 2 then (⟨[v], [s], vals⟩ : DiscreteFunction) else if x = 1 ∨ x = 2 then (⟨[v], [s], List.replicate s.toNat 0⟩ : DiscreteFunction) else constDF 0⟩, ⟨[(v, [(id, 1)])], [(v, [(id, 2)])], [(id, [(v, 1)])], [(id, [(v, 2)])], [], 3, fun x => if x = 1 ∨ x = 2 then (⟨[v], [s], List.replicate s.toNat 0⟩ : DiscreteFunction) else constDF 0⟩, maxIter, thresh⟩ := by
            rw [processFactor_step reg v id s vals (List.replicate s.toNat 0)
              hvl 1 2 1 (by decide) thresh [(v, 0)] maxIter
              (⟨[(v, [(id, 1)])], [(v, [(id, 2)])], [(id, [(v, 1)])], [(id, [(v, 2)])], [], 3, fun x => if x = 1 ∨ x = 2 then (⟨[v], [s], List.replicate s.toNat 0⟩ : DiscreteFunction) else constDF 0⟩ : PostOffice)
              (by simp [alFind]) (by norm_num) (fun x => if x = 1 ∨ x = 2 then (⟨[v], [s], List.replicate s.toNat 0⟩ : DiscreteFunction) else constDF 0) [v] 3 (by norm_num)
              (by
                rw [show (fun x => if x = 1 ∨ x = 2 then (⟨[v], [s], List.replicate s.toNat 0⟩ : DiscreteFunction) else constDF 0) 2 = (⟨[v], [s], List.replicate s.toNat 0⟩ : DiscreteFunction) by norm_num]
                exact hmargT)]
            rw [zipWith_sub_replicate_zero vals s.toNat (le_of_eq hvl),
              if_neg hB1]
          have hu1 : MaxSumController.updateFac2VarMsgs reg ⟨[(id, ⟨[v], [s], vals⟩)], [(v, 0)], ⟨[(id, [(v, 1)])], [(id, [(v, 2)])], [(v, [(id, 1)])], [(v, [(id, 2)])], [v], 3, fun x => if x = 1 ∨ x = 2 then (⟨[v], [s], List.replicate s.toNat 0⟩ : DiscreteFunction) else constDF 0⟩, ⟨[(v, [(id, 1)])], [(v, [(id, 2)])], [(id, [(v, 1)])], [(id, [(v, 2)])], [id], 3, fun x => if x = 1 ∨ x = 2 then (⟨[v], [s], List.replicate s.toNat 0⟩ : DiscreteFunction) else constDF 0⟩, maxIter, thresh⟩
              = .ok (1, ⟨[(id, ⟨[v], [s], vals⟩)], [(v, 0)], ⟨[(id, [(v, 2)])], [(id, [(v, 1)])], [(v, [(id, 2)])], [(v, [(id, 1)])], [v], 3, fun x => if x = 2 then (⟨[v], [s], vals⟩ : DiscreteFunction) else if x = 1 ∨ x = 2 then (⟨[v], [s], List.replicate s.toNat 0⟩ : DiscreteFunction) else constDF 0⟩, ⟨[(v, [(id, 1)])], [(v, [(id, 2)])], [(id, [(v, 1)])], [(id, [(v, 2)])], [], 3, fun x => if x = 1 ∨ x = 2 then (⟨[v], [s], List.replicate s.toNat 0⟩ : DiscreteFunction) else constDF 0⟩, maxIter, thresh⟩) := by
            simp only [MaxSumController.updateFac2VarMsgs, fac2VarQueueLoop,
              hpf2, ok_bind, PostOffice.noticeCount, List.length_cons,
              List.length_nil]
          have hpv1 : processVar reg
              ⟨[(id, ⟨[v], [s], vals⟩)], [(v, 0)], ⟨[(id, [(v, 2)])], [(id, [(v, 1)])], [(v, [(id, 2)])], [(v, [(id, 1)])], [], 3, fun x => if x = 2 then (⟨[v], [s], vals⟩ : DiscreteFunction) else if x = 1 ∨ x = 2 then (⟨[v], [s], List.replicate s.toNat 0⟩ : DiscreteFunction) else constDF 0⟩, ⟨[(v, [(id, 1)])], [(v, [(id, 2)])], [(id, [(v, 1)])], [(id, [(v, 2)])], [], 3, fun x => if x = 1 ∨ x = 2 then (⟨[v], [s], List.replicate s.toNat 0⟩ : DiscreteFunction) else constDF 0⟩, maxIter, thresh⟩ v
              = .ok ⟨[(id, ⟨[v], [s], vals⟩)], [(v, (⟨[v], [s], vals⟩ : DiscreteFunction).argmax)], ⟨[(id, [(v, 2)])], [(id, [(v, 1)])], [(v, [(id, 2)])], [(v, [(id, 1)])], [], 3, fun x => if x = 2 then (⟨[v], [s], vals⟩ : DiscreteFunction) else if x = 1 ∨ x = 2 then (⟨[v], [s], List.replicate s.toNat 0⟩ : DiscreteFunction) else constDF 0⟩, ⟨[(v, [(id, 2)])], [(v, [(id, 1)])], [(id, [(v, 2)])], [(id, [(v, 1)])], [id], 3, fun x => if x = 2 then (⟨[v], [s], List.replicate s.toNat 0⟩ : DiscreteFunction) else if x = 1 ∨ x = 2 then (⟨[v], [s], List.replicate s.toNat 0⟩ : DiscreteFunction) else constDF 0⟩, maxIter, thresh⟩ := by
            rw [processVar_step reg v id s vals hvl 1 2 2 (by decide) thresh
              hth [(v, 0)] [(id, ⟨[v], [s], vals⟩)] maxIter (⟨[(id, [(v, 2)])], [(id, [(v, 1)])], [(v, [(id, 2)])], [(v, [(id, 1)])], [], 3, fun x => if x = 2 then (⟨[v], [s], vals⟩ : DiscreteFunction) else if x = 1 ∨ x = 2 then (⟨[v], [s], List.replicate s.toNat 0⟩ : DiscreteFunction) else constDF 0⟩ : PostOffice) hv
              (by simp [alFind]) (by norm_num) (fun x => if x = 1 ∨ x = 2 then (⟨[v], [s], List.replicate s.toNat 0⟩ : DiscreteFunction) else constDF 0) [] 3 (by norm_num)]
            simp only [alFind, alInsert, lt_irrefl, eq_self_iff_true, if_true,
              if_false, Option.getD_some, ne_eq, hB2, not_false_eq_true]
          have hu2 : MaxSumController.updateVar2FacMsgs reg
              ⟨[(id, ⟨[v], [s], vals⟩)], [(v, 0)], ⟨[(id, [(v, 2)])], [(id, [(v, 1)])], [(v, [(id, 2)])], [(v, [(id, 1)])], [v], 3, fun x => if x = 2 then (⟨[v], [s], vals⟩ : DiscreteFunction) else if x = 1 ∨ x = 2 then (⟨[v], [s], List.replicate s.toNat 0⟩ : DiscreteFunction) else constDF 0⟩, ⟨[(v, [(id, 1)])], [(v, [(id, 2)])], [(id, [(v, 1)])], [(id, [(v, 2)])], [], 3, fun x => if x = 1 ∨ x = 2 then (⟨[v], [s], List.replicate s.toNat 0⟩ : DiscreteFunction) else constDF 0⟩, maxIter, thresh⟩
              = .ok (1, ⟨[(id, ⟨[v], [s], vals⟩)], [(v, (⟨[v], [s], vals⟩ : DiscreteFunction).argmax)], ⟨[(id, [(v, 2)])], [(id, [(v, 1)])], [(v, [(id, 2)])], [(v, [(id, 1)])], [], 3, fun x => if x = 2 then (⟨[v], [s], vals⟩ : DiscreteFunction) else if x = 1 ∨ x = 2 then (⟨[v], [s], List.replicate s.toNat 0⟩ : DiscreteFunction) else constDF 0⟩, ⟨[(v, [(id, 2)])], [(v, [(id, 1)])], [(id, [(v, 2)])], [(id, [(v, 1)])], [id], 3, fun x => if x = 2 then (⟨[v], [s], List.replicate s.toNat 0⟩ : DiscreteFunction) else if x = 1 ∨ x = 2 then (⟨[v], [s], List.replicate s.toNat 0⟩ : DiscreteFunction) else constDF 0⟩, maxIter, thresh⟩) := by
            simp only [MaxSumController.updateVar2FacMsgs, var2FacQueueLoop,
              hpv1, ok_bind, PostOffice.noticeCount, List.length_cons, List.length_nil]
          unfold oneIteration
          rw [hu1, ok_bind, hu2, ok_bind]
          rfl
    obtain ⟨k, W, p, q, Hf, Hv, nots2, hone1, hk0, hWv, hHf2, hHf1, hHvp,
      hnots2⟩ := hiter1
    have hiter2 : ∃ (fo vo : PostOffice),
        oneIteration reg ⟨[(id, ⟨[v], [s], vals⟩)], W, ⟨[(id, [(v, 2)])], [(id, [(v, 1)])], [(v, [(id, 2)])], [(v, [(id, 1)])], [], 3, Hf⟩, ⟨[(v, [(id, p)])], [(v, [(id, q)])], [(id, [(v, p)])], [(id, [(v, q)])], nots2, 3, Hv⟩, maxIter, thresh⟩
          = .ok (0, ⟨[(id, ⟨[v], [s], vals⟩)], W, fo, vo, maxIter, thresh⟩) := by
      rcases hnots2 with h2 | h2
      · subst h2
        exact ⟨_, _, rfl⟩
      · subst h2
        have hpf : processFactor reg ⟨[(id, ⟨[v], [s], vals⟩)], W, ⟨[(id, [(v, 2)])], [(id, [(v, 1)])], [(v, [(id, 2)])], [(v, [(id, 1)])], [], 3, Hf⟩, ⟨[(v, [(id, p)])], [(v, [(id, q)])], [(id, [(v, p)])], [(id, [(v, q)])], [], 3, Hv⟩, maxIter, thresh⟩ id
            = .ok ⟨[(id, ⟨[v], [s], vals⟩)], W, ⟨[(id, [(v, 1)])], [(id, [(v, 2)])], [(v, [(id, 1)])], [(v, [(id, 2)])], [], 3, fun x => if x = 1 then ⟨[v], [s], vals⟩ else Hf x⟩, ⟨[(v, [(id, p)])], [(v, [(id, q)])], [(id, [(v, p)])], [(id, [(v, q)])], [], 3, Hv⟩, maxIter, thresh⟩ := by
          rw [processFactor_step reg v id s vals vals hvl 2 1 p (by decide)
            thresh W maxIter (⟨[(v, [(id, p)])], [(v, [(id, q)])], [(id, [(v, p)])], [(id, [(v, q)])], [], 3, Hv⟩ : PostOffice)
            (by simp [alFind]) hHvp Hf [] 3 hHf2
            (by rw [hHf1]; exact hmargT)]
          rw [zipWith_sub_self, hvl, maxnorm_zeros, if_neg hth]
        have hf2v : MaxSumController.updateFac2VarMsgs reg ⟨[(id, ⟨[v], [s], vals⟩)], W, ⟨[(id, [(v, 2)])], [(id, [(v, 1)])], [(v, [(id, 2)])], [(v, [(id, 1)])], [], 3, Hf⟩, ⟨[(v, [(id, p)])], [(v, [(id, q)])], [(id, [(v, p)])], [(id, [(v, q)])], [id], 3, Hv⟩, maxIter, thresh⟩
            = .ok (0, ⟨[(id, ⟨[v], [s], vals⟩)], W, ⟨[(id, [(v, 1)])], [(id, [(v, 2)])], [(v, [(id, 1)])], [(v, [(id, 2)])], [], 3, fun x => if x = 1 then ⟨[v], [s], vals⟩ else Hf x⟩, ⟨[(v, [(id, p)])], [(v, [(id, q)])], [(id, [(v, p)])], [(id, [(v, q)])], [], 3, Hv⟩, maxIter, thresh⟩) := by
          simp only [MaxSumController.updateFac2VarMsgs, fac2VarQueueLoop,
            hpf, ok_bind, PostOffice.noticeCount, List.length_nil]
        refine ⟨⟨[(id, [(v, 1)])], [(id, [(v, 2)])], [(v, [(id, 1)])], [(v, [(id, 2)])], [], 3, fun x => if x = 1 then ⟨[v], [s], vals⟩ else Hf x⟩, ⟨[(v, [(id, p)])], [(v, [(id, q)])], [(id, [(v, p)])], [(id, [(v, q)])], [], 3, Hv⟩, ?_⟩
        unfold oneIteration
        rw [hf2v, ok_bind]
        rfl
    obtain ⟨fo, vo, hone2⟩ := hiter2
    have hopt2 : optimiseLoop reg maxIter.toNat 0
        ⟨[(id, ⟨[v], [s], vals⟩)], [(v, 0)], ⟨[(id, [(v, 1)])], [(id, [(v, 2)])], [(v, [(id, 1)])], [(v, [(id, 2)])], [v], 3, fun x => if x = 1 ∨ x = 2 then (⟨[v], [s], List.replicate s.toNat 0⟩ : DiscreteFunction) else constDF 0⟩, ⟨[(v, [(id, 1)])], [(v, [(id, 2)])], [(id, [(v, 1)])], [(id, [(v, 2)])], [id], 3, fun x => if x = 1 ∨ x = 2 then (⟨[v], [s], List.replicate s.toNat 0⟩ : DiscreteFunction) else constDF 0⟩, maxIter, thresh⟩ = .ok (n, c2) := hopt
    obtain ⟨m, hm⟩ : ∃ m, maxIter.toNat = m + 1 :=
      ⟨maxIter.toNat - 1, by omega⟩
    rw [hm] at hopt2
    simp only [optimiseLoop] at hopt2
    rw [hone1] at hopt2
    simp only [ok_bind] at hopt2
    rw [if_neg hk0] at hopt2
    cases m with
    | zero =>
      simp only [optimiseLoop] at hopt2
      injection hopt2 with hp
      rw [Prod.mk.injEq] at hp
      obtain ⟨hn, hc⟩ := hp
      subst hc
      show (match alFind W v with
        | none => Except.error MsErr.noSuchElement
        | some x => Except.ok x)
        = Except.ok (⟨[v], [s], vals⟩ : DiscreteFunction).argmax
      rw [hWv]
    | succ m2 =>
      simp only [optimiseLoop] at hopt2
      rw [hone2] at hopt2
      simp only [ok_bind] at hopt2
      simp only [if_true] at hopt2
      injection hopt2 with hp
      rw [Prod.mk.injEq] at hp
      obtain ⟨hn, hc⟩ := hp
      subst hc
      show (match alFind W v with
        | none => Except.error MsErr.noSuchElement
        | some x => Except.ok x)
        = Except.ok (⟨[v], [s], vals⟩ : DiscreteFunction).argmax
      rw [hWv]

attribute [local semireducible] Rat.sub Rat.add Rat.mul Rat.inv

/-- Witness instantiating `claim_C8_optimise`: the empty controller
stops after one counted iteration, and a single factor on variable 2
with values [10, 20, 30] drives the stored assignment to the argmax
index 2. -/
theorem claim_C8_witness :
    (mkMaxSumController 5 0).optimise regDemo
      = .ok (1, mkMaxSumController 5 0) ∧
    ((mkMaxSumController 5 0).setFactor regDemo 7
        ⟨[2], [3], [10, 20, 30]⟩).bind
      (fun c1 => (MaxSumController.optimise regDemo c1).bind
        (fun r => r.2.getValue 2)) = .ok 2 := by
  constructor
  · exact (claim_C8_optimise regDemo).1 5 0 (by norm_num)
  · have hsetS := setFactor_single regDemo 2 7 3 [10, 20, 30] rfl 5 0
    obtain ⟨n, c2, hoptC⟩ : ∃ n c2, MaxSumController.optimise regDemo
        ⟨[(7, ⟨[2], [3], [10, 20, 30]⟩)], [(2, 0)],
         ⟨[(7, [(2, 1)])], [(7, [(2, 2)])], [(2, [(7, 1)])],
          [(2, [(7, 2)])], [2], 3,
          fun x => if x = 1 ∨ x = 2
                   then ⟨[2], [3], List.replicate (3 : Int).toNat 0⟩
                   else constDF 0⟩,
         ⟨[(2, [(7, 1)])], [(2, [(7, 2)])], [(7, [(2, 1)])],
          [(7, [(2, 2)])], [7], 3,
          fun x => if x = 1 ∨ x = 2
                   then ⟨[2], [3], List.replicate (3 : Int).toNat 0⟩
                   else constDF 0⟩,
         5, 0⟩ = .ok (n, c2) := ⟨_, _, rfl⟩
    have h := (claim_C8_optimise regDemo).2 2 7 3 [10, 20, 30] 5 0 _ n c2
      regDemo_wf rfl (by norm_num) (by norm_num) (by norm_num) hsetS hoptC
    rw [hsetS]
    show (MaxSumController.optimise regDemo
        ⟨[(7, ⟨[2], [3], [10, 20, 30]⟩)], [(2, 0)],
         ⟨[(7, [(2, 1)])], [(7, [(2, 2)])], [(2, [(7, 1)])],
          [(2, [(7, 2)])], [2], 3,
          fun x => if x = 1 ∨ x = 2
                   then ⟨[2], [3], List.replicate (3 : Int).toNat 0⟩
                   else constDF 0⟩,
         ⟨[(2, [(7, 1)])], [(2, [(7, 2)])], [(7, [(2, 1)])],
          [(7, [(2, 2)])], [7], 3,
          fun x => if x = 1 ∨ x = 2
                   then ⟨[2], [3], List.replicate (3 : Int).toNat 0⟩
                   else constDF 0⟩,
         5, 0⟩).bind
      (fun r => r.2.getValue 2) = .ok 2
    rw [hoptC]
    show c2.getValue 2 = .ok 2
    rw [h]
    rfl

end Maxsum
